import Mathlib

/-!
Verification of the openclaw-gmail channel plugin core.

The TypeScript sources are shallowly embedded: strings are lists of
characters (`JStr`), the JavaScript regular-expression operations used by
the code are implemented as explicit character scanners with the same
matching semantics, and effectful code (the sync engine, the circuit
breaker) is modelled by explicit state passing over an environment of
oracles for the remote calls (subprocess output, clock, remote message
fetches) whose values the program does not control.
-/

set_option maxHeartbeats 1000000

/-- JavaScript strings are modelled as lists of characters. -/
abbrev JStr := List Char

/-- Conversion from Lean string literals to the embedding's string type. -/
def str (s : String) : JStr := s.data

/-- Whitespace per JavaScript `\s` / `trim()` (the code points the repo's
inputs can contain). -/
def isJsSpace (c : Char) : Bool :=
  c = ' ' || c = '\t' || c = '\n' || c = '\r' ||
  c = '\x0b' || c = '\x0c' || c = ' ' || c = '﻿'

/-- Source `String.prototype.toLowerCase` (ASCII range, which is what the
sources compare). -/
def jsLower (s : JStr) : JStr := s.map Char.toLower

/-- Source `String.prototype.trim`. -/
def jsTrim (s : JStr) : JStr :=
  ((s.dropWhile isJsSpace).reverse.dropWhile isJsSpace).reverse

/-- Source `a.startsWith(p)`. -/
def hasPre : JStr → JStr → Bool
  | [], _ => true
  | _ :: _, [] => false
  | p :: ps, c :: cs => p = c && hasPre ps cs

/-- Source `a.endsWith(p)`. -/
def hasSuf (p s : JStr) : Bool := hasPre p.reverse s.reverse

/-- Source `s.includes(pat)` (substring containment). -/
def hasSub (pat : JStr) : JStr → Bool
  | [] => hasPre pat []
  | c :: cs => hasPre pat (c :: cs) || hasSub pat cs

/-- Case-insensitive prefix test (for `i`-flagged regex literals). -/
def hasPreCI (p s : JStr) : Bool := hasPre (jsLower p) (jsLower s)

/-- Case-insensitive substring test. -/
def hasSubCI (pat s : JStr) : Bool := hasSub (jsLower pat) (jsLower s)

/-- Source `outbound-check.ts` / `normalize.ts` — `isEmailAllowed(email, allowList)`.
Empty list means no restriction; `"*"` allows all; otherwise exact
case-insensitive match or `@domain` suffix match against each trimmed,
lowercased entry. -/
def isEmailAllowed (email : JStr) (allowList : List JStr) : Bool :=
  if allowList.isEmpty then true
  else if allowList.any (fun entry => entry = str "*") then true
  else if email.isEmpty then false
  else
    let normalized := jsLower email
    allowList.any fun entry =>
      let e := jsTrim (jsLower entry)
      if e.isEmpty then false
      else if normalized = e then true
      else if hasPre (str "@") e && hasSuf e normalized then true
      else false

/-- Source `normalize.ts` — `isAllowed(senderId, allowList)`: the inbound
gatekeeper.  Identical matching rules, but an empty list rejects. -/
def isAllowed (senderId : JStr) (allowList : List JStr) : Bool :=
  if allowList.isEmpty then false
  else if allowList.any (fun entry => entry = str "*") then true
  else
    let normalizedSender := jsLower senderId
    allowList.any fun entry =>
      let normalized := jsTrim (jsLower entry)
      if normalized.isEmpty then false
      else if normalizedSender = normalized then true
      else if hasPre (str "@") normalized && hasSuf normalized normalizedSender then true
      else false

/-- The allow-list matching rules exactly as the spec words them: empty
list, `"*"` membership, exact case-insensitive entry match, or an
`@`-leading entry that is a literal suffix of the lowercased address. -/
def allowRulesSpec (email : JStr) (allowList : List JStr) : Prop :=
  allowList = [] ∨ str "*" ∈ allowList ∨
    ∃ entry ∈ allowList,
      jsTrim (jsLower entry) = jsLower email ∨
      (hasPre (str "@") (jsTrim (jsLower entry)) = true ∧
        hasSuf (jsTrim (jsLower entry)) (jsLower email) = true)

/-! ### `outbound-check.ts` — header-address parsing and thread-reply policy -/
/-- A parsed address from a `From`/`To`/`Cc` header
(`outbound-check.ts` `ThreadParticipant`). -/
structure ThreadParticipant where
  name : Option JStr
  email : JStr
deriving DecidableEq

/-- Helper for the comma split `value.split(/,(?=(?:[^"]*"[^"]*")*[^"]*$)/)`:
the lookahead accepts a position whose suffix holds an even number of
double quotes. -/
def evenQuotes (rest : JStr) : Bool := rest.count '"' % 2 = 0

/-- Split a header value on commas that are not inside double quotes
(the lookahead-based `split` in `parseEmailAddresses`). -/
def splitQuoteAware : JStr → JStr → List JStr
  | acc, [] => [acc.reverse]
  | acc, c :: cs =>
    if c = ',' && evenQuotes cs then acc.reverse :: splitQuoteAware [] cs
    else splitQuoteAware (c :: acc) cs

/-- Scan the body of a quoted display name per `(?:[^"\\]|\\.)*?` up to the
closing quote: backslash escapes the next character; the raw matched
characters (escapes included) and the remainder after the closing quote
are returned. -/
def scanQuoted : JStr → Option (JStr × JStr)
  | [] => none
  | '"' :: rest => some ([], rest)
  | '\\' :: [] => none
  | '\\' :: c :: rest =>
    (scanQuoted rest).map (fun p => ('\\' :: c :: p.1, p.2))
  | c :: rest =>
    if c = '"' then some ([], rest)
    else (scanQuoted rest).map (fun p => (c :: p.1, p.2))

/-- The regex `^"((?:[^"\\]|\\.)*?)"\s*<([^>]+)>$` of
`parseEmailAddresses`: quoted display name followed by an angle-bracketed
address ending the string.  Returns (raw name, raw email). -/
def matchQuotedAngle (s : JStr) : Option (Option JStr × JStr) :=
  match s with
  | '"' :: rest =>
    match scanQuoted rest with
    | none => none
    | some (content, r) =>
      match r.dropWhile isJsSpace with
      | '<' :: tail =>
        match tail.getLast? with
        | some '>' =>
          let mid := tail.dropLast
          if mid ≠ [] && ¬ mid.contains '>' then some (some content, mid) else none
        | _ => none
      | _ => none
  | _ => none

/-- The regex `^(?:([^"<]*)\s+)?<([^>]+)>$` of `parseEmailAddresses`:
optional unquoted display name, whitespace, then an angle-bracketed
address ending the string. -/
def matchPlainAngle (s : JStr) : Option (Option JStr × JStr) :=
  let p := s.takeWhile (· ≠ '<')
  match s.dropWhile (· ≠ '<') with
  | '<' :: tail =>
    match tail.getLast? with
    | some '>' =>
      let mid := tail.dropLast
      if mid ≠ [] && ¬ mid.contains '>' then
        if p = [] then some (none, mid)
        else
          match p.getLast? with
          | some c =>
            if isJsSpace c && ¬ p.contains '"' then some (some p.dropLast, mid)
            else none
          | none => none
      else none
    | _ => none
  | _ => none

/-- Source `name.replace(/\\"/g, '"')`. -/
def unescapeQuotes : JStr → JStr
  | [] => []
  | '\\' :: '"' :: rest => '"' :: unescapeQuotes rest
  | c :: rest => c :: unescapeQuotes rest

/-- One comma-separated part of a header value (the loop body of
`parseEmailAddresses`), given the part already trimmed and nonempty. -/
def parseAddressPart (trimmed : JStr) : Option ThreadParticipant :=
  match matchQuotedAngle trimmed <|> matchPlainAngle trimmed with
  | some (nameRaw, emailRaw) =>
    let name := nameRaw.map (fun n => unescapeQuotes (jsTrim n))
    let email := jsLower (jsTrim emailRaw)
    if email.contains '@' then
      some ⟨match name with
            | some n => if n = [] then none else some n
            | none => none, email⟩
    else none
  | none =>
    if trimmed.contains '@' then some ⟨none, jsLower trimmed⟩ else none

/-- Source `outbound-check.ts` — `parseEmailAddresses(value)`. -/
def parseEmailAddresses (value : JStr) : List ThreadParticipant :=
  if value = [] then []
  else
    (splitQuoteAware [] value).filterMap fun part =>
      let trimmed := jsTrim part
      if trimmed = [] then none else parseAddressPart trimmed

/-- One thread message as consumed by `extractThreadData`
(`thread.messages` entries restricted to the header fields it reads). -/
structure TMsg where
  «from» : JStr
  «to» : Option JStr := none
  cc : Option JStr := none
deriving DecidableEq

/-- Source `outbound-check.ts` `ThreadData`. -/
structure ThreadData where
  participants : List ThreadParticipant
  originalSender : Option JStr
deriving DecidableEq

/-- Source `participants.set(key, addr)` on a JavaScript `Map`: updating an
existing key keeps its insertion position; a fresh key is appended. -/
def mapUpsert (key : JStr) (val : ThreadParticipant) :
    List (JStr × ThreadParticipant) → List (JStr × ThreadParticipant)
  | [] => [(key, val)]
  | (k, v) :: rest =>
    if k = key then (k, val) :: rest else (k, v) :: mapUpsert key val rest

/-- Per-address step of `extractThreadData` (`i` the message index,
`fieldIsFrom` whether the current header value is `msg.from`). -/
def edAddrStep (accountEmail : JStr) (i : Nat) (fieldIsFrom : Bool)
    (st : List (JStr × ThreadParticipant) × Option JStr) (addr : ThreadParticipant) :
    List (JStr × ThreadParticipant) × Option JStr :=
  let parts :=
    if jsLower addr.email ≠ jsLower accountEmail then
      mapUpsert (jsLower addr.email) addr st.1
    else st.1
  let orig :=
    if i == 0 && fieldIsFrom && st.2.isNone then some addr.email else st.2
  (parts, orig)

/-- Per-message step of `extractThreadData`: walk the `from`/`to`/`cc`
header values (empty ones dropped by `filter(Boolean)`). -/
def edMsgStep (accountEmail : JStr)
    (st : List (JStr × ThreadParticipant) × Option JStr) (im : Nat × TMsg) :
    List (JStr × ThreadParticipant) × Option JStr :=
  let fields := (([im.2.«from»] ++ im.2.«to».toList ++ im.2.cc.toList).filter (· ≠ [])).map
    fun f => (f, f == im.2.«from»)
  fields.foldl
    (fun st2 fb => (parseEmailAddresses fb.1).foldl (edAddrStep accountEmail im.1 fb.2) st2)
    st

/-- Source `outbound-check.ts` — `extractThreadData(messages, accountEmail)`. -/
def extractThreadData (messages : List TMsg) (accountEmail : JStr) : ThreadData :=
  let final := messages.enum.foldl (edMsgStep accountEmail) ([], none)
  ⟨final.1.map (·.2), final.2⟩

/-- The three values of `threadReplyPolicy`. -/
inductive ReplyPolicy
  | «open»
  | allowlist
  | senderOnly
deriving DecidableEq

/-- Source `outbound-check.ts` `ValidationResult`. -/
structure ValidationResult where
  ok : Bool
  blocked : Option (List JStr) := none
  reason : Option JStr := none
deriving DecidableEq

/-- Source `outbound-check.ts` — `validateThreadReply`.  The `client.getThread`
call is abstracted as its outcome: `.error e` when the fetch threw with
message `e`, `.ok none` when it returned `null`, `.ok (some msgs)` when it
produced a thread with the given messages. -/
def validateThreadReply (accountEmail : JStr) (allowOutboundTo : List JStr)
    (policy : ReplyPolicy) (fetched : Except JStr (Option (List TMsg))) :
    ValidationResult :=
  match policy, fetched with
  | .«open», _ => { ok := true }
  | _, .error e =>
    { ok := false, reason := some (str "Could not fetch thread data: " ++ e) }
  | _, .ok none =>
    { ok := false, reason := some (str "Could not fetch thread data") }
  | .senderOnly, .ok (some msgs) =>
    match (extractThreadData msgs accountEmail).originalSender with
    | none => { ok := false, reason := some (str "Could not determine thread sender") }
    | some o =>
      if isEmailAllowed o allowOutboundTo then { ok := true }
      else
        { ok := false, blocked := some [o],
          reason := some (str "Thread sender not in allowOutboundTo") }
  | .allowlist, .ok (some msgs) =>
    let blocked :=
      ((extractThreadData msgs accountEmail).participants.filter
        (fun p => ¬ isEmailAllowed p.email allowOutboundTo)).map (·.email)
    if blocked ≠ [] then
      { ok := false, blocked := some blocked,
        reason := some (str "Recipients not in allowOutboundTo") }
    else { ok := true }

/-! ### `gog-client.ts` — `GogGmailClient.runGog`, the read-path circuit breaker -/
/-- Outcome of one `execFileAsync("gog", …)` transport attempt: captured
stdout on exit 0, or the stringified error (exit text, timeout, …). -/
inductive GogAttempt
  | ok (stdout : JStr)
  | fail (msg : JStr)

/-- Source `gog-client.ts` `CircuitState`. -/
structure CircuitState where
  consecutiveFailures : Nat
  lastFailureAt : Nat
  backoffUntil : Nat
deriving DecidableEq

/-- Source `CIRCUIT_CONFIG.maxFailures`. -/
def circuitMaxFailures : Nat := 3

/-- Source `CIRCUIT_CONFIG.initialBackoffMs`. -/
def circuitInitialBackoffMs : Nat := 60000

/-- Source `CIRCUIT_CONFIG.maxBackoffMs`. -/
def circuitMaxBackoffMs : Nat := 900000

/-- Environment of `runGog`: the transport outcomes per attempt index, the
`Date.now()` readings taken inside the failure handler, and the behaviour
of `JSON.parse` on a given stdout (`jsonOk` false meaning it throws with
message `jsonErrMsg`). -/
structure GogEnv where
  attempts : Nat → GogAttempt
  time : Nat → Nat
  jsonOk : JStr → Bool
  jsonErrMsg : JStr → JStr

/-- Source `msg.includes("404")`. -/
def isNotFoundMsg (msg : JStr) : Bool := hasSub (str "404") msg

/-- Source `msg.includes("403") || … || msg.includes("500")`: the error classes
that trip the circuit breaker. -/
def isCircuitMsg (msg : JStr) : Bool :=
  hasSub (str "403") msg || hasSub (str "invalid_grant") msg ||
  hasSub (str "ETIMEDOUT") msg || hasSub (str "500") msg

/-- The failure bookkeeping in `runGog`'s classified-error branch:
increment `consecutiveFailures`, stamp `lastFailureAt` with `t1`, and once
the count reaches the threshold set `backoffUntil` from `t2` with the
capped exponential backoff. -/
def circuitFailStep (st : CircuitState) (t1 t2 : Nat) : CircuitState :=
  if circuitMaxFailures ≤ st.consecutiveFailures + 1 then
    { consecutiveFailures := st.consecutiveFailures + 1, lastFailureAt := t1,
      backoffUntil :=
        t2 + min (circuitInitialBackoffMs *
          2 ^ (st.consecutiveFailures + 1 - circuitMaxFailures)) circuitMaxBackoffMs }
  else
    { consecutiveFailures := st.consecutiveFailures + 1, lastFailureAt := t1,
      backoffUntil := st.backoffUntil }

/-- The final `throw new Error("gog failed: …")` text. -/
def gogFailText (lastErr : Option JStr) : JStr :=
  str "gog failed: " ++ lastErr.getD (str "undefined")

/-- The retry loop of `runGog` (attempt index `i`, `remaining` attempts
left).  Returns the result, the final circuit state, and the number of
transport calls issued.  A successful transport call resets the circuit
before `JSON.parse` runs; a parse failure is caught by the same `catch`
and classified like a transport error; `404` messages return `null`;
classified errors mutate the circuit and break; all other errors retry
with linear backoff until the budget is exhausted. -/
def runGogLoop (env : GogEnv) : Nat → Nat → CircuitState → Option JStr →
    (Except JStr (Option JStr)) × CircuitState × Nat
  | 0, _, st, lastErr => (.error (gogFailText lastErr), st, 0)
  | remaining + 1, i, st, _lastErr =>
    match env.attempts i with
    | .ok stdout =>
      let st1 : CircuitState :=
        { consecutiveFailures := 0, lastFailureAt := st.lastFailureAt, backoffUntil := 0 }
      if (jsTrim stdout).isEmpty then (.ok none, st1, 1)
      else if env.jsonOk stdout then (.ok (some stdout), st1, 1)
      else
        let msg := env.jsonErrMsg stdout
        if isNotFoundMsg msg then (.ok none, st1, 1)
        else if isCircuitMsg msg then
          (.error (gogFailText (some msg)),
            circuitFailStep st1 (env.time 0) (env.time 1), 1)
        else
          let r := runGogLoop env remaining (i + 1) st1 (some msg)
          (r.1, r.2.1, r.2.2 + 1)
    | .fail msg =>
      if isNotFoundMsg msg then (.ok none, st, 1)
      else if isCircuitMsg msg then
        (.error (gogFailText (some msg)),
          circuitFailStep st (env.time 0) (env.time 1), 1)
      else
        let r := runGogLoop env remaining (i + 1) st (some msg)
        (r.1, r.2.1, r.2.2 + 1)

/-- Source `gog-client.ts` — `GogGmailClient.runGog(args, retries)`.  `now` is the
`Date.now()` reading taken on entry; the rendered ISO timestamp inside the
circuit-breaker error text is elided.  Returns (result, new circuit state,
transport calls issued). -/
def runGog (env : GogEnv) (accountEmail : JStr) (now : Nat) (retries : Nat)
    (st : CircuitState) : (Except JStr (Option JStr)) × CircuitState × Nat :=
  if now < st.backoffUntil then
    (.error (str "Circuit breaker active for " ++ accountEmail), st, 0)
  else runGogLoop env retries 0 st none

/-- An attempt that is retried (neither success, nor not-found, nor
circuit-classified). -/
def transientAttempt (env : GogEnv) (j : Nat) : Prop :=
  ∃ m, env.attempts j = .fail m ∧ isNotFoundMsg m = false ∧ isCircuitMsg m = false

/-- Concrete environment: every transport attempt fails with a 500-class
error; JSON always parses. -/
def gogEnv500 : GogEnv where
  attempts := fun _ => .fail (str "gog failed (code 1): 500 Internal")
  time := fun t => 100 + t
  jsonOk := fun _ => true
  jsonErrMsg := fun _ => str "SyntaxError"

/-- Concrete environment: the first transport attempt succeeds. -/
def gogEnvOk : GogEnv where
  attempts := fun _ => .ok (str "{}")
  time := fun t => 100 + t
  jsonOk := fun _ => true
  jsonErrMsg := fun _ => str "SyntaxError"

/-! ### Generic scanner combinators for the JavaScript regex operations -/
/-- Global regex replace: at each position try the matcher (which returns
the replacement text and the remainder after the match); on failure copy
one character.  Matches are leftmost and non-overlapping, exactly like a
`g`-flagged `String.replace`.  Fuel is the input length; every match
consumes at least the character it starts on. -/
def scanGo (keyP : JStr → Option (JStr × JStr)) : Nat → JStr → JStr
  | _, [] => []
  | 0, cs => cs
  | n + 1, c :: cs =>
    match keyP (c :: cs) with
    | some (rep, rest) => rep ++ scanGo keyP n rest
    | none => c :: scanGo keyP n cs

/-- Global replace over a whole string. -/
def scanAll (keyP : JStr → Option (JStr × JStr)) (s : JStr) : JStr :=
  scanGo keyP s.length s

/-- Non-global regex replace: only the leftmost match is replaced. -/
def replaceFirst (keyP : JStr → Option (JStr × JStr)) : JStr → JStr
  | [] => []
  | c :: cs =>
    match keyP (c :: cs) with
    | some (rep, rest) => rep ++ rest
    | none => c :: replaceFirst keyP cs

/-- Find a case-insensitive occurrence of `pat` and return the remainder
after it. -/
def findAfterCI (pat : JStr) : JStr → Option JStr
  | [] => if hasPreCI pat [] then some [] else none
  | c :: cs =>
    if hasPreCI pat (c :: cs) then some ((c :: cs).drop pat.length)
    else findAfterCI pat cs

/-- Split at the first case-insensitive occurrence of `pat`: returns the
text before, the matched original characters, and the remainder. -/
def splitCI (pat : JStr) : JStr → Option (JStr × JStr × JStr)
  | [] => if hasPreCI pat [] then some ([], [], []) else none
  | c :: cs =>
    if hasPreCI pat (c :: cs) then
      some ([], (c :: cs).take pat.length, (c :: cs).drop pat.length)
    else (splitCI pat cs).map (fun r => (c :: r.1, r.2.1, r.2.2))

/-! ### `strip-quotes.ts` — quote removal for inbound bodies -/
/-- Matcher for `/<div class="gmail_quote"[^>]*>[\s\S]*?<\/div>/i`. -/
def gmailQuoteMatcher (t : JStr) : Option (JStr × JStr) :=
  if hasPreCI (str "<div class=\"gmail_quote\"") t then
    let t1 := t.drop 24
    match t1.dropWhile (· ≠ '>') with
    | '>' :: r2 => (findAfterCI (str "</div>") r2).map (fun r3 => ([], r3))
    | _ => none
  else none

/-- Matcher for one `/<blockquote[^>]*>[\s\S]*?<\/blockquote>/gi` match,
returning the matched text and the remainder. -/
def bqMatcher (t : JStr) : Option (JStr × JStr) :=
  if hasPreCI (str "<blockquote") t then
    let t1 := t.drop 11
    let attrs := t1.takeWhile (· ≠ '>')
    match t1.dropWhile (· ≠ '>') with
    | '>' :: r2 =>
      (splitCI (str "</blockquote>") r2).map
        (fun r => (t.take 11 ++ attrs ++ '>' :: (r.1 ++ r.2.1), r.2.2))
    | _ => none
  else none

/-- Collect every `blockquote` match in document order (the `match(…/g)`
call in `stripQuotes`). -/
def collectBq : Nat → JStr → List JStr
  | _, [] => []
  | 0, _ => []
  | n + 1, c :: cs =>
    match bqMatcher (c :: cs) with
    | some (txt, rest) => txt :: collectBq n rest
    | none => collectBq n cs

/-- Source `html.replace(bq, "")` for a plain string pattern: remove the first
occurrence. -/
def removeFirstOcc (pat : JStr) (s : JStr) : JStr :=
  replaceFirst (fun t => if hasPre pat t then some ([], t.drop pat.length) else none) s

/-- Source `strip-quotes.ts` — `stripQuotes(html)`. -/
def stripQuotes (html : JStr) : JStr :=
  let h1 := replaceFirst gmailQuoteMatcher html
  (collectBq html.length html).foldl (fun acc bq => removeFirstOcc bq acc) h1

/-- Index of the first occurrence of `pat` in a string. -/
def findSubIdx (pat : JStr) : JStr → Option Nat
  | [] => if hasPre pat [] then some 0 else none
  | c :: cs => if hasPre pat (c :: cs) then some 0 else (findSubIdx pat cs).map (· + 1)

/-- Does the line (the text after a `"\n"`) match `On .+, .+ wrote:`?  The
two `.+` gaps must be nonempty and everything must sit inside one line. -/
def lineMatchesOnWrote (line : JStr) : Bool :=
  let ln := line.takeWhile (· ≠ '\n')
  hasPre (str "On ") ln &&
    (let t := ln.drop 3
     match findSubIdx (str ", ") (t.drop 1) with
     | some p0 => hasSub (str " wrote:") (t.drop (p0 + 1 + 3))
     | none => false)

/-- Index of the `\n` starting the first `\nOn .+, .+ wrote:` match of
`extractTextBody`'s plain-text branch, if any. -/
def onWroteSplit : Nat → JStr → Option Nat
  | _, [] => none
  | 0, _ => none
  | n + 1, c :: cs =>
    if c = '\n' && lineMatchesOnWrote cs then some 0
    else (onWroteSplit n cs).map (· + 1)

/-- Source `strip-quotes.ts` — `extractTextBody(html?, plain?)`.  HTML bodies go
through `stripQuotes`; plain bodies lose a trailing `On …, … wrote:` block
and are trimmed. -/
def extractTextBody (html plain : Option JStr) : JStr :=
  if (html.getD []) ≠ [] then stripQuotes (html.getD [])
  else if (plain.getD []) ≠ [] then
    let p := plain.getD []
    jsTrim (match onWroteSplit p.length p with
      | some i => p.take i
      | none => p)
  else []

/-! ### `inbound.ts` — parsing provider payloads into inbound messages -/
/-- The `body` slot of a MIME part (`{ size, data?, attachmentId? }`). -/
structure GogBody where
  size : Nat
  data : Option JStr := none
  attachmentId : Option JStr := none
deriving DecidableEq

/-- Source `inbound.ts` `GogMessagePart`: mimeType, filename, headers, optional
body, optional sub-parts.  (`partId` is never read.) -/
inductive GogPart where
  | mk (mimeType filename : JStr) (headers : List (JStr × JStr))
      (body : Option GogBody) (parts : Option (List GogPart))

/-- mimeType accessor. -/
def GogPart.mimeType : GogPart → JStr
  | .mk mt _ _ _ _ => mt

/-- filename accessor. -/
def GogPart.filename : GogPart → JStr
  | .mk _ fn _ _ _ => fn

/-- headers accessor. -/
def GogPart.headers : GogPart → List (JStr × JStr)
  | .mk _ _ hd _ _ => hd

/-- body accessor. -/
def GogPart.body : GogPart → Option GogBody
  | .mk _ _ _ b _ => b

/-- parts accessor. -/
def GogPart.parts : GogPart → Option (List GogPart)
  | .mk _ _ _ _ ps => ps

/-- Source `accounts.ts` `GmailAttachment`. -/
structure GmailAttachment where
  filename : JStr
  mimeType : JStr
  attachmentId : JStr
  size : Nat
deriving DecidableEq

mutual
/-- Source `accounts.ts` — `extractAttachments(part)`: collect parts that carry a
(truthy) filename and attachment id, recursing into sub-parts. -/
def extractAttachments : GogPart → List GmailAttachment
  | .mk mt fn _hd body parts =>
    (match body with
      | some b =>
        match b.attachmentId with
        | some aid => if fn ≠ [] && aid ≠ [] then [⟨fn, mt, aid, b.size⟩] else []
        | none => []
      | none => []) ++
    (match parts with
      | some ps => extractAttachmentsList ps
      | none => [])

/-- List companion of `extractAttachments`. -/
def extractAttachmentsList : List GogPart → List GmailAttachment
  | [] => []
  | p :: ps => extractAttachments p ++ extractAttachmentsList ps
end

/-- A body `data` field that JavaScript treats as present
(`part.body?.data` truthy). -/
def bodyDataOf (body : Option GogBody) : Option JStr :=
  match body with
  | some b =>
    match b.data with
    | some d => if d ≠ [] then some d else none
    | none => none
  | none => none

mutual
/-- Source `inbound.ts` — `extractBody(part)`, producing the `{html?, plain?}`
pair.  `dec` is the environment's base64→UTF-8 decoder
(`Buffer.from(data, "base64").toString("utf-8")`). -/
def extractBody (dec : JStr → JStr) : GogPart → Option JStr × Option JStr
  | .mk mt _fn _hd body parts =>
    if mt = str "text/html" then
      match bodyDataOf body with
      | some d => (some (dec d), none)
      | none => extractBodyParts dec mt parts
    else if mt = str "text/plain" then
      match bodyDataOf body with
      | some d => (none, some (dec d))
      | none => extractBodyParts dec mt parts
    else extractBodyParts dec mt parts

/-- The `else if (part.parts)` branch of `extractBody`. -/
def extractBodyParts (dec : JStr → JStr) (mt : JStr) :
    Option (List GogPart) → Option JStr × Option JStr
  | some ps =>
    if mt = str "multipart/alternative" then
      (extractFindMime dec (str "text/html") ps true,
        extractFindMime dec (str "text/plain") ps false)
    else
      let sub := extractBodyList dec ps
      let htmls := (sub.map (·.1)).foldr
        (fun o acc => match o with
          | some h => if h ≠ [] then h :: acc else acc
          | none => acc) []
      let plains := (sub.map (·.2)).foldr
        (fun o acc => match o with
          | some p => if p ≠ [] then p :: acc else acc
          | none => acc) []
      ((if htmls ≠ [] then some (List.intercalate (str "\n") htmls) else none),
        (if plains ≠ [] then some (List.intercalate (str "\n") plains) else none))
  | none => (none, none)

/-- Source `parts.find(p => p.mimeType === mime)` followed by a recursive
`extractBody` on the found part, projecting html (`wantHtml`) or plain. -/
def extractFindMime (dec : JStr → JStr) (mime : JStr) :
    List GogPart → Bool → Option JStr
  | [], _ => none
  | p :: ps, wantHtml =>
    if p.mimeType = mime then
      if wantHtml then (extractBody dec p).1 else (extractBody dec p).2
    else extractFindMime dec mime ps wantHtml

/-- List companion of `extractBody` (`part.parts.map(extractBody)`). -/
def extractBodyList (dec : JStr → JStr) : List GogPart → List (Option JStr × Option JStr)
  | [] => []
  | p :: ps => extractBody dec p :: extractBodyList dec ps
end

/-- First header whose name matches case-insensitively
(`headers.find(h => h.name.toLowerCase() === name.toLowerCase())`). -/
def getHeaderVal (headers : List (JStr × JStr)) (name : JStr) : Option JStr :=
  (headers.find? (fun h => jsLower h.1 == jsLower name)).map (·.2)

/-- The greedy match of `/^(.*) <(.*)>$/` (used by both inbound parsers):
succeeds iff the single-line string ends in `>` and contains a `" <"`,
splitting at the last such occurrence. -/
def jsNameEmailMatch (s : JStr) : Option (JStr × JStr) :=
  if s.contains '\n' then none
  else
    match s.getLast? with
    | some '>' =>
      let core := s.dropLast
      match (List.range core.length).foldl
        (fun acc k =>
          if core.get? k = some ' ' && core.get? (k + 1) = some '<' then some k else acc)
        none with
      | some k => some (core.take k, core.drop (k + 2))
      | none => none
    | _ => none

/-- Source `nameMatch[1].replace(/^"|"$/g, "")`: drop one leading and one
trailing double quote. -/
def stripEdgeQuotes (s : JStr) : JStr :=
  let s1 := match s with
    | '"' :: r => r
    | _ => s
  match s1.getLast? with
  | some '"' => s1.dropLast
  | _ => s1

/-- The sender id both parsers derive from a `From` header value: the
email inside `Name <email>`, else the trimmed raw value. -/
def senderIdOf («from» : JStr) : JStr :=
  match jsNameEmailMatch «from» with
  | some p => jsTrim p.2
  | none => jsTrim «from»

/-- The sender display name both parsers derive from a `From` header
value, when the `Name <email>` shape matches. -/
def senderNameOf («from» : JStr) : Option JStr :=
  (jsNameEmailMatch «from»).map (fun p => jsTrim (stripEdgeQuotes p.1))

/-- Source `inbound.ts` `GogSearchMessage`. -/
structure SearchMsg where
  id : JStr
  threadId : JStr
  date : JStr
  «from» : JStr
  subject : JStr
  body : JStr
  labels : List JStr
deriving DecidableEq

/-- The sender slot of an `InboundMessage`. -/
structure Sender where
  id : JStr
  name : Option JStr
  isBot : Bool
deriving DecidableEq

/-- The fields of the SDK's `InboundMessage` that this plugin populates
and that the sync engine reads.  The opaque `raw` provider payload (the
parser's own argument) is not duplicated in the record. -/
structure InboundMsg where
  channelId : JStr
  accountId : Option JStr
  channelMessageId : JStr
  threadId : JStr
  text : JStr
  sender : Sender
  isGroup : Bool
  replyToId : JStr
  timestamp : Option Int := none
deriving DecidableEq

/-- Source `inbound.ts` — `parseSearchGmail(msg, accountId, accountEmail)`.
`dateParse` is the environment's `Date.parse` (`none` for `NaN`). -/
def parseSearchGmail (dateParse : JStr → Option Int) (msg : SearchMsg)
    (accountId : Option JStr) (accountEmail : Option JStr) : Option InboundMsg :=
  if msg.«from» = [] then none
  else if (match accountEmail with
    | some a => a ≠ [] && jsLower (senderIdOf msg.«from») == jsLower a
    | none => false) then none
  else
      let subject := if msg.subject = [] then str "(no subject)" else msg.subject
      let cleanText := extractTextBody none (some msg.body)
      let finalText := if cleanText ≠ [] then cleanText
        else if msg.body ≠ [] then msg.body else []
      let fullText := str "[Thread Context: ID=" ++ msg.threadId ++
        str ", Subject=\"" ++ subject ++ str "\"]\n\n" ++ finalText
      some
        { channelId := str "gmail"
          accountId := accountId
          channelMessageId := msg.id
          threadId := msg.threadId
          text := fullText
          sender :=
            { id := senderIdOf msg.«from»
              name := senderNameOf msg.«from»
              isBot := false }
          isGroup := false
          replyToId := msg.id
          timestamp := dateParse msg.date }

/-- Source `inbound.ts` `GogPayload` (the fields the parser reads). -/
structure GogPayload where
  account : JStr
  id : JStr
  threadId : JStr
  historyId : JStr
  labelIds : List JStr
  snippet : JStr
  payload : GogPart
  sizeEstimate : Nat
  internalDate : JStr

/-- Environment-dependent primitives of `parseInboundGmail`:
`Buffer.from(·, "base64").toString("utf-8")` and the floating-point
`formatBytes` rendering. -/
structure CodecEnv where
  dec : JStr → JStr
  fmtBytes : Nat → JStr

/-- Source `s.split(".")` for a one-character separator. -/
def splitOnChar (sep : Char) : JStr → List JStr
  | [] => [[]]
  | c :: cs =>
    if c = sep then [] :: splitOnChar sep cs
    else match splitOnChar sep cs with
      | [] => [[c]]
      | p :: ps => (c :: p) :: ps

/-- The attachment-listing block of `parseInboundGmail`, with the
duplicate-filename renaming driven by the `seenNames` map. -/
def attachmentLines (env : CodecEnv) (atts : List GmailAttachment) : JStr :=
  let step := fun (st : List (JStr × Nat) × List JStr) (att : GmailAttachment) =>
    let count := ((st.1.find? (fun e => e.1 == att.filename)).map (·.2)).getD 0
    let displayPath :=
      if count > 0 then
        let hasDot := att.filename.contains '.'
        let ext := if hasDot then (splitOnChar '.' att.filename).getLastD [] else []
        let base := if hasDot then
            List.intercalate (str ".") ((splitOnChar '.' att.filename).dropLast)
          else att.filename
        base ++ str "_" ++ att.attachmentId.take 6 ++
          (if ext ≠ [] then str "." ++ ext else [])
      else att.filename
    let seen := if st.1.any (fun e => e.1 == att.filename) then
        st.1.map (fun e => if e.1 == att.filename then (e.1, count + 1) else e)
      else st.1 ++ [(att.filename, count + 1)]
    let line := str "- **" ++ displayPath ++ str "** (Type: " ++ att.mimeType ++
      str ", Size: " ++ env.fmtBytes att.size ++ str ", ID: `" ++
      att.attachmentId ++ str "`)"
    (seen, st.2 ++ [line])
  List.intercalate (str "\n") (atts.foldl step ([], [])).2

/-- Source `inbound.ts` — `parseInboundGmail(payload, accountId)`. -/
def parseInboundGmail (env : CodecEnv) (payload : GogPayload)
    (accountId : Option JStr) : Option InboundMsg :=
  match getHeaderVal payload.payload.headers (str "From") with
  | none => none
  | some f =>
    if f = [] then none
    else if jsLower (senderIdOf f) == jsLower payload.account then none
    else
        let subject := match getHeaderVal payload.payload.headers (str "Subject") with
          | some s => if s = [] then str "(no subject)" else s
          | none => str "(no subject)"
        let hp := extractBody env.dec payload.payload
        let cleanText := extractTextBody hp.1 hp.2
        let finalText := if (hp.1.getD []) = [] && (hp.2.getD []) = [] then
            payload.snippet
          else cleanText
        let atts := extractAttachments payload.payload
        let attachmentContext := if atts ≠ [] then
            str "\n\n### Attachments\n" ++ attachmentLines env atts
          else []
        let fullText := str "[Thread Context: ID=" ++ payload.threadId ++
          str ", Subject=\"" ++ subject ++ str "\"]\n\n" ++ finalText ++
          attachmentContext
        some
          { channelId := str "gmail"
            accountId := accountId
            channelMessageId := payload.id
            threadId := payload.threadId
            text := fullText
            sender := { id := senderIdOf f, name := senderNameOf f, isBot := false }
            isGroup := false
            replyToId := payload.id
            timestamp := none }

/-! ### `monitor.ts` — `performFullSync`, the per-pass sync engine -/
/-- Observable client effects of one sync pass: label modifications and
`onMessage` dispatches.  A dispatch records the loop message's id, the
actually dispatched message's id (`fullMsg || msg`), and its sender. -/
inductive SyncEv where
  | modifyLabels (id : JStr) (add rem : List JStr)
  | modifyThreadLabels (tid : JStr) (add rem : List JStr)
  | dispatch (loopId : JStr) (dispatchedId : JStr) (senderId : JStr)
deriving DecidableEq

/-- The `gog gmail get` record behind `fetchMessageDetails` (the
`res.message || res` object), minus the `account` field the monitor
injects. -/
structure GogMsgRec where
  id : JStr
  threadId : JStr
  historyId : JStr
  labelIds : List JStr
  snippet : JStr
  payload : GogPart
  sizeEstimate : Nat
  internalDate : JStr

/-- Environment of one sync pass: the account settings plus oracles for
everything outside the pass's control — `Date.parse`, the remote
`client.getMessage` result (`none` covering both `null` and a thrown,
caught fetch error), the base64/byte-format codecs, the attachment
downloads that succeed, whether `onMessage` resolves, and the abort
signal. -/
structure SyncEnv where
  accountEmail : JStr
  accountId : Option JStr
  allowFrom : List JStr
  dateParse : JStr → Option Int
  getMessage : JStr → Option GogMsgRec
  codec : CodecEnv
  downloads : JStr → List JStr
  onMessageOk : InboundMsg → Bool
  aborted : Bool

/-- Source `monitor.ts` — `fetchMessageDetails(id, account, log, client, true)`:
unwrap the remote record and run `parseInboundGmail` with the account
email injected (the label check is skipped because `ignoreLabels` is
passed as `true`). -/
def fetchMessageDetails (env : SyncEnv) (id : JStr) : Option InboundMsg :=
  match env.getMessage id with
  | none => none
  | some r =>
    parseInboundGmail env.codec
      ⟨env.accountEmail, r.id, r.threadId, r.historyId, r.labelIds, r.snippet,
        r.payload, r.sizeEstimate, r.internalDate⟩ env.accountId

/-- Source `quarantineMessage`: add the quarantine label, remove `INBOX`. -/
def quarantineEvs (id : JStr) : List SyncEv :=
  [.modifyLabels id [str "not-allow-listed"] [str "INBOX"]]

/-- Source `markAsRead`: thread-level label removal when a thread id is known,
message-level otherwise. -/
def markAsReadEvs (id tid : JStr) : List SyncEv :=
  if tid ≠ [] then [.modifyThreadLabels tid [] [str "UNREAD"]]
  else [.modifyLabels id [] [str "UNREAD"]]

/-- First loop of `performFullSync`: parse each search result, quarantine
and drop disallowed senders, collect the rest. -/
def syncPhase1 (env : SyncEnv) : List SearchMsg → List SyncEv × List InboundMsg
  | [] => ([], [])
  | raw :: rest =>
    if env.aborted then ([], [])
    else
      match parseSearchGmail env.dateParse raw env.accountId (some env.accountEmail) with
      | some msg =>
        if isAllowed msg.sender.id env.allowFrom then
          let r := syncPhase1 env rest
          (r.1, msg :: r.2)
        else
          let r := syncPhase1 env rest
          (quarantineEvs msg.channelMessageId ++ r.1, r.2)
      | none => syncPhase1 env rest

/-- Source `threads.set(threadId, list)` on a JavaScript `Map`: appending to an
existing key keeps its position, a fresh key goes to the end. -/
def threadUpsert (tid : JStr) (m : InboundMsg) :
    List (JStr × List InboundMsg) → List (JStr × List InboundMsg)
  | [] => [(tid, [m])]
  | (k, v) :: rest =>
    if k = tid then (k, v ++ [m]) :: rest else (k, v) :: threadUpsert tid m rest

/-- Group inbound messages by thread id in insertion order. -/
def groupThreads (msgs : List InboundMsg) : List (JStr × List InboundMsg) :=
  msgs.foldl (fun acc m => threadUpsert m.threadId m acc) []

/-- Source `(a.timestamp || 0)`. -/
def tsKey (m : InboundMsg) : Int := m.timestamp.getD 0

/-- Stable insertion for the timestamp sort. -/
def insertByTs (m : InboundMsg) : List InboundMsg → List InboundMsg
  | [] => [m]
  | x :: xs => if tsKey m ≤ tsKey x then m :: x :: xs else x :: insertByTs m xs

/-- Source `newMessages.sort((a, b) => (a.timestamp||0) - (b.timestamp||0))`:
a stable ascending sort. -/
def sortByTs (l : List InboundMsg) : List InboundMsg := l.foldr insertByTs []

/-- The message actually handed to `onMessage`: the re-fetched full
message when available (with the auto-download block appended to its
text), else the search-result message. -/
def dispatchTarget (env : SyncEnv) (msg : InboundMsg) : InboundMsg :=
  match fetchMessageDetails env msg.channelMessageId with
  | some fm =>
    let paths := env.downloads msg.channelMessageId
    if paths ≠ [] then
      { fm with text := fm.text ++ str "\n\n### Auto-downloaded Files\n" ++
          List.intercalate (str "\n") (paths.map (fun p => str "- `" ++ p ++ str "`")) }
    else fm
  | none => msg

/-- One iteration of the inner dispatch loop: add the id to the dedup set,
fetch details, dispatch; on success mark as read, on a thrown `onMessage`
remove the id from the dedup set again (and issue no mark). -/
def processMsg (env : SyncEnv) (dedup : List JStr) (msg : InboundMsg) :
    List SyncEv × List JStr :=
  let d1 := if msg.channelMessageId ∈ dedup then dedup
    else dedup ++ [msg.channelMessageId]
  let target := dispatchTarget env msg
  if env.onMessageOk target then
    (.dispatch msg.channelMessageId target.channelMessageId target.sender.id ::
      markAsReadEvs msg.channelMessageId msg.threadId, d1)
  else
    ([.dispatch msg.channelMessageId target.channelMessageId target.sender.id],
      d1.filter (· ≠ msg.channelMessageId))

/-- The inner `for (const msg of newMessages)` loop. -/
def processThreadMsgs (env : SyncEnv) (dedup : List JStr) :
    List InboundMsg → List SyncEv × List JStr
  | [] => ([], dedup)
  | m :: ms =>
    if env.aborted then ([], dedup)
    else
      let r := processMsg env dedup m
      let r2 := processThreadMsgs env r.2 ms
      (r.1 ++ r2.1, r2.2)

/-- The outer `for (const [threadId, messages] of threads)` loop: filter
out already-dispatched ids against the current dedup set, sort the rest by
timestamp, dispatch one at a time. -/
def processThreads (env : SyncEnv) (dedup : List JStr) :
    List (JStr × List InboundMsg) → List SyncEv × List JStr
  | [] => ([], dedup)
  | (_tid, msgs) :: rest =>
    if env.aborted then ([], dedup)
    else
      let newMessages := msgs.filter (fun m => m.channelMessageId ∉ dedup)
      if newMessages = [] then processThreads env dedup rest
      else
        let r := processThreadMsgs env dedup (sortByTs newMessages)
        let r2 := processThreads env r.2 rest
        (r.1 ++ r2.1, r2.2)

/-- Source `monitor.ts` — `performFullSync`, from the search result to the label
and dispatch effects plus the updated dedup set.  The trailing read-only
history-id probe is elided: it issues no label changes or dispatches, and
`monitorGmail` discards the function's return value. -/
def performFullSync (env : SyncEnv) (searchResult : List SearchMsg)
    (dedup : List JStr) : List SyncEv × List JStr :=
  if searchResult = [] then ([], dedup)
  else
    let p1 := syncPhase1 env searchResult
    let r := processThreads env dedup (groupThreads p1.2)
    (p1.1 ++ r.1, r.2)

/-- The loop ids of the dispatch events in a trace. -/
def dispatchIds (evs : List SyncEv) : List JStr :=
  evs.filterMap fun ev =>
    match ev with
    | .dispatch l _ _ => some l
    | _ => none

/-- How many times a given message id was dispatched in a trace. -/
def countDispatch (id : JStr) (evs : List SyncEv) : Nat :=
  (dispatchIds evs).count id

/-- Flattened message ids of the per-thread grouping. -/
def groupIds (G : List (JStr × List InboundMsg)) : List JStr :=
  (G.map (fun g => g.2.map (·.channelMessageId))).flatten

/-- Witness fallback value. -/
def defaultInboundMsg : InboundMsg :=
  ⟨[], none, [], [], [], ⟨[], none, false⟩, false, [], none⟩

/-- Concrete sync environment: one account, `@trusted.com` allow-list, remote
message fetches return nothing, every dispatch succeeds. -/
def syncEnv0 : SyncEnv where
  accountEmail := str "me@x.com"
  accountId := some (str "acct")
  allowFrom := [str "@trusted.com"]
  dateParse := fun d => if d = str "d1" then some 1 else some 2
  getMessage := fun _ => none
  codec := ⟨id, fun _ => str "0 B"⟩
  downloads := fun _ => []
  onMessageOk := fun _ => true
  aborted := false

/-- A search result from a sender outside the allow-list. -/
def rawBad : SearchMsg :=
  ⟨str "m9", str "t9", str "d1", str "eve@evil.com", str "s", str "x",
    [str "INBOX", str "UNREAD"]⟩

/-- The parsed form of `rawBad`. -/
def pBad : InboundMsg :=
  (parseSearchGmail syncEnv0.dateParse rawBad syncEnv0.accountId
    (some syncEnv0.accountEmail)).getD defaultInboundMsg

/-- A search result from an allow-listed sender. -/
def rawGood : SearchMsg :=
  ⟨str "m1", str "t1", str "d1", str "alice@trusted.com", str "s", str "hello",
    [str "INBOX", str "UNREAD"]⟩

/-- Source `syncEnv0` with a throwing `onMessage`. -/
def syncEnvFail : SyncEnv :=
  { syncEnv0 with onMessageOk := fun _ => false }

/-- First of two same-thread search results from an allowed sender
(timestamp 1). -/
def rawA : SearchMsg :=
  ⟨str "mA", str "tT", str "d1", str "alice@trusted.com", str "s", str "a",
    [str "INBOX", str "UNREAD"]⟩

/-- Second search result in the same thread (timestamp 2). -/
def rawB : SearchMsg :=
  ⟨str "mB", str "tT", str "d2", str "alice@trusted.com", str "s", str "b",
    [str "INBOX", str "UNREAD"]⟩

/-- The parsed form of `rawA`. -/
def pA : InboundMsg :=
  (parseSearchGmail syncEnv0.dateParse rawA syncEnv0.accountId
    (some syncEnv0.accountEmail)).getD defaultInboundMsg

/-- The parsed form of `rawB`. -/
def pB : InboundMsg :=
  (parseSearchGmail syncEnv0.dateParse rawB syncEnv0.accountId
    (some syncEnv0.accountEmail)).getD defaultInboundMsg

/-- The part of `quoting.ts`'s `/^(.*?)\s*<(.*)>$/` after the chosen `<`:
the string must end in `>` and the greedy `(.*)` cannot cross a newline,
so the capture is everything before the final `>` provided it is
newline-free. -/
def nemTail (tail : JStr) : Option JStr :=
  match tail.getLast? with
  | some '>' => if '\n' ∈ tail.dropLast then none else some tail.dropLast
  | _ => none

/-- Backtracking loop of `/^(.*?)\s*<(.*)>$/`: the lazy `(.*?)` grows one
(non-newline) character at a time; at each stop the greedy `\s*` runs to
the end of the whitespace run, which must be followed by `<` and a valid
tail. -/
def nemLoop : JStr → JStr → Option (JStr × JStr)
  | pre, rest =>
    match
      (match rest.dropWhile isJsSpace with
        | '<' :: tail => nemTail tail
        | _ => none) with
    | some content => some (pre.reverse, content)
    | none =>
      match rest with
      | [] => none
      | c :: r2 => if c = '\n' then none else nemLoop (c :: pre) r2

/-- Source `from.match(/^(.*?)\s*<(.*)>$/)` — the two captures on success. -/
def nemMatch (f : JStr) : Option (JStr × JStr) := nemLoop [] f

/-- Source `quoting.ts` — `extractSenderDisplay(from)`. -/
def extractSenderDisplay (f : JStr) : JStr :=
  match nemMatch f with
  | some (m1, m2) =>
    let name := jsTrim (stripEdgeQuotes m1)
    if name ≠ [] then name else m2
  | none => f

/-- Content up to the LAST `>` of a (newline-free) window, as the greedy
`(.*)` of `/<(.*)>/` captures it; `none` when the window has no `>`. -/
def lastGtContent : JStr → Option JStr
  | [] => none
  | c :: rest =>
    match lastGtContent rest with
    | some t => some (c :: t)
    | none => if c = '>' then some [] else none

/-- Source `msg.from.match(/<(.*)>/)` — capture of the leftmost match: the first
`<` followed, before any newline, by a `>`; the capture runs to the last
such `>`. -/
def firstAngleContent : JStr → Option JStr
  | [] => none
  | c :: rest =>
    if c = '<' then
      match lastGtContent (rest.takeWhile (fun x => x ≠ '\n')) with
      | some content => some content
      | none => firstAngleContent rest
    else firstAngleContent rest

/-- The sender email `buildQuotedThread`'s filter compares: the angle
capture when present, else the raw `From` value. -/
def quotedSenderEmail (f : JStr) : JStr :=
  match firstAngleContent f with
  | some e => e
  | none => f

/-- Source `quoting.ts` `ThreadMessage`. -/
structure ThreadMessage where
  id : JStr
  threadId : JStr
  date : JStr
  «from» : JStr
  «to» : Option JStr
  cc : Option JStr
  subject : JStr
  body : JStr
  labels : List JStr
deriving DecidableEq

/-- Source `quoting.ts` — `buildQuotedThread(messages, accountEmail)`.
`fmtDate` is the environment's `formatQuoteDate` (a `toLocaleString`
wrapper). -/
def buildQuotedThread (fmtDate : JStr → JStr) (messages : List ThreadMessage)
    (accountEmail : JStr) : JStr :=
  let otherMessages := messages.filter
    (fun m => jsLower (quotedSenderEmail m.«from») ≠ jsLower accountEmail)
  match otherMessages.getLast? with
  | none => []
  | some lastMsg =>
    str "On " ++ fmtDate lastMsg.date ++ str ", " ++
      extractSenderDisplay lastMsg.«from» ++ str " wrote:" ++ str "\n\n" ++
      jsTrim lastMsg.body

/-- A thread message written by the account itself (`Me <me@X.com>`). -/
def tmSelf : ThreadMessage :=
  ⟨str "i1", str "t", str "D1", str "Me <me@X.com>", none, none, str "s",
    str "b1", []⟩

/-- A thread message from a third party with a quoted display name. -/
def tmAnn : ThreadMessage :=
  ⟨str "i2", str "t", str "D2", str "\"Ann\" <a@b.c>", none, none, str "s",
    str "b2", []⟩

/-- A first thread message from another third party. -/
def tmBob : ThreadMessage :=
  ⟨str "i0", str "t", str "D0", str "Bob <bob@b.c>", none, none, str "s",
    str "b0", []⟩

/-! ### `sanitize.ts` — HTML → text, footer stripping, whitespace cleanup -/
/-- Source `NAMED_ENTITIES` of `sanitize.ts`. -/
def namedEntities : List (JStr × JStr) :=
  [(str "amp", str "&"), (str "lt", str "<"), (str "gt", str ">"),
    (str "quot", str "\""), (str "apos", str "'"), (str "nbsp", str " "),
    (str "mdash", str "—"), (str "ndash", str "–"),
    (str "lsquo", str "‘"), (str "rsquo", str "’"),
    (str "ldquo", str "“"), (str "rdquo", str "”"),
    (str "bull", str "•"), (str "hellip", str "…"),
    (str "copy", str "©"), (str "reg", str "®"),
    (str "trade", str "™"), (str "#39", str "'")]

def isHexDig (c : Char) : Bool :=
  ('0' ≤ c && c ≤ '9') || ('a' ≤ c && c ≤ 'f') || ('A' ≤ c && c ≤ 'F')

def hexDigVal (c : Char) : Nat :=
  if '0' ≤ c && c ≤ '9' then c.toNat - '0'.toNat
  else if 'a' ≤ c && c ≤ 'f' then c.toNat - 'a'.toNat + 10
  else c.toNat - 'A'.toNat + 10

def hexVal (ds : JStr) : Nat := ds.foldl (fun a c => a * 16 + hexDigVal c) 0

def decVal (ds : JStr) : Nat := ds.foldl (fun a c => a * 10 + (c.toNat - '0'.toNat)) 0

/-- Source `String.fromCharCode`: the code is taken modulo 2^16.  Lone
surrogates, which this shallow embedding cannot represent as a `Char`,
come out as NUL. -/
def fromCharCode (n : Nat) : Char := Char.ofNat (n % 65536)

/-- Matcher for `/&#x([0-9a-fA-F]+);/g`. -/
def hexEntMatcher (t : JStr) : Option (JStr × JStr) :=
  match t with
  | '&' :: '#' :: 'x' :: r =>
    let ds := r.takeWhile isHexDig
    if ds ≠ [] then
      match r.dropWhile isHexDig with
      | ';' :: rest => some ([fromCharCode (hexVal ds)], rest)
      | _ => none
    else none
  | _ => none

/-- Matcher for `/&#(\d+);/g`. -/
def decEntMatcher (t : JStr) : Option (JStr × JStr) :=
  match t with
  | '&' :: '#' :: r =>
    let ds := r.takeWhile Char.isDigit
    if ds ≠ [] then
      match r.dropWhile Char.isDigit with
      | ';' :: rest => some ([fromCharCode (decVal ds)], rest)
      | _ => none
    else none
  | _ => none

def isEntNameChar (c : Char) : Bool := c.isAlpha || c = '#' || c.isDigit

/-- Matcher for `/&([a-zA-Z#0-9]+);/g`: a known name is replaced by its
entity, an unknown one is kept verbatim (the scan still steps past it,
as `lastIndex` does). -/
def namedEntMatcher (t : JStr) : Option (JStr × JStr) :=
  match t with
  | '&' :: r =>
    let nm := r.takeWhile isEntNameChar
    if nm ≠ [] then
      match r.dropWhile isEntNameChar with
      | ';' :: rest =>
        match namedEntities.find? (fun e => e.1 == nm) with
        | some e => some (e.2, rest)
        | none => some ('&' :: (nm ++ [';']), rest)
      | _ => none
    else none
  | _ => none

/-- Source `sanitize.ts` — `decodeEntities(text)`: hex, then decimal, then named
entity replacement, each a full global pass. -/
def decodeEntities (s : JStr) : JStr :=
  scanAll namedEntMatcher (scanAll decEntMatcher (scanAll hexEntMatcher s))

/-- Matcher for `/<(style|script|head)[\s>][\s\S]*?<\/…>/gi`: the opener
must be followed by a whitespace or `>`, and the lazy body runs to the
first closing tag; without a closer there is no match. -/
def blockRemMatcher (tag : JStr) (t : JStr) : Option (JStr × JStr) :=
  match t with
  | '<' :: r =>
    if hasPreCI tag r then
      match r.drop tag.length with
      | c :: r2 =>
        if isJsSpace c || c = '>' then
          (findAfterCI (str "</" ++ tag ++ str ">") r2).map (fun rest => ([], rest))
        else none
      | [] => none
    else none
  | _ => none

/-- Matcher for `/<!--[\s\S]*?-->/g`. -/
def commentMatcher (t : JStr) : Option (JStr × JStr) :=
  match t with
  | '<' :: r =>
    if hasPre (str "!--") r then
      (findAfterCI (str "-->") (r.drop 3)).map (fun rest => ([], rest))
    else none
  | _ => none

/-- The `\s*=\s*["']?1["']?\s` tail of the width/height-1 image pattern.
The optional quotes cannot backtrack usefully (a quote is never `1` or
whitespace), so consuming them when present is exact. -/
def attrOneTail (r : JStr) : Bool :=
  match r.dropWhile isJsSpace with
  | '=' :: r2 =>
    let r3 := r2.dropWhile isJsSpace
    let r4 := match r3 with
      | '"' :: x => x
      | '\'' :: x => x
      | _ => r3
    match r4 with
    | '1' :: r5 =>
      let r6 := match r5 with
        | '"' :: x => x
        | '\'' :: x => x
        | _ => r5
      match r6 with
      | c :: _ => isJsSpace c
      | [] => false
    | _ => false
  | _ => false

/-- Does the `>`-free window contain `width…=1` or `height…=1` (with the
mandatory trailing whitespace)? -/
def hasAttrOne : JStr → Bool
  | [] => false
  | c :: cs =>
    (hasPreCI (str "width") (c :: cs) && attrOneTail ((c :: cs).drop 5)) ||
    (hasPreCI (str "height") (c :: cs) && attrOneTail ((c :: cs).drop 6)) ||
    hasAttrOne cs

/-- Matcher for the 1×1 tracking-pixel image pattern: everything of the
match except the final `>` is `>`-free, so the extent is the first `>`
after `<img`, and the attribute must occur inside that window. -/
def imgPixelMatcher (t : JStr) : Option (JStr × JStr) :=
  match t with
  | '<' :: r =>
    if hasPreCI (str "img") r then
      let tail := r.drop 3
      let w := tail.takeWhile (· ≠ '>')
      match tail.drop w.length with
      | '>' :: rest => if hasAttrOne w then some ([], rest) else none
      | _ => none
    else none
  | _ => none

/-- Does the window contain `display\s*:\s*none`? -/
def hasDispNone : JStr → Bool
  | [] => false
  | c :: cs =>
    (hasPreCI (str "display") (c :: cs) &&
      (match ((c :: cs).drop 7).dropWhile isJsSpace with
        | ':' :: r2 => hasPreCI (str "none") (r2.dropWhile isJsSpace)
        | _ => false)) ||
    hasDispNone cs

/-- Matcher for `/<img[^>]*display\s*:\s*none[^>]*\/?>/gi`. -/
def imgDispMatcher (t : JStr) : Option (JStr × JStr) :=
  match t with
  | '<' :: r =>
    if hasPreCI (str "img") r then
      let tail := r.drop 3
      let w := tail.takeWhile (· ≠ '>')
      match tail.drop w.length with
      | '>' :: rest => if hasDispNone w then some ([], rest) else none
      | _ => none
    else none
  | _ => none

/-- Backtracking order of a greedy `[^>]*`: candidate offsets are tried
from the highest down to 0. -/
def scanBack {α : Type} (f : Nat → Option α) : Nat → Option α
  | 0 => none
  | n + 1 =>
    match f n with
    | some a => some a
    | none => scanBack f n

/-- One candidate of `src\s*=\s*["']data:[^"']*["'][^>]*\/?>`: the data
URI may cross `>`s, the closing quote is the first quote after it, and
the match then runs to the next `>`. -/
def imgSrcTry (tail : JStr) (i : Nat) : Option (JStr × JStr) :=
  let suf := tail.drop i
  if hasPreCI (str "src") suf then
    match (suf.drop 3).dropWhile isJsSpace with
    | '=' :: r2 =>
      match r2.dropWhile isJsSpace with
      | q :: r4 =>
        if (q = '"' || q = '\'') && hasPreCI (str "data:") r4 then
          let content := r4.takeWhile (fun c => c ≠ '"' && c ≠ '\'')
          match r4.drop content.length with
          | _ :: r6 =>
            match r6.dropWhile (· ≠ '>') with
            | '>' :: rest => some ([], rest)
            | _ => none
          | [] => none
        else none
      | [] => none
    | _ => none
  else none

/-- Matcher for `/<img[^>]*src\s*=\s*["']data:[^"']*["'][^>]*\/?>/gi`:
the `src` occurrence must begin inside the `>`-free window after `<img`;
the greedy `[^>]*` makes the engine try the rightmost one first. -/
def imgDataMatcher (t : JStr) : Option (JStr × JStr) :=
  match t with
  | '<' :: r =>
    if hasPreCI (str "img") r then
      let tail := r.drop 3
      let w := tail.takeWhile (· ≠ '>')
      scanBack (imgSrcTry tail) (w.length + 1)
    else none
  | _ => none

/-- Matcher for `/<br\s*\/?>/gi`. -/
def brMatcher (t : JStr) : Option (JStr × JStr) :=
  match t with
  | '<' :: c1 :: c2 :: r =>
    if (c1 = 'b' || c1 = 'B') && (c2 = 'r' || c2 = 'R') then
      match r.dropWhile isJsSpace with
      | '/' :: '>' :: rest => some (str "\n", rest)
      | '>' :: rest => some (str "\n", rest)
      | _ => none
    else none
  | _ => none

/-- The block-level tag alternation of `htmlToText` (`h1`–`h6` are
handled separately). -/
def blockTagNameList : List JStr :=
  [str "p", str "div", str "tr", str "li", str "table", str "section",
    str "article", str "header", str "footer", str "blockquote", str "ul",
    str "ol", str "dd", str "dt", str "dl", str "pre", str "hr",
    str "figcaption"]

/-- Matcher for `new RegExp("<\\/?(blockTags)[^>]*>", "gi")` → `"\n"`:
any alternative matching as a prefix gives the same extent (through the
first `>`), so only existence matters. -/
def blockTagMatcher (t : JStr) : Option (JStr × JStr) :=
  match t with
  | '<' :: r0 =>
    let r := match r0 with
      | '/' :: x => x
      | _ => r0
    if (blockTagNameList.any (fun nm => hasPreCI nm r)) ||
        (match r with
          | c :: d :: _ => (c = 'h' || c = 'H') && ('1' ≤ d && d ≤ '6')
          | _ => false) then
      match r.dropWhile (· ≠ '>') with
      | '>' :: rest => some (str "\n", rest)
      | _ => none
    else none
  | _ => none

/-- Matcher for `/<[^>]*>/g` (the replacer-internal strip: zero content
chars allowed, so `<>` is removed here). -/
def tagStarMatcher (t : JStr) : Option (JStr × JStr) :=
  match t with
  | '<' :: r =>
    let w := r.takeWhile (· ≠ '>')
    match r.drop w.length with
    | '>' :: rest => some ([], rest)
    | _ => none
  | _ => none

/-- Matcher for `/<[^>]+>/g` (step 7: at least one content char, so a
literal `<>` survives). -/
def tagPlusMatcher (t : JStr) : Option (JStr × JStr) :=
  match t with
  | '<' :: r =>
    let w := r.takeWhile (· ≠ '>')
    if w = [] then none
    else
      match r.drop w.length with
      | '>' :: rest => some ([], rest)
      | _ => none
  | _ => none

/-- Source `cleanHref.replace(/^https?:\/\//, "")`. -/
def stripHttp (s : JStr) : JStr :=
  if hasPre (str "https://") s then s.drop 8
  else if hasPre (str "http://") s then s.drop 7
  else s

/-- The `<a>` replacer of `htmlToText`. -/
def anchorReplace (href body : JStr) : JStr :=
  let linkText := jsTrim (scanAll tagStarMatcher body)
  let cleanHref := jsTrim href
  if linkText = [] then
    (if cleanHref ≠ [] then '(' :: (cleanHref ++ [')']) else [])
  else if cleanHref = [] || cleanHref = str "#" ||
      hasPre (str "mailto:") cleanHref then linkText
  else if linkText = cleanHref || linkText = stripHttp cleanHref then linkText
  else linkText ++ str " (" ++ cleanHref ++ str ")"

/-- One candidate of `href\s*=\s*["']([^"']*)["'][^>]*>([\s\S]*?)<\/a>`. -/
def aHrefTry (tail : JStr) (i : Nat) : Option (JStr × JStr) :=
  let suf := tail.drop i
  if hasPreCI (str "href") suf then
    match (suf.drop 4).dropWhile isJsSpace with
    | '=' :: r2 =>
      match r2.dropWhile isJsSpace with
      | q :: r4 =>
        if q = '"' || q = '\'' then
          let href := r4.takeWhile (fun c => c ≠ '"' && c ≠ '\'')
          match r4.drop href.length with
          | _ :: r6 =>
            match r6.dropWhile (· ≠ '>') with
            | '>' :: r8 =>
              match splitCI (str "</a>") r8 with
              | some (body, _, r9) => some (anchorReplace href body, r9)
              | none => none
            | _ => none
          | [] => none
        else none
      | [] => none
    | _ => none
  else none

/-- Matcher for the `<a …>` link extraction: `<a` then one whitespace,
then the rightmost viable `href` inside the `>`-free window. -/
def anchorMatcher (t : JStr) : Option (JStr × JStr) :=
  match t with
  | '<' :: c :: rest =>
    if c = 'a' || c = 'A' then
      match rest with
      | s0 :: r =>
        if isJsSpace s0 then
          let w := r.takeWhile (· ≠ '>')
          scanBack (aHrefTry r) (w.length + 1)
        else none
      | [] => none
    else none
  | _ => none

/-- Source `sanitize.ts` — `htmlToText(html)`: the eight replacement passes in
source order. -/
def htmlToText (html : JStr) : JStr :=
  let s1 := scanAll (blockRemMatcher (str "style")) html
  let s2 := scanAll (blockRemMatcher (str "script")) s1
  let s3 := scanAll (blockRemMatcher (str "head")) s2
  let s4 := scanAll commentMatcher s3
  let s5 := scanAll imgPixelMatcher s4
  let s6 := scanAll imgDispMatcher s5
  let s7 := scanAll imgDataMatcher s6
  let s8 := scanAll brMatcher s7
  let s9 := scanAll blockTagMatcher s8
  let s10 := scanAll anchorMatcher s9
  let s11 := scanAll tagPlusMatcher s10
  decodeEntities s11

/-- Join lines with `"\n"` (inverse of `splitOnChar '\n'`). -/
def joinNL : List JStr → JStr
  | [] => []
  | [l] => l
  | l :: ls => l ++ '\n' :: joinNL ls

/-- Does a line match `/^--\s*$/` at its own extent: `--` followed only
by whitespace?  (`\s*` may run on into later blank lines, but a line of
this shape always yields a match, and the `search` index is its start.) -/
def sigContent (l : JStr) : Bool :=
  hasPre (str "--") l && (l.drop 2).all isJsSpace

/-- Source `text.search(/^--\s*$/m)` + `text.slice(0, sigIdx)`: everything from
the first signature line onward is dropped, keeping the newline before
it. -/
def sigSlice (t : JStr) : JStr :=
  let ls := splitOnChar '\n' t
  match ls.findIdx? sigContent with
  | none => t
  | some i => joinNL (ls.take i ++ [[]])

/-- Line test for `/^sent from my (?:iphone|…|mail for windows).*$/im`. -/
def p1Line (l : JStr) : Bool :=
  hasPreCI (str "sent from my ") l &&
    ([str "iphone", str "ipad", str "galaxy", str "samsung", str "android",
      str "pixel", str "outlook", str "thunderbird",
      str "mail for windows"].any (fun d => hasPreCI d (l.drop 13)))

/-- Line test for `/^get outlook for (?:ios|android|windows|mac).*$/im`. -/
def p2Line (l : JStr) : Bool :=
  hasPreCI (str "get outlook for ") l &&
    ([str "ios", str "android", str "windows", str "mac"].any
      (fun d => hasPreCI d (l.drop 16)))

def isWordChar (c : Char) : Bool := c.isAlpha || c.isDigit || c = '_'

/-- Case-insensitive word-bounded substring search (for `\bunsubscribe\b`),
tracking the character before each candidate. -/
def hasWordSubAux (pat : JStr) : Option Char → JStr → Bool
  | _, [] => false
  | prev, c :: cs =>
    (hasPreCI pat (c :: cs) &&
      (match prev with
        | some p => ! isWordChar p
        | none => true) &&
      (match (c :: cs).drop pat.length with
        | d :: _ => ! isWordChar d
        | [] => true)) ||
    hasWordSubAux pat (some c) cs

/-- Line test for `/^.*\bunsubscribe\b.*$/im`. -/
def p3Line (l : JStr) : Bool := hasWordSubAux (str "unsubscribe") none l

/-- A single-line footer pattern whose match is the whole line: replacing
the first matching line's content with the empty string. -/
def blankLineApply (pred : JStr → Bool) (t : JStr) : JStr :=
  let ls := splitOnChar '\n' t
  match ls.findIdx? pred with
  | none => t
  | some i => joinNL (ls.take i ++ [[]] ++ ls.drop (i + 1))

/-- Keyword test of the multi-line disclaimer pattern (the `.*` context
cannot cross newlines, so the keyword sits inside one line;
`legally privileged` is subsumed by `privileged`). -/
def p4Line (l : JStr) : Bool :=
  hasSubCI (str "confidential") l || hasSubCI (str "disclaimer") l ||
  hasSubCI (str "privileged") l || hasSubCI (str "intended recipient") l

/-- Greedy `(?:\n(?!\n).*){0,8}`: how many following lines the disclaimer
match swallows — nonempty lines, or a final empty line when the text ends
there (the lookahead sees end-of-input). -/
def p4Cont : Nat → List JStr → Nat
  | 0, _ => 0
  | _, [] => 0
  | fuel + 1, l :: rest =>
    if l ≠ [] then 1 + p4Cont fuel rest
    else if rest = [] then 1
    else 0

/-- Source `FOOTER_PATTERNS[3]` (disclaimer blocks), non-global: the leftmost
match starts at the newline before the first keyword line (consuming it)
— or at position 0 when the keyword is on the first line, leaving a
leading empty line behind. -/
def p4Apply (t : JStr) : JStr :=
  let ls := splitOnChar '\n' t
  match ls.findIdx? p4Line with
  | none => t
  | some i =>
    let k := p4Cont 8 (ls.drop (i + 1))
    if i = 0 then joinNL ([] :: ls.drop (k + 1))
    else joinNL (ls.take i ++ ls.drop (i + 1 + k))

/-- Source `FOOTER_PATTERNS[4]` (`/^--\s*$/m`), non-global: `\s*` greedily runs
through following blank lines and backtracks to sit before a newline (or
consumes to the end of input). -/
def p5Apply (t : JStr) : JStr :=
  let ls := splitOnChar '\n' t
  match ls.findIdx? sigContent with
  | none => t
  | some i =>
    let b := ((ls.drop (i + 1)).takeWhile (fun l => l.all isJsSpace)).length
    if i + 1 + b = ls.length then joinNL (ls.take i ++ [[]])
    else joinNL (ls.take i ++ [[]] ++ ls.drop (i + 1 + b))

def fourDigits (r : JStr) : Bool :=
  match r with
  | a :: b :: c :: d :: _ => a.isDigit && b.isDigit && c.isDigit && d.isDigit
  | _ => false

/-- After a `\s*` run that leaves the `©` line: skip blank lines, then the
first non-blank line must open (after leading whitespace) with `\d{4}`;
the run must not fall off the end of input. -/
def p6Skip : List JStr → Nat → Option Nat
  | [], _ => none
  | l :: rest, off =>
    let r := l.dropWhile isJsSpace
    if r = [] then p6Skip rest (off + 1)
    else if fourDigits r then some off
    else none

/-- Try the `©` occurrences of a line right-to-left (the greedy `^.*`
backtracks from the line end); returns the line offset where the four
digits land. -/
def p6Occs (following : List JStr) : JStr → Option Nat
  | [] => none
  | c :: cs =>
    match p6Occs following cs with
    | some e => some e
    | none =>
      if c = '©' then
        let r := cs.dropWhile isJsSpace
        if r ≠ [] then (if fourDigits r then some 0 else none)
        else p6Skip following 1
      else none

def p6FindAux : Nat → List JStr → Option (Nat × Nat)
  | _, [] => none
  | i, l :: rest =>
    match p6Occs rest l with
    | some off => some (i, i + off)
    | none => p6FindAux (i + 1) rest

/-- Source `FOOTER_PATTERNS[5]` (`/^.*©\s*\d{4}.*$/im`), non-global: the match
runs from the start of the `©` line to the end of the line holding the
year. -/
def p6Apply (t : JStr) : JStr :=
  let ls := splitOnChar '\n' t
  match p6FindAux 0 ls with
  | none => t
  | some (i, e) => joinNL (ls.take i ++ [[]] ++ ls.drop (e + 1))

/-- Line test for `/^.*(?:all rights reserved|privacy policy|terms of
(?:service|use)).*$/im`. -/
def p7Line (l : JStr) : Bool :=
  hasSubCI (str "all rights reserved") l || hasSubCI (str "privacy policy") l ||
  hasSubCI (str "terms of service") l || hasSubCI (str "terms of use") l

/-- Source `sanitize.ts` — `stripFooterJunk(text)`: signature slice, then the
seven footer patterns, each replacing only its first match. -/
def stripFooterJunk (t : JStr) : JStr :=
  let s0 := sigSlice t
  let s1 := blankLineApply p1Line s0
  let s2 := blankLineApply p2Line s1
  let s3 := blankLineApply p3Line s2
  let s4 := p4Apply s3
  let s5 := p5Apply s4
  let s6 := p6Apply s5
  blankLineApply p7Line s6

/-- Matcher for `/\n{3,}/g` → `"\n\n"`. -/
def collapseNLMatcher (t : JStr) : Option (JStr × JStr) :=
  match t with
  | '\n' :: '\n' :: '\n' :: r => some (str "\n\n", r.dropWhile (· = '\n'))
  | _ => none

/-- Source `sanitize.ts` — `cleanWhitespace(text)`. -/
def cleanWhitespace (t : JStr) : JStr :=
  jsTrim (scanAll collapseNLMatcher
    (joinNL ((splitOnChar '\n' t).map jsTrim)))

/-- Source `sanitize.ts` — `sanitizeEmailBody(html)`. -/
def sanitizeEmailBody (html : JStr) : JStr :=
  cleanWhitespace (stripFooterJunk (htmlToText html))

/-- A line is footer-clean: it carries none of the markers any of the
seven footer patterns (or the signature search) can fire on. -/
def lineClean (l : JStr) : Prop :=
  hasSubCI (str "sent from my") l = false ∧
  hasSubCI (str "get outlook for") l = false ∧
  hasSubCI (str "unsubscribe") l = false ∧
  hasSubCI (str "confidential") l = false ∧
  hasSubCI (str "disclaimer") l = false ∧
  hasSubCI (str "privileged") l = false ∧
  hasSubCI (str "intended recipient") l = false ∧
  '©' ∉ l ∧
  hasSubCI (str "all rights reserved") l = false ∧
  hasSubCI (str "privacy policy") l = false ∧
  hasSubCI (str "terms of service") l = false ∧
  hasSubCI (str "terms of use") l = false ∧
  hasPre (str "--") (jsTrim l) = false

instance lineCleanDec : DecidablePred lineClean := fun l => by
  unfold lineClean
  infer_instance

lemma jsLower_ne_nil {e : JStr} (he : e ≠ []) : jsLower e ≠ [] := by
  cases e with
  | nil => exact absurd rfl he
  | cons c cs => simp [jsLower]

/-- Pointwise reading of the per-entry test inside `isEmailAllowed`. -/
lemma allow_entry_iff (e entry : JStr) (he : e ≠ []) :
    ((if (jsTrim (jsLower entry)).isEmpty then false
      else if jsLower e = jsTrim (jsLower entry) then true
      else if hasPre (str "@") (jsTrim (jsLower entry)) &&
          hasSuf (jsTrim (jsLower entry)) (jsLower e) then true
      else false) = true) ↔
    (jsTrim (jsLower entry) = jsLower e ∨
      (hasPre (str "@") (jsTrim (jsLower entry)) = true ∧
        hasSuf (jsTrim (jsLower entry)) (jsLower e) = true)) := by
  by_cases ht : jsTrim (jsLower entry) = []
  · simp only [ht, List.isEmpty_nil, if_true]
    constructor
    · intro h; exact absurd h (by simp)
    · rintro (h | ⟨hAt, _⟩)
      · exact absurd h.symm (jsLower_ne_nil he)
      · simp [hasPre, str] at hAt
  · have ht' : (jsTrim (jsLower entry)).isEmpty = false := by
      cases h : jsTrim (jsLower entry) with
      | nil => exact absurd h ht
      | cons a l => simp
    simp only [ht', Bool.false_eq_true, if_false]
    by_cases h2 : jsLower e = jsTrim (jsLower entry)
    · simp [h2]
    · simp only [h2, if_false]
      constructor
      · intro h
        by_cases h3 : (hasPre (str "@") (jsTrim (jsLower entry)) &&
            hasSuf (jsTrim (jsLower entry)) (jsLower e)) = true
        · rcases Bool.and_eq_true_iff.mp h3 with ⟨ha, hb⟩
          exact Or.inr ⟨ha, hb⟩
        · rw [if_neg h3] at h; exact absurd h (by simp)
      · rintro (hEq | ⟨hAt, hSuf⟩)
        · exact absurd hEq.symm h2
        · simp [hAt, hSuf]

/-- C1: For every email address string `e` and allow-list `L`,
`isEmailAllowed e L` is true iff `L` is empty, or `L` contains `"*"`, or
some entry (lowercased, trimmed) equals `e` lowercased, or some entry
beginning with `@` is a literal case-insensitive suffix of `e` lowercased;
the spec's concrete examples hold; and the inbound matcher `isAllowed`
agrees with `isEmailAllowed` on every non-empty list while returning
`false` on the empty list where `isEmailAllowed` returns `true`. -/
theorem isEmailAllowed_matching_rules (e : JStr) (L : List JStr) (he : e ≠ []) :
    (isEmailAllowed e L = true ↔ allowRulesSpec e L) ∧
    (L ≠ [] → isAllowed e L = isEmailAllowed e L) ∧
    isAllowed e [] = false ∧ isEmailAllowed e [] = true ∧
    isEmailAllowed (str "user@company.com") [str "@company.com"] = true ∧
    isEmailAllowed (str "user@notcompany.com") [str "@company.com"] = false ∧
    (∀ x, isEmailAllowed x [str "*"] = true) := by
  refine ⟨?_, ?_, by simp [isAllowed], by simp [isEmailAllowed], by decide, by decide,
    fun x => by simp [isEmailAllowed, str]⟩
  · unfold isEmailAllowed allowRulesSpec
    by_cases hL : L = []
    · subst hL; simp
    · have hLe : L.isEmpty = false := by
        cases L with
        | nil => exact absurd rfl hL
        | cons a l => simp
      simp only [hLe, Bool.false_eq_true, if_false]
      by_cases hstar : L.any (fun entry => entry = str "*") = true
      · simp only [hstar, if_true, true_iff]
        rcases List.any_eq_true.mp hstar with ⟨entry, hmem, heq⟩
        have : entry = str "*" := by simpa using heq
        exact Or.inr (Or.inl (this ▸ hmem))
      · have hstar' : str "*" ∉ L := fun hmem =>
          hstar (List.any_eq_true.mpr ⟨str "*", hmem, by simp⟩)
        have hee : e.isEmpty = false := by
          cases e with
          | nil => exact absurd rfl he
          | cons a l => simp
        simp only [hstar, Bool.false_eq_true, if_false, hee]
        rw [List.any_eq_true]
        constructor
        · rintro ⟨entry, hmem, hcond⟩
          exact Or.inr (Or.inr ⟨entry, hmem, (allow_entry_iff e entry he).mp hcond⟩)
        · rintro (hnil | hmem | ⟨entry, hmem, hcase⟩)
          · exact absurd hnil hL
          · exact absurd hmem hstar'
          · exact ⟨entry, hmem, (allow_entry_iff e entry he).mpr hcase⟩
  · intro hL
    have hLe : L.isEmpty = false := by
      cases L with
      | nil => exact absurd rfl hL
      | cons a l => simp
    have hee : e.isEmpty = false := by
      cases e with
      | nil => exact absurd rfl he
      | cons a l => simp
    unfold isAllowed isEmailAllowed
    simp only [hLe, Bool.false_eq_true, if_false, hee]

/-- Witness for `isEmailAllowed_matching_rules` at a concrete address and
allow-list. -/
theorem isEmailAllowed_matching_rules_witness :
    (isEmailAllowed (str "user@company.com") [str "@company.com"] = true ↔
      allowRulesSpec (str "user@company.com") [str "@company.com"]) ∧
    ([str "@company.com"] ≠ ([] : List JStr) →
      isAllowed (str "user@company.com") [str "@company.com"] =
        isEmailAllowed (str "user@company.com") [str "@company.com"]) ∧
    isAllowed (str "user@company.com") [] = false ∧
    isEmailAllowed (str "user@company.com") [] = true ∧
    isEmailAllowed (str "user@company.com") [str "@company.com"] = true ∧
    isEmailAllowed (str "user@notcompany.com") [str "@company.com"] = false ∧
    (∀ x, isEmailAllowed x [str "*"] = true) :=
  isEmailAllowed_matching_rules (str "user@company.com") [str "@company.com"]
    (by decide)

lemma edAddr_fold_snd_some (acc : JStr) (i : Nat) (ff : Bool)
    (addrs : List ThreadParticipant) (st : List (JStr × ThreadParticipant) × Option JStr)
    (o : JStr) (h : st.2 = some o) :
    (addrs.foldl (edAddrStep acc i ff) st).2 = some o := by
  induction addrs generalizing st with
  | nil => exact h
  | cons a l ih =>
    apply ih
    show (edAddrStep acc i ff st a).2 = some o
    unfold edAddrStep
    simp only [h, Option.isNone_some, Bool.and_false, Bool.false_eq_true, if_false]

lemma edAddr_fold_snd_not (acc : JStr) (i : Nat) (ff : Bool)
    (addrs : List ThreadParticipant) (st : List (JStr × ThreadParticipant) × Option JStr)
    (h : (i == 0 && ff) = false) :
    (addrs.foldl (edAddrStep acc i ff) st).2 = st.2 := by
  induction addrs generalizing st with
  | nil => rfl
  | cons a l ih =>
    rw [List.foldl_cons, ih]
    show (edAddrStep acc i ff st a).2 = st.2
    unfold edAddrStep
    simp only [h, Bool.false_and, Bool.false_eq_true, if_false]

lemma edAddr_fold_snd_from0 (acc : JStr) (addrs : List ThreadParticipant)
    (st : List (JStr × ThreadParticipant) × Option JStr) (h : st.2 = none) :
    (addrs.foldl (edAddrStep acc 0 true) st).2 = addrs.head?.map (fun a => a.email) := by
  cases addrs with
  | nil => exact h
  | cons a l =>
    rw [List.foldl_cons]
    simp only [List.head?_cons, Option.map_some']
    apply edAddr_fold_snd_some
    show (edAddrStep acc 0 true st a).2 = some a.email
    unfold edAddrStep
    simp only [h, Option.isNone_none, Bool.and_true, Bool.and_self]
    rfl

lemma edField_fold_snd_some (acc : JStr) (i : Nat) (fields : List (JStr × Bool))
    (st : List (JStr × ThreadParticipant) × Option JStr) (o : JStr) (h : st.2 = some o) :
    (fields.foldl
      (fun st2 fb => (parseEmailAddresses fb.1).foldl (edAddrStep acc i fb.2) st2) st).2 =
      some o := by
  induction fields generalizing st with
  | nil => exact h
  | cons fb l ih => exact ih _ (edAddr_fold_snd_some _ _ _ _ _ _ h)

lemma edField_fold_snd_none (acc : JStr) (fields : List (JStr × Bool))
    (hf : ∀ fb ∈ fields, fb.2 = true → parseEmailAddresses fb.1 = [])
    (st : List (JStr × ThreadParticipant) × Option JStr) (h : st.2 = none) :
    (fields.foldl
      (fun st2 fb => (parseEmailAddresses fb.1).foldl (edAddrStep acc 0 fb.2) st2) st).2 =
      none := by
  induction fields generalizing st with
  | nil => exact h
  | cons fb l ih =>
    rw [List.foldl_cons]
    apply ih (fun fb' hm => hf fb' (List.mem_cons_of_mem _ hm))
    cases hb : fb.2 with
    | false => rw [edAddr_fold_snd_not _ _ _ _ _ (by simp [hb])]; exact h
    | true => rw [hf fb (List.mem_cons_self _ _) hb]; exact h

lemma edField_fold_snd_i_ne (acc : JStr) (i : Nat) (hi : (i == 0) = false)
    (fields : List (JStr × Bool))
    (st : List (JStr × ThreadParticipant) × Option JStr) :
    (fields.foldl
      (fun st2 fb => (parseEmailAddresses fb.1).foldl (edAddrStep acc i fb.2) st2) st).2 =
      st.2 := by
  induction fields generalizing st with
  | nil => rfl
  | cons fb l ih =>
    rw [List.foldl_cons, ih, edAddr_fold_snd_not _ _ _ _ _ (by simp [hi])]

lemma edMsgStep_snd_zero (acc : JStr) (m : TMsg)
    (st : List (JStr × ThreadParticipant) × Option JStr) (h : st.2 = none) :
    (edMsgStep acc st (0, m)).2 =
      (parseEmailAddresses m.«from»).head?.map (fun a => a.email) := by
  unfold edMsgStep
  by_cases hfrom : m.«from» = []
  · have hpe : parseEmailAddresses m.«from» = [] := by rw [hfrom]; rfl
    have haux : ∀ fb ∈ (((([m.«from»] ++ m.«to».toList ++ m.cc.toList).filter
        (· ≠ []))).map fun f => (f, f == m.«from»)),
        fb.2 = true → parseEmailAddresses fb.1 = [] := by
      rintro ⟨f, b⟩ hm hb
      simp only [List.mem_map] at hm
      obtain ⟨f2, hf2, hfe⟩ := hm
      have hfa : f2 = f := congrArg Prod.fst hfe
      have hfb : (f2 == m.«from») = b := congrArg Prod.snd hfe
      have hf2m : f2 = m.«from» := eq_of_beq (hfb.trans (by simpa using hb))
      show parseEmailAddresses f = []
      rw [← hfa, hf2m]; exact hpe
    rw [edField_fold_snd_none _ _ haux _ h, hpe]
    rfl
  · have hfilter :
        (([m.«from»] ++ m.«to».toList ++ m.cc.toList).filter (· ≠ [])) =
          m.«from» :: ((m.«to».toList ++ m.cc.toList).filter (· ≠ [])) := by
      simp only [List.append_assoc, List.filter_append, List.filter_cons]
      simp [hfrom]
    rw [hfilter]
    simp only [List.map_cons, List.foldl_cons, beq_self_eq_true]
    have hfirst : ((parseEmailAddresses m.«from»).foldl (edAddrStep acc 0 true) st).2 =
        (parseEmailAddresses m.«from»).head?.map (fun a => a.email) :=
      edAddr_fold_snd_from0 acc _ st h
    cases hh : (parseEmailAddresses m.«from»).head? with
    | none =>
      have hpe : parseEmailAddresses m.«from» = [] := List.head?_eq_none_iff.mp hh
      have haux : ∀ fb ∈ ((m.«to».toList ++ m.cc.toList).filter (· ≠ [])).map
          (fun f => (f, f == m.«from»)), fb.2 = true → parseEmailAddresses fb.1 = [] := by
        rintro ⟨f, b⟩ hm hb
        simp only [List.mem_map] at hm
        obtain ⟨f2, hf2, hfe⟩ := hm
        have hfa : f2 = f := congrArg Prod.fst hfe
        have hfb : (f2 == m.«from») = b := congrArg Prod.snd hfe
        have hf2m : f2 = m.«from» := eq_of_beq (hfb.trans (by simpa using hb))
        show parseEmailAddresses f = []
        rw [← hfa, hf2m]; exact hpe
      rw [edField_fold_snd_none _ _ haux _ (by rw [hfirst, hh]; rfl)]
      rfl
    | some a =>
      rw [edField_fold_snd_some _ _ _ _ a.email (by rw [hfirst, hh]; rfl)]
      rfl

lemma edMsg_fold_enumFrom_snd (acc : JStr) (msgs : List TMsg) (k : Nat)
    (st : List (JStr × ThreadParticipant) × Option JStr) :
    ((List.enumFrom (k + 1) msgs).foldl (edMsgStep acc) st).2 = st.2 := by
  induction msgs generalizing k st with
  | nil => rfl
  | cons m l ih =>
    show ((List.enumFrom (k + 2) l).foldl (edMsgStep acc) (edMsgStep acc st (k + 1, m))).2 = _
    rw [show k + 2 = (k + 1) + 1 from rfl, ih]
    unfold edMsgStep
    exact edField_fold_snd_i_ne acc (k + 1) (by simp) _ _

/-- The thread originator recorded by `extractThreadData` is exactly the
first address parsed from the first message's `From` header. -/
lemma originalSender_cons (acc : JStr) (m0 : TMsg) (rest : List TMsg) :
    (extractThreadData (m0 :: rest) acc).originalSender =
      (parseEmailAddresses m0.«from»).head?.map (fun a => a.email) := by
  unfold extractThreadData
  show (((0, m0) :: List.enumFrom 1 rest).foldl (edMsgStep acc) ([], none)).2 = _
  rw [List.foldl_cons, show (1 : Nat) = 0 + 1 from rfl, edMsg_fold_enumFrom_snd]
  exact edMsgStep_snd_zero acc m0 ([], none) rfl

/-- C3: Under the `sender-only` policy, a fetched thread reply is admitted
iff the first address of the thread's first message's `From` header
satisfies `allowOutboundTo`; on rejection the blocked list names only that
originator; and the decision is a function of the first message's `From`
header alone — `To`/`Cc` values and later messages never affect it. -/
theorem validateThreadReply_senderOnly (accountEmail : JStr) (allow : List JStr)
    (m0 : TMsg) (rest : List TMsg) :
    ((validateThreadReply accountEmail allow .senderOnly (.ok (some (m0 :: rest)))).ok = true ↔
      ∃ a, (parseEmailAddresses m0.«from»).head? = some a ∧
        isEmailAllowed a.email allow = true) ∧
    (∀ b, (validateThreadReply accountEmail allow .senderOnly
        (.ok (some (m0 :: rest)))).blocked = some b →
      ∃ a, (parseEmailAddresses m0.«from»).head? = some a ∧ b = [a.email] ∧
        isEmailAllowed a.email allow = false) ∧
    (∀ (m0' : TMsg) (rest' : List TMsg), m0'.«from» = m0.«from» →
      validateThreadReply accountEmail allow .senderOnly (.ok (some (m0' :: rest'))) =
        validateThreadReply accountEmail allow .senderOnly (.ok (some (m0 :: rest)))) := by
  have key : ∀ (m : TMsg) (r : List TMsg), m.«from» = m0.«from» →
      validateThreadReply accountEmail allow .senderOnly (.ok (some (m :: r))) =
        (match (parseEmailAddresses m0.«from»).head?.map (fun a => a.email) with
          | none =>
            { ok := false, reason := some (str "Could not determine thread sender") }
          | some o =>
            if isEmailAllowed o allow then { ok := true }
            else
              { ok := false, blocked := some [o],
                reason := some (str "Thread sender not in allowOutboundTo") }) := by
    intro m r hm
    have hos : (extractThreadData (m :: r) accountEmail).originalSender =
        (parseEmailAddresses m0.«from»).head?.map (fun a => a.email) :=
      (originalSender_cons accountEmail m r).trans (by rw [hm])
    show (match (extractThreadData (m :: r) accountEmail).originalSender with
      | none => ({ ok := false, reason := some (str "Could not determine thread sender") } :
          ValidationResult)
      | some o =>
        if isEmailAllowed o allow then { ok := true }
        else
          { ok := false, blocked := some [o],
            reason := some (str "Thread sender not in allowOutboundTo") }) = _
    rw [hos]
  rw [key m0 rest rfl]
  cases hh : (parseEmailAddresses m0.«from»).head? with
  | none =>
    refine ⟨?_, ?_, ?_⟩
    · simp
    · intro b hb; simp at hb
    · intro m0' rest' hm; rw [key m0' rest' hm, hh]
  | some a =>
    by_cases hba : isEmailAllowed a.email allow = true
    · refine ⟨?_, ?_, ?_⟩
      · simp only [Option.map_some']
        rw [if_pos hba]
        exact ⟨fun _ => ⟨a, rfl, hba⟩, fun _ => rfl⟩
      · intro b hb
        simp only [Option.map_some'] at hb
        rw [if_pos hba] at hb
        exact absurd hb (by simp)
      · intro m0' rest' hm; rw [key m0' rest' hm, hh]
    · have hba' : isEmailAllowed a.email allow = false := Bool.eq_false_iff.mpr hba
      refine ⟨?_, ?_, ?_⟩
      · simp only [Option.map_some']
        rw [if_neg hba]
        constructor
        · intro h; exact absurd h (by simp)
        · rintro ⟨a', ha', hall⟩
          cases Option.some.inj ha'
          exact absurd hall hba
      · intro b hb
        simp only [Option.map_some'] at hb
        rw [if_neg hba] at hb
        refine ⟨a, rfl, ?_, hba'⟩
        have : some [a.email] = some b := hb
        exact (Option.some.inj this).symm
      · intro m0' rest' hm; rw [key m0' rest' hm, hh]

/-- Witness for `validateThreadReply_senderOnly`: originator `a@x.com` is
allow-listed, the CC'd `b@y.com` is not, and the reply is admitted. -/
theorem validateThreadReply_senderOnly_witness :
    ((validateThreadReply (str "me@x.com") [str "@x.com"] .senderOnly
      (.ok (some [⟨str "a@x.com", some (str "me@x.com, b@y.com"), none⟩]))).ok = true ↔
      ∃ a, (parseEmailAddresses (str "a@x.com")).head? = some a ∧
        isEmailAllowed a.email [str "@x.com"] = true) ∧
    (∀ b, (validateThreadReply (str "me@x.com") [str "@x.com"] .senderOnly
        (.ok (some [⟨str "a@x.com", some (str "me@x.com, b@y.com"), none⟩]))).blocked =
        some b →
      ∃ a, (parseEmailAddresses (str "a@x.com")).head? = some a ∧ b = [a.email] ∧
        isEmailAllowed a.email [str "@x.com"] = false) ∧
    (∀ (m0' : TMsg) (rest' : List TMsg), m0'.«from» = str "a@x.com" →
      validateThreadReply (str "me@x.com") [str "@x.com"] .senderOnly
        (.ok (some (m0' :: rest'))) =
        validateThreadReply (str "me@x.com") [str "@x.com"] .senderOnly
          (.ok (some [⟨str "a@x.com", some (str "me@x.com, b@y.com"), none⟩]))) :=
  validateThreadReply_senderOnly (str "me@x.com") [str "@x.com"]
    ⟨str "a@x.com", some (str "me@x.com, b@y.com"), none⟩ []

lemma circuitFailStep_bu_below (st : CircuitState) (t1 t2 : Nat)
    (h : ¬ circuitMaxFailures ≤ st.consecutiveFailures + 1) :
    (circuitFailStep st t1 t2).backoffUntil = st.backoffUntil := by
  unfold circuitFailStep
  rw [if_neg h]

lemma runGogLoop_success (env : GogEnv) (remaining i : Nat) (st : CircuitState)
    (lastErr : Option JStr) (s : JStr) (hok : env.attempts i = .ok s)
    (hjson : (jsTrim s).isEmpty = true ∨ env.jsonOk s = true) :
    (runGogLoop env (remaining + 1) i st lastErr).2.1 =
      { consecutiveFailures := 0, lastFailureAt := st.lastFailureAt, backoffUntil := 0 } ∧
    ∃ v, (runGogLoop env (remaining + 1) i st lastErr).1 = .ok v := by
  unfold runGogLoop
  rw [hok]
  rcases hjson with h | h
  · simp [h]
  · by_cases he : (jsTrim s).isEmpty = true
    · simp [he]
    · have he' : (jsTrim s).isEmpty = false := Bool.eq_false_iff.mpr he
      simp [he', h]

lemma runGogLoop_transient_then_success (env : GogEnv) (k : Nat) :
    ∀ (remaining i : Nat) (st : CircuitState) (lastErr : Option JStr) (s : JStr),
    (∀ j, j < k → transientAttempt env (i + j)) →
    env.attempts (i + k) = .ok s →
    ((jsTrim s).isEmpty = true ∨ env.jsonOk s = true) →
    k < remaining →
    (runGogLoop env remaining i st lastErr).2.1.consecutiveFailures = 0 ∧
    (runGogLoop env remaining i st lastErr).2.1.backoffUntil = 0 ∧
    ∃ v, (runGogLoop env remaining i st lastErr).1 = .ok v := by
  induction k with
  | zero =>
    intro remaining i st lastErr s _ hok hjson hrem
    obtain ⟨r, rfl⟩ : ∃ r, remaining = r + 1 :=
      ⟨remaining - 1, (Nat.succ_pred_eq_of_pos hrem).symm⟩
    have h := runGogLoop_success env r i st lastErr s (by simpa using hok) hjson
    exact ⟨by rw [h.1], by rw [h.1], h.2⟩
  | succ k ih =>
    intro remaining i st lastErr s htrans hok hjson hrem
    obtain ⟨r, rfl⟩ : ∃ r, remaining = r + 1 :=
      ⟨remaining - 1, (Nat.succ_pred_eq_of_pos (Nat.lt_of_le_of_lt (Nat.zero_le _) hrem)).symm⟩
    obtain ⟨m, hm, h404, hcirc⟩ := htrans 0 (Nat.succ_pos k)
    have step := ih r (i + 1) st (some m) s
      (fun j hj => by
        have := htrans (j + 1) (Nat.succ_lt_succ hj)
        simpa [Nat.add_assoc, Nat.add_comm 1 j] using this)
      (by simpa [Nat.add_assoc, Nat.add_comm 1 k] using hok) hjson
      (Nat.lt_of_succ_lt_succ hrem)
    unfold runGogLoop
    rw [show i + 0 = i from rfl] at hm
    rw [hm]
    simp only [h404, Bool.false_eq_true, if_false, hcirc]
    exact ⟨step.1, step.2.1, step.2.2⟩

lemma runGogLoop_backoff_change (env : GogEnv) :
    ∀ (remaining i : Nat) (st : CircuitState) (lastErr : Option JStr),
    (runGogLoop env remaining i st lastErr).2.1.backoffUntil ≠ st.backoffUntil →
    (runGogLoop env remaining i st lastErr).2.1.backoffUntil ≠ 0 →
    (runGogLoop env remaining i st lastErr).2.1.consecutiveFailures =
        st.consecutiveFailures + 1 ∧
      circuitMaxFailures ≤ (runGogLoop env remaining i st lastErr).2.1.consecutiveFailures ∧
      (runGogLoop env remaining i st lastErr).2.1.backoffUntil =
        env.time 1 + min (circuitInitialBackoffMs *
          2 ^ ((runGogLoop env remaining i st lastErr).2.1.consecutiveFailures -
            circuitMaxFailures)) circuitMaxBackoffMs ∧
      env.time 1 < (runGogLoop env remaining i st lastErr).2.1.backoffUntil := by
  intro remaining
  induction remaining with
  | zero => intro i st lastErr hne _; exact absurd rfl hne
  | succ r ih =>
    intro i st lastErr hne hz
    revert hne hz
    unfold runGogLoop
    cases hatt : env.attempts i with
    | ok stdout =>
      by_cases he : (jsTrim stdout).isEmpty = true
      · intro hne hz
        simp only [he, if_true] at hz
        exact absurd rfl hz
      · have he' : (jsTrim stdout).isEmpty = false := Bool.eq_false_iff.mpr he
        by_cases hj : env.jsonOk stdout = true
        · intro hne hz
          simp only [he', Bool.false_eq_true, if_false, hj, if_true] at hz
          exact absurd rfl hz
        · have hj' : env.jsonOk stdout = false := Bool.eq_false_iff.mpr hj
          simp only [he', Bool.false_eq_true, if_false, hj']
          by_cases h404 : isNotFoundMsg (env.jsonErrMsg stdout) = true
          · intro hne hz
            simp only [h404, if_true] at hz
            exact absurd rfl hz
          · have h404' : isNotFoundMsg (env.jsonErrMsg stdout) = false :=
              Bool.eq_false_iff.mpr h404
            simp only [h404', Bool.false_eq_true, if_false]
            by_cases hc : isCircuitMsg (env.jsonErrMsg stdout) = true
            · intro hne hz
              exfalso
              apply hz
              simp only [hc, if_true]
              show (circuitFailStep
                { consecutiveFailures := 0, lastFailureAt := st.lastFailureAt,
                  backoffUntil := 0 } (env.time 0) (env.time 1)).backoffUntil = 0
              have hlow : ¬ circuitMaxFailures ≤ 0 + 1 := by decide
              exact circuitFailStep_bu_below _ _ _ hlow
            · have hc' : isCircuitMsg (env.jsonErrMsg stdout) = false :=
                Bool.eq_false_iff.mpr hc
              simp only [hc', Bool.false_eq_true, if_false]
              intro hne hz
              have h2 := ih (i + 1)
                { consecutiveFailures := 0, lastFailureAt := st.lastFailureAt,
                  backoffUntil := 0 } (some (env.jsonErrMsg stdout)) (by exact hz) hz
              refine absurd h2.2.1 ?_
              rw [h2.1]
              have hlow2 : ¬ circuitMaxFailures ≤ 0 + 1 := by decide
              exact hlow2
    | fail msg =>
      by_cases h404 : isNotFoundMsg msg = true
      · intro hne _; simp only [h404, if_true] at hne; exact absurd rfl hne
      · have h404' : isNotFoundMsg msg = false := Bool.eq_false_iff.mpr h404
        simp only [h404', Bool.false_eq_true, if_false]
        by_cases hc : isCircuitMsg msg = true
        · simp only [hc, if_true]
          intro hne hz
          revert hne hz
          unfold circuitFailStep
          by_cases hth : circuitMaxFailures ≤ st.consecutiveFailures + 1
          · rw [if_pos hth]
            intro _ _
            refine ⟨rfl, hth, rfl, ?_⟩
            have hpos : 0 < min (circuitInitialBackoffMs *
                2 ^ (st.consecutiveFailures + 1 - circuitMaxFailures))
                circuitMaxBackoffMs := by
              apply lt_min
              · exact Nat.mul_pos (by decide) (Nat.pos_pow_of_pos _ (by decide))
              · decide
            show env.time 1 < env.time 1 + min (circuitInitialBackoffMs *
              2 ^ (st.consecutiveFailures + 1 - circuitMaxFailures)) circuitMaxBackoffMs
            omega
          · rw [if_neg hth]
            intro hne _
            exact absurd rfl hne
        · have hc' : isCircuitMsg msg = false := Bool.eq_false_iff.mpr hc
          simp only [hc', Bool.false_eq_true, if_false]
          exact fun hne hz => ih (i + 1) st (some msg) hne hz

/-- C5: For the subprocess-backed read path (`runGog`): a call issued
while `now < backoffUntil` fails immediately with zero transport calls and
an unchanged circuit; a successful transport invocation (preceded only by
retried transient errors) leaves `consecutiveFailures = 0` and
`backoffUntil = 0`; and `backoffUntil` changes to a nonzero (future) value
only when a classified auth/rate-limit/server/timeout error pushes
`consecutiveFailures` (incremented by one per run) to the threshold 3,
using the capped exponential backoff from the failure time. -/
theorem runGog_circuit_breaker :
    (∀ (env : GogEnv) (acct : JStr) (now retries : Nat) (st : CircuitState),
      now < st.backoffUntil →
      runGog env acct now retries st =
        (.error (str "Circuit breaker active for " ++ acct), st, 0)) ∧
    (∀ (env : GogEnv) (acct : JStr) (now retries k : Nat) (st : CircuitState) (s : JStr),
      ¬ now < st.backoffUntil →
      (∀ j, j < k → transientAttempt env j) →
      env.attempts k = .ok s →
      ((jsTrim s).isEmpty = true ∨ env.jsonOk s = true) →
      k < retries →
      (runGog env acct now retries st).2.1.consecutiveFailures = 0 ∧
      (runGog env acct now retries st).2.1.backoffUntil = 0 ∧
      ∃ v, (runGog env acct now retries st).1 = .ok v) ∧
    (∀ (env : GogEnv) (acct : JStr) (now retries : Nat) (st : CircuitState),
      ¬ now < st.backoffUntil →
      (runGog env acct now retries st).2.1.backoffUntil ≠ st.backoffUntil →
      (runGog env acct now retries st).2.1.backoffUntil ≠ 0 →
      (runGog env acct now retries st).2.1.consecutiveFailures =
          st.consecutiveFailures + 1 ∧
        3 ≤ (runGog env acct now retries st).2.1.consecutiveFailures ∧
        (runGog env acct now retries st).2.1.backoffUntil =
          env.time 1 + min (60000 *
            2 ^ ((runGog env acct now retries st).2.1.consecutiveFailures - 3)) 900000 ∧
        env.time 1 < (runGog env acct now retries st).2.1.backoffUntil) := by
  refine ⟨?_, ?_, ?_⟩
  · intro env acct now retries st h
    unfold runGog
    rw [if_pos h]
  · intro env acct now retries k st s hnow htrans hok hjson hret
    unfold runGog
    rw [if_neg hnow]
    exact runGogLoop_transient_then_success env k retries 0 st none s
      (fun j hj => by simpa using htrans j hj) (by simpa using hok) hjson hret
  · intro env acct now retries st hnow
    unfold runGog
    rw [if_neg hnow]
    exact runGogLoop_backoff_change env retries 0 st none

/-- Witness for `runGog_circuit_breaker` at concrete states: an open
circuit fails fast with zero transport calls; a first-attempt success
resets the circuit; a third consecutive classified failure sets the
backoff. -/
theorem runGog_circuit_breaker_witness :
    runGog gogEnv500 (str "a@x.com") 5 3 ⟨2, 0, 10⟩ =
      (.error (str "Circuit breaker active for " ++ str "a@x.com"), ⟨2, 0, 10⟩, 0) ∧
    ((runGog gogEnvOk (str "a@x.com") 5 3 ⟨2, 0, 0⟩).2.1.consecutiveFailures = 0 ∧
      (runGog gogEnvOk (str "a@x.com") 5 3 ⟨2, 0, 0⟩).2.1.backoffUntil = 0 ∧
      ∃ v, (runGog gogEnvOk (str "a@x.com") 5 3 ⟨2, 0, 0⟩).1 = .ok v) ∧
    ((runGog gogEnv500 (str "a@x.com") 5 3 ⟨2, 0, 0⟩).2.1.consecutiveFailures = 2 + 1 ∧
      3 ≤ (runGog gogEnv500 (str "a@x.com") 5 3 ⟨2, 0, 0⟩).2.1.consecutiveFailures ∧
      (runGog gogEnv500 (str "a@x.com") 5 3 ⟨2, 0, 0⟩).2.1.backoffUntil =
        gogEnv500.time 1 + min (60000 *
          2 ^ ((runGog gogEnv500 (str "a@x.com") 5 3 ⟨2, 0, 0⟩).2.1.consecutiveFailures -
            3)) 900000 ∧
      gogEnv500.time 1 < (runGog gogEnv500 (str "a@x.com") 5 3 ⟨2, 0, 0⟩).2.1.backoffUntil) := by
  refine ⟨?_, ?_, ?_⟩
  · exact runGog_circuit_breaker.1 gogEnv500 (str "a@x.com") 5 3 ⟨2, 0, 10⟩ (by decide)
  · exact runGog_circuit_breaker.2.1 gogEnvOk (str "a@x.com") 5 3 0 ⟨2, 0, 0⟩ (str "{}")
      (by decide) (fun j hj => absurd hj (Nat.not_lt_zero j)) rfl (Or.inr rfl) (by decide)
  · exact runGog_circuit_breaker.2.2 gogEnv500 (str "a@x.com") 5 3 ⟨2, 0, 0⟩
      (by decide) (by decide) (by decide)

/-- C10: A provider payload whose parsed `From` address equals the
account's own email case-insensitively is converted to `null` by both
`parseInboundGmail` and `parseSearchGmail`, so a self-sent message is
never turned into an `InboundMessage`. -/
theorem parse_self_sender_returns_none :
    (∀ (env : CodecEnv) (payload : GogPayload) (accountId : Option JStr) (f : JStr),
      getHeaderVal payload.payload.headers (str "From") = some f →
      jsLower (senderIdOf f) = jsLower payload.account →
      parseInboundGmail env payload accountId = none) ∧
    (∀ (dateParse : JStr → Option Int) (msg : SearchMsg)
      (accountId : Option JStr) (a : JStr),
      a ≠ [] →
      jsLower (senderIdOf msg.«from») = jsLower a →
      parseSearchGmail dateParse msg accountId (some a) = none) := by
  constructor
  · intro env payload accountId f hf hself
    unfold parseInboundGmail
    simp only [hf]
    by_cases hfe : f = []
    · rw [if_pos hfe]
    · rw [if_neg hfe, if_pos (beq_iff_eq.mpr hself)]
  · intro dateParse msg accountId a ha hself
    unfold parseSearchGmail
    by_cases hfe : msg.«from» = []
    · rw [if_pos hfe]
    · rw [if_neg hfe, if_pos
        (Bool.and_eq_true_iff.mpr ⟨decide_eq_true ha, beq_iff_eq.mpr hself⟩)]

/-- Witness for `parse_self_sender_returns_none`: a payload from
`Me <me@x.com>` on the account `me@X.com` parses to `null` in both
parsers. -/
theorem parse_self_sender_returns_none_witness :
    parseInboundGmail ⟨id, fun _ => str "0 B"⟩
      ⟨str "me@X.com", str "m1", str "t1", str "h1", [str "INBOX"], str "snip",
        .mk (str "text/plain") [] [(str "From", str "Me <me@x.com>")]
          (some ⟨4, some (str "aGk="), none⟩) none, 4, str "0"⟩ (some (str "acct")) =
      none ∧
    parseSearchGmail (fun _ => none)
      ⟨str "m1", str "t1", str "d", str "Me <me@x.com>", str "s", str "b",
        [str "INBOX"]⟩ (some (str "acct")) (some (str "me@X.com")) = none := by
  constructor
  · exact parse_self_sender_returns_none.1 ⟨id, fun _ => str "0 B"⟩ _ _
      (str "Me <me@x.com>") rfl (by decide)
  · exact parse_self_sender_returns_none.2 (fun _ => none) _ _ (str "me@X.com")
      (by decide) (by decide)

lemma dispatchIds_append (a b : List SyncEv) :
    dispatchIds (a ++ b) = dispatchIds a ++ dispatchIds b := by
  unfold dispatchIds
  exact List.filterMap_append _ _ _

lemma dispatchIds_markAsRead (id tid : JStr) : dispatchIds (markAsReadEvs id tid) = [] := by
  unfold markAsReadEvs
  by_cases h : tid ≠ [] <;> simp [h, dispatchIds]

lemma dispatchIds_quarantine (id : JStr) : dispatchIds (quarantineEvs id) = [] := rfl

lemma syncPhase1_no_dispatch (env : SyncEnv) (sr : List SearchMsg) :
    dispatchIds (syncPhase1 env sr).1 = [] := by
  induction sr with
  | nil => rfl
  | cons raw rest ih =>
    unfold syncPhase1
    by_cases hab : env.aborted = true
    · simp [hab, dispatchIds]
    · have hab' : env.aborted = false := Bool.eq_false_iff.mpr hab
      simp only [hab', Bool.false_eq_true, if_false]
      cases hp : parseSearchGmail env.dateParse raw env.accountId (some env.accountEmail) with
      | none => exact ih
      | some msg =>
        by_cases ha : isAllowed msg.sender.id env.allowFrom = true
        · simp only [ha, if_true]; exact ih
        · have ha' : isAllowed msg.sender.id env.allowFrom = false := Bool.eq_false_iff.mpr ha
          simp only [ha', Bool.false_eq_true, if_false]
          rw [dispatchIds_append, dispatchIds_quarantine]
          exact ih

lemma processMsg_dispatchIds (env : SyncEnv) (d : List JStr) (m : InboundMsg) :
    dispatchIds (processMsg env d m).1 = [m.channelMessageId] := by
  unfold processMsg
  by_cases hok : env.onMessageOk (dispatchTarget env m) = true
  · simp only [hok, if_true]
    show dispatchIds (.dispatch _ _ _ :: markAsReadEvs _ _) = _
    unfold dispatchIds at *
    rw [List.filterMap_cons]
    have := dispatchIds_markAsRead m.channelMessageId m.threadId
    unfold dispatchIds at this
    simp [this]
  · have hok' : env.onMessageOk (dispatchTarget env m) = false := Bool.eq_false_iff.mpr hok
    simp [hok', dispatchIds]

lemma processMsg_dedup_mem (env : SyncEnv) (d : List JStr) (m : InboundMsg) (id : JStr)
    (h : id ∈ d) (hne : id ≠ m.channelMessageId) : id ∈ (processMsg env d m).2 := by
  unfold processMsg
  have hd1 : id ∈ (if m.channelMessageId ∈ d then d else d ++ [m.channelMessageId]) := by
    by_cases hm : m.channelMessageId ∈ d
    · simpa [hm] using h
    · simp only [hm, if_false]
      exact List.mem_append_left _ h
  by_cases hok : env.onMessageOk (dispatchTarget env m) = true
  · simpa [hok] using hd1
  · have hok' : env.onMessageOk (dispatchTarget env m) = false := Bool.eq_false_iff.mpr hok
    simp only [hok', Bool.false_eq_true, if_false]
    exact List.mem_filter.mpr ⟨hd1, by simpa using hne⟩

lemma processMsg_ok_dedup (env : SyncEnv) (d : List JStr) (m : InboundMsg)
    (hok : env.onMessageOk (dispatchTarget env m) = true) :
    (processMsg env d m).2 =
      (if m.channelMessageId ∈ d then d else d ++ [m.channelMessageId]) := by
  unfold processMsg
  simp [hok]

lemma processMsg_fail (env : SyncEnv) (d : List JStr) (m : InboundMsg)
    (hfail : env.onMessageOk (dispatchTarget env m) = false) :
    (processMsg env d m).1 =
      [.dispatch m.channelMessageId (dispatchTarget env m).channelMessageId
        (dispatchTarget env m).sender.id] ∧
    m.channelMessageId ∉ (processMsg env d m).2 ∧
    (∀ id ∈ d, id ≠ m.channelMessageId → id ∈ (processMsg env d m).2) := by
  refine ⟨by simp [processMsg, hfail], ?_, ?_⟩
  · unfold processMsg
    simp only [hfail, Bool.false_eq_true, if_false]
    intro hmem
    have := (List.mem_filter.mp hmem).2
    simp at this
  · intro id hd hne
    exact processMsg_dedup_mem env d m id hd hne

lemma processThreadMsgs_dispatchIds (env : SyncEnv) (hab : env.aborted = false)
    (ms : List InboundMsg) :
    ∀ d, dispatchIds (processThreadMsgs env d ms).1 = ms.map (·.channelMessageId) := by
  induction ms with
  | nil => intro d; rfl
  | cons m rest ih =>
    intro d
    unfold processThreadMsgs
    simp only [hab, Bool.false_eq_true, if_false]
    rw [dispatchIds_append, processMsg_dispatchIds, ih]
    rfl

lemma processThreadMsgs_dedup_pres (env : SyncEnv) (ms : List InboundMsg) (id : JStr) :
    ∀ d, id ∈ d → (∀ m ∈ ms, m.channelMessageId ≠ id) →
      id ∈ (processThreadMsgs env d ms).2 := by
  induction ms with
  | nil => intro d h _; exact h
  | cons m rest ih =>
    intro d h hms
    unfold processThreadMsgs
    by_cases hab : env.aborted = true
    · simpa [hab] using h
    · have hab' : env.aborted = false := Bool.eq_false_iff.mpr hab
      simp only [hab', Bool.false_eq_true, if_false]
      exact ih _ (processMsg_dedup_mem env d m id h
          (fun he => hms m (List.mem_cons_self _ _) he.symm))
        (fun m' hm' => hms m' (List.mem_cons_of_mem _ hm'))

lemma processThreadMsgs_ok_pres (env : SyncEnv) (hab : env.aborted = false)
    (hok : ∀ m, env.onMessageOk m = true) (ms : List InboundMsg) (id : JStr) :
    ∀ d, id ∈ d → id ∈ (processThreadMsgs env d ms).2 := by
  induction ms with
  | nil => intro d h; exact h
  | cons m rest ih =>
    intro d h
    unfold processThreadMsgs
    simp only [hab, Bool.false_eq_true, if_false]
    apply ih
    rw [processMsg_ok_dedup env d m (hok _)]
    by_cases hm : m.channelMessageId ∈ d
    · simpa [hm] using h
    · simp only [hm, if_false]
      exact List.mem_append_left _ h

lemma processThreadMsgs_ok_adds (env : SyncEnv) (hab : env.aborted = false)
    (hok : ∀ m, env.onMessageOk m = true) (ms : List InboundMsg) (m : InboundMsg) :
    ∀ d, m ∈ ms → m.channelMessageId ∈ (processThreadMsgs env d ms).2 := by
  induction ms with
  | nil => intro d h; exact absurd h (List.not_mem_nil m)
  | cons m0 rest ih =>
    intro d hmem
    unfold processThreadMsgs
    simp only [hab, Bool.false_eq_true, if_false]
    rcases List.mem_cons.mp hmem with rfl | hmem'
    · apply processThreadMsgs_ok_pres env hab hok
      rw [processMsg_ok_dedup env d m (hok _)]
      by_cases hm : m.channelMessageId ∈ d
      · simpa [hm] using hm
      · simp only [hm, if_false]
        exact List.mem_append_right _ (List.mem_singleton.mpr rfl)
    · exact ih _ hmem'

lemma insertByTs_perm (m : InboundMsg) (l : List InboundMsg) :
    List.Perm (insertByTs m l) (m :: l) := by
  induction l with
  | nil => exact List.Perm.refl _
  | cons x xs ih =>
    unfold insertByTs
    by_cases h : tsKey m ≤ tsKey x
    · simp only [h, if_true]
      exact List.Perm.refl _
    · have h' : (tsKey m ≤ tsKey x) = False := by simp [h]
      simp only [h', if_false]
      exact (ih.cons x).trans (List.Perm.swap m x xs)

lemma sortByTs_perm (l : List InboundMsg) : List.Perm (sortByTs l) l := by
  induction l with
  | nil => exact List.Perm.refl _
  | cons x xs ih =>
    show List.Perm (insertByTs x (sortByTs xs)) (x :: xs)
    exact (insertByTs_perm x (sortByTs xs)).trans (ih.cons x)

lemma insertByTs_map_count (m : InboundMsg) (l : List InboundMsg) (id : JStr) :
    ((insertByTs m l).map (·.channelMessageId)).count id =
      ((m :: l).map (·.channelMessageId)).count id := by
  induction l with
  | nil => rfl
  | cons x xs ih =>
    unfold insertByTs
    by_cases h : tsKey m ≤ tsKey x
    · simp [h]
    · have h' : (tsKey m ≤ tsKey x) = False := by simp [h]
      simp only [h', if_false, List.map_cons, List.count_cons]
      simp only [List.map_cons, List.count_cons] at ih
      omega

lemma sortByTs_map_count (l : List InboundMsg) (id : JStr) :
    ((sortByTs l).map (·.channelMessageId)).count id =
      (l.map (·.channelMessageId)).count id := by
  induction l with
  | nil => rfl
  | cons x xs ih =>
    show ((insertByTs x (sortByTs xs)).map (·.channelMessageId)).count id = _
    rw [insertByTs_map_count]
    simp only [List.map_cons, List.count_cons]
    omega

lemma sortByTs_mem {m : InboundMsg} {l : List InboundMsg} (h : m ∈ sortByTs l) :
    m ∈ l := (sortByTs_perm l).mem_iff.mp h

lemma count_map_filter_le (p : InboundMsg → Bool) (l : List InboundMsg) (id : JStr) :
    ((l.filter p).map (·.channelMessageId)).count id ≤
      (l.map (·.channelMessageId)).count id := by
  induction l with
  | nil => exact Nat.le_refl _
  | cons x xs ih =>
    by_cases hp : p x = true
    · simp only [List.filter_cons, hp, if_true, List.map_cons, List.count_cons]
      omega
    · have hp' : p x = false := Bool.eq_false_iff.mpr hp
      simp only [List.filter_cons, hp', Bool.false_eq_true, if_false, List.map_cons,
        List.count_cons]
      omega

lemma groupIds_cons (g : JStr × List InboundMsg) (G : List (JStr × List InboundMsg)) :
    groupIds (g :: G) = g.2.map (·.channelMessageId) ++ groupIds G := by
  unfold groupIds
  rw [List.map_cons, List.flatten_cons]

lemma processThreads_count_le (env : SyncEnv) (id : JStr) :
    ∀ (G : List (JStr × List InboundMsg)) (d : List JStr),
      countDispatch id (processThreads env d G).1 ≤ (groupIds G).count id := by
  intro G
  induction G with
  | nil => intro d; exact Nat.zero_le _
  | cons g rest ih =>
    intro d
    obtain ⟨tid, msgs⟩ := g
    unfold processThreads
    by_cases hab : env.aborted = true
    · simp [hab, countDispatch, dispatchIds]
    · have hab' : env.aborted = false := Bool.eq_false_iff.mpr hab
      simp only [hab', Bool.false_eq_true, if_false]
      rw [groupIds_cons, List.count_append]
      by_cases hemp : msgs.filter (fun m => m.channelMessageId ∉ d) = []
      · simp only [hemp]
        rw [if_pos trivial]
        have := ih d
        omega
      · have hemp' : (msgs.filter (fun m => m.channelMessageId ∉ d) = []) = False :=
          eq_false hemp
        simp only [hemp', if_false]
        unfold countDispatch
        rw [dispatchIds_append, List.count_append]
        have h1 : (dispatchIds (processThreadMsgs env d
            (sortByTs (msgs.filter (fun m => m.channelMessageId ∉ d)))).1).count id ≤
            (msgs.map (·.channelMessageId)).count id := by
          rw [processThreadMsgs_dispatchIds env hab', sortByTs_map_count]
          exact count_map_filter_le _ msgs id
        have h2 := ih (processThreadMsgs env d
          (sortByTs (msgs.filter (fun m => m.channelMessageId ∉ d)))).2
        unfold countDispatch at h2
        omega

lemma processThreads_dedup_pres (env : SyncEnv) (id : JStr) :
    ∀ (G : List (JStr × List InboundMsg)) (d : List JStr), id ∈ d →
      id ∈ (processThreads env d G).2 ∧
        countDispatch id (processThreads env d G).1 = 0 := by
  intro G
  induction G with
  | nil => intro d h; exact ⟨h, rfl⟩
  | cons g rest ih =>
    intro d h
    obtain ⟨tid, msgs⟩ := g
    unfold processThreads
    by_cases hab : env.aborted = true
    · exact ⟨by simpa [hab] using h, by simp [hab, countDispatch, dispatchIds]⟩
    · have hab' : env.aborted = false := Bool.eq_false_iff.mpr hab
      simp only [hab', Bool.false_eq_true, if_false]
      by_cases hemp : msgs.filter (fun m => m.channelMessageId ∉ d) = []
      · simp only [hemp]
        rw [if_pos trivial]
        exact ih d h
      · have hemp' : (msgs.filter (fun m => m.channelMessageId ∉ d) = []) = False :=
          eq_false hemp
        simp only [hemp', if_false]
        have hnot : ∀ m ∈ sortByTs (msgs.filter (fun m => m.channelMessageId ∉ d)),
            m.channelMessageId ≠ id := by
          intro m hm
          have hm' := sortByTs_mem hm
          have := (List.mem_filter.mp hm').2
          intro he
          rw [he] at this
          simp [h] at this
        have hmem := processThreadMsgs_dedup_pres env _ id d h hnot
        have hcnt : countDispatch id (processThreadMsgs env d
            (sortByTs (msgs.filter (fun m => m.channelMessageId ∉ d)))).1 = 0 := by
          unfold countDispatch
          rw [processThreadMsgs_dispatchIds env hab']
          rw [List.count_eq_zero]
          intro hmm
          rcases List.mem_map.mp hmm with ⟨m, hm, he⟩
          exact hnot m hm he
        have hrest := ih _ hmem
        refine ⟨hrest.1, ?_⟩
        unfold countDispatch at hrest hcnt ⊢
        rw [dispatchIds_append, List.count_append]
        omega

lemma parseSearchGmail_some_fields (dp : JStr → Option Int) (raw : SearchMsg)
    (aid ae : Option JStr) (p : InboundMsg)
    (h : parseSearchGmail dp raw aid ae = some p) :
    p.channelMessageId = raw.id ∧ p.threadId = raw.threadId := by
  unfold parseSearchGmail at h
  split at h
  · exact absurd h (by simp)
  · split at h
    · exact absurd h (by simp)
    · have := Option.some.inj h
      rw [← this]
      exact ⟨rfl, rfl⟩

lemma sp1_count_le (env : SyncEnv) (id : JStr) :
    ∀ sr : List SearchMsg,
      (((syncPhase1 env sr).2.map (·.channelMessageId)).count id) ≤
        ((sr.map (·.id)).count id) := by
  intro sr
  induction sr with
  | nil => exact Nat.le_refl _
  | cons raw rest ih =>
    unfold syncPhase1
    by_cases hab : env.aborted = true
    · simp [hab]
    · have hab' : env.aborted = false := Bool.eq_false_iff.mpr hab
      simp only [hab', Bool.false_eq_true, if_false]
      cases hp : parseSearchGmail env.dateParse raw env.accountId (some env.accountEmail) with
      | none =>
        refine ih.trans ?_
        simp only [List.map_cons, List.count_cons]
        omega
      | some msg =>
        have hid := (parseSearchGmail_some_fields _ _ _ _ _ hp).1
        by_cases ha : isAllowed msg.sender.id env.allowFrom = true
        · simp only [ha, if_true, List.map_cons, List.count_cons, hid]
          omega
        · have ha' : isAllowed msg.sender.id env.allowFrom = false := Bool.eq_false_iff.mpr ha
          simp only [ha', Bool.false_eq_true, if_false, List.map_cons, List.count_cons]
          omega

lemma sp1_count_plus (env : SyncEnv) (hab : env.aborted = false) :
    ∀ (sr : List SearchMsg) (raw : SearchMsg) (p : InboundMsg), raw ∈ sr →
      parseSearchGmail env.dateParse raw env.accountId (some env.accountEmail) = some p →
      isAllowed p.sender.id env.allowFrom = false →
      ((syncPhase1 env sr).2.map (·.channelMessageId)).count p.channelMessageId + 1 ≤
        (sr.map (·.id)).count p.channelMessageId := by
  intro sr
  induction sr with
  | nil => intro raw p hmem; exact absurd hmem (List.not_mem_nil raw)
  | cons raw0 rest ih =>
    intro raw p hmem hp ha
    unfold syncPhase1
    simp only [hab, Bool.false_eq_true, if_false]
    rcases List.mem_cons.mp hmem with rfl | hmem'
    · rw [hp]
      have hid := (parseSearchGmail_some_fields _ _ _ _ _ hp).1
      simp only [ha, Bool.false_eq_true, if_false, List.map_cons, List.count_cons]
      have := sp1_count_le env p.channelMessageId rest
      have hbeq : (raw.id == p.channelMessageId) = true := beq_iff_eq.mpr hid.symm
      simp only [hbeq, if_true]
      omega
    · cases hp0 : parseSearchGmail env.dateParse raw0 env.accountId (some env.accountEmail) with
      | none =>
        refine (ih raw p hmem' hp ha).trans ?_
        simp only [List.map_cons, List.count_cons]
        omega
      | some msg0 =>
        have hid0 := (parseSearchGmail_some_fields _ _ _ _ _ hp0).1
        by_cases ha0 : isAllowed msg0.sender.id env.allowFrom = true
        · simp only [ha0, if_true, List.map_cons, List.count_cons, hid0]
          have := ih raw p hmem' hp ha
          omega
        · have ha0' : isAllowed msg0.sender.id env.allowFrom = false :=
            Bool.eq_false_iff.mpr ha0
          simp only [ha0', Bool.false_eq_true, if_false, List.map_cons, List.count_cons]
          have := ih raw p hmem' hp ha
          omega

lemma sp1_quarantine_mem (env : SyncEnv) (hab : env.aborted = false) :
    ∀ (sr : List SearchMsg) (raw : SearchMsg) (p : InboundMsg), raw ∈ sr →
      parseSearchGmail env.dateParse raw env.accountId (some env.accountEmail) = some p →
      isAllowed p.sender.id env.allowFrom = false →
      SyncEv.modifyLabels p.channelMessageId [str "not-allow-listed"] [str "INBOX"] ∈
        (syncPhase1 env sr).1 := by
  intro sr
  induction sr with
  | nil => intro raw p hmem; exact absurd hmem (List.not_mem_nil raw)
  | cons raw0 rest ih =>
    intro raw p hmem hp ha
    unfold syncPhase1
    simp only [hab, Bool.false_eq_true, if_false]
    rcases List.mem_cons.mp hmem with rfl | hmem'
    · rw [hp]
      simp only [ha, Bool.false_eq_true, if_false]
      exact List.mem_append_left _ (List.mem_singleton.mpr rfl)
    · cases hp0 : parseSearchGmail env.dateParse raw0 env.accountId (some env.accountEmail) with
      | none => exact ih raw p hmem' hp ha
      | some msg0 =>
        by_cases ha0 : isAllowed msg0.sender.id env.allowFrom = true
        · simp only [ha0, if_true]
          exact ih raw p hmem' hp ha
        · have ha0' : isAllowed msg0.sender.id env.allowFrom = false :=
            Bool.eq_false_iff.mpr ha0
          simp only [ha0', Bool.false_eq_true, if_false]
          exact List.mem_append_right _ (ih raw p hmem' hp ha)

lemma nodup_count_le_one : ∀ {l : List JStr}, l.Nodup → ∀ a, l.count a ≤ 1 := by
  intro l
  induction l with
  | nil => intro _ a; exact Nat.zero_le 1
  | cons x xs ih =>
    intro h a
    rw [List.count_cons]
    have hx := (List.nodup_cons.mp h).1
    have hxs := (List.nodup_cons.mp h).2
    by_cases hxa : x = a
    · subst hxa
      have hz : List.count x xs = 0 := List.count_eq_zero.mpr hx
      simp [hz]
    · have hb : (x == a) = false := by
        cases hb2 : x == a with
        | false => rfl
        | true => exact absurd (eq_of_beq hb2) hxa
      simp only [hb, Bool.false_eq_true, if_false, Nat.add_zero]
      exact ih hxs a

lemma count_if_beq (a b : JStr) :
    (if (a == b) = true then (1 : Nat) else 0) = (if a = b then 1 else 0) := by
  by_cases h : a = b <;> simp [h]

lemma threadUpsert_count (tid : JStr) (m : InboundMsg) (id : JStr) :
    ∀ G, (groupIds (threadUpsert tid m G)).count id =
      (groupIds G).count id + (if m.channelMessageId = id then 1 else 0) := by
  intro G
  induction G with
  | nil =>
    show List.count id [m.channelMessageId] = List.count id ([] : List JStr) + _
    rw [List.count_cons, count_if_beq]
  | cons g rest ih =>
    obtain ⟨k, v⟩ := g
    unfold threadUpsert
    by_cases hk : k = tid
    · subst hk
      have hred : (if k = k then ((k, v ++ [m]) :: rest)
          else (k, v) :: threadUpsert k m rest) = (k, v ++ [m]) :: rest := by
        rw [if_pos rfl]
      rw [hred, groupIds_cons, groupIds_cons, List.count_append, List.count_append]
      simp only [List.map_append, List.count_append, List.map_cons, List.map_nil,
        List.count_cons, List.count_nil, count_if_beq]
      omega
    · have hk' : (k = tid) = False := eq_false hk
      simp only [hk', if_false]
      rw [groupIds_cons, groupIds_cons, List.count_append, List.count_append, ih]
      omega

lemma groupThreads_count (id : JStr) :
    ∀ (msgs : List InboundMsg) (G : List (JStr × List InboundMsg)),
      (groupIds (msgs.foldl (fun acc m => threadUpsert m.threadId m acc) G)).count id =
        (groupIds G).count id + (msgs.map (·.channelMessageId)).count id := by
  intro msgs
  induction msgs with
  | nil => intro G; simp
  | cons m rest ih =>
    intro G
    rw [List.foldl_cons, ih, threadUpsert_count]
    simp only [List.map_cons, List.count_cons, count_if_beq]
    omega

/-- C2: In every sync pass, a parsed inbound message whose sender fails
the inbound allow-list is quarantined — the pass issues a label
modification adding `not-allow-listed` and removing `INBOX` on that
message — and `onMessage` is never called for that message id. -/
theorem sync_quarantines_disallowed (env : SyncEnv) (sr : List SearchMsg)
    (d0 : List JStr) (raw : SearchMsg) (p : InboundMsg)
    (hab : env.aborted = false) (hnod : (sr.map (·.id)).Nodup) (hmem : raw ∈ sr)
    (hp : parseSearchGmail env.dateParse raw env.accountId (some env.accountEmail) = some p)
    (ha : isAllowed p.sender.id env.allowFrom = false) :
    SyncEv.modifyLabels p.channelMessageId [str "not-allow-listed"] [str "INBOX"] ∈
      (performFullSync env sr d0).1 ∧
    countDispatch p.channelMessageId (performFullSync env sr d0).1 = 0 := by
  have hne : sr ≠ [] := List.ne_nil_of_mem hmem
  unfold performFullSync
  rw [if_neg hne]
  constructor
  · exact List.mem_append_left _ (sp1_quarantine_mem env hab sr raw p hmem hp ha)
  · unfold countDispatch
    rw [dispatchIds_append, List.count_append]
    have h1 : (dispatchIds (syncPhase1 env sr).1).count p.channelMessageId = 0 := by
      rw [syncPhase1_no_dispatch]; rfl
    have h2 := processThreads_count_le env p.channelMessageId
      (groupThreads (syncPhase1 env sr).2) d0
    unfold countDispatch at h2
    have h3 : (groupIds (groupThreads (syncPhase1 env sr).2)).count p.channelMessageId =
        ((syncPhase1 env sr).2.map (·.channelMessageId)).count p.channelMessageId := by
      unfold groupThreads
      rw [groupThreads_count]
      simp [groupIds]
    have h4 := sp1_count_plus env hab sr raw p hmem hp ha
    have h5 : (sr.map (·.id)).count p.channelMessageId ≤ 1 :=
      nodup_count_le_one hnod _
    omega

/-- Witness for `sync_quarantines_disallowed` on a concrete pass. -/
theorem sync_quarantines_disallowed_witness :
    SyncEv.modifyLabels pBad.channelMessageId [str "not-allow-listed"] [str "INBOX"] ∈
      (performFullSync syncEnv0 [rawBad] []).1 ∧
    countDispatch pBad.channelMessageId (performFullSync syncEnv0 [rawBad] []).1 = 0 :=
  sync_quarantines_disallowed syncEnv0 [rawBad] [] rawBad pBad rfl (by decide)
    (List.mem_singleton.mpr rfl) (by decide) (by decide)

lemma pts_ok_pres (env : SyncEnv) (hab : env.aborted = false)
    (hok : ∀ m, env.onMessageOk m = true) :
    ∀ (G : List (JStr × List InboundMsg)) (d : List JStr) (id : JStr), id ∈ d →
      id ∈ (processThreads env d G).2 := by
  intro G
  induction G with
  | nil => intro d id h; exact h
  | cons g rest ih =>
    intro d id h
    obtain ⟨tid, msgs⟩ := g
    unfold processThreads
    simp only [hab, Bool.false_eq_true, if_false]
    by_cases hemp : msgs.filter (fun m => m.channelMessageId ∉ d) = []
    · simp only [hemp]
      rw [if_pos trivial]
      exact ih d id h
    · have hemp' : (msgs.filter (fun m => m.channelMessageId ∉ d) = []) = False :=
        eq_false hemp
      simp only [hemp', if_false]
      exact ih _ id (processThreadMsgs_ok_pres env hab hok _ id d h)

lemma pts_ok_dispatched (env : SyncEnv) (hab : env.aborted = false)
    (hok : ∀ m, env.onMessageOk m = true) :
    ∀ (G : List (JStr × List InboundMsg)) (d : List JStr) (id : JStr),
      1 ≤ countDispatch id (processThreads env d G).1 →
      id ∈ (processThreads env d G).2 := by
  intro G
  induction G with
  | nil =>
    intro d id h
    exact absurd h (by simp [processThreads, countDispatch, dispatchIds])
  | cons g rest ih =>
    intro d id h
    obtain ⟨tid, msgs⟩ := g
    unfold processThreads at h ⊢
    simp only [hab, Bool.false_eq_true, if_false] at h ⊢
    by_cases hemp : msgs.filter (fun m => m.channelMessageId ∉ d) = []
    · simp only [hemp] at h ⊢
      rw [if_pos trivial] at h ⊢
      exact ih d id h
    · have hemp' : (msgs.filter (fun m => m.channelMessageId ∉ d) = []) = False :=
        eq_false hemp
      simp only [hemp', if_false] at h ⊢
      unfold countDispatch at h
      rw [dispatchIds_append, List.count_append] at h
      by_cases hth : 1 ≤ (dispatchIds (processThreadMsgs env d
          (sortByTs (msgs.filter (fun m => m.channelMessageId ∉ d)))).1).count id
      · rw [processThreadMsgs_dispatchIds env hab] at hth
        have hmm : id ∈ (sortByTs (msgs.filter (fun m => m.channelMessageId ∉ d))).map
            (·.channelMessageId) := by
          by_contra hno
          rw [List.count_eq_zero.mpr hno] at hth
          omega
        rcases List.mem_map.mp hmm with ⟨m, hm, he⟩
        have := processThreadMsgs_ok_adds env hab hok _ m d hm
        rw [he] at this
        exact pts_ok_pres env hab hok rest _ id this
      · have hre : 1 ≤ (dispatchIds (processThreads env
            (processThreadMsgs env d (sortByTs
              (msgs.filter (fun m => m.channelMessageId ∉ d)))).2 rest).1).count id := by
          omega
        exact ih _ id hre

/-- C4: Within one process lifetime, a message id dispatched successfully
is in the dedup set before `onMessage` returns, so a later pass presented
with the same search result dispatches nothing for it — at most one
`onMessage` call per id when no dispatch fails; and when `onMessage`
throws for a message, the iteration emits only the dispatch (no
mark-as-read), removes the id from the dedup set, and leaves every other
id in place so the next pass retries it. -/
theorem sync_dedup_exactly_once :
    (∀ (env : SyncEnv) (sr : List SearchMsg) (d0 : List JStr),
      env.aborted = false → (∀ m, env.onMessageOk m = true) →
      (sr.map (·.id)).Nodup →
      (∀ id, countDispatch id (performFullSync env sr d0).1 ≤ 1) ∧
      (∀ id, 1 ≤ countDispatch id (performFullSync env sr d0).1 →
        id ∈ (performFullSync env sr d0).2) ∧
      (∀ id, id ∈ (performFullSync env sr d0).2 →
        countDispatch id
          (performFullSync env sr (performFullSync env sr d0).2).1 = 0)) ∧
    (∀ (env : SyncEnv) (d : List JStr) (m : InboundMsg),
      env.onMessageOk (dispatchTarget env m) = false →
      (processMsg env d m).1 =
        [.dispatch m.channelMessageId (dispatchTarget env m).channelMessageId
          (dispatchTarget env m).sender.id] ∧
      m.channelMessageId ∉ (processMsg env d m).2 ∧
      (∀ id ∈ d, id ≠ m.channelMessageId → id ∈ (processMsg env d m).2)) := by
  constructor
  · intro env sr d0 hab hok hnod
    by_cases hsr : sr = []
    · subst hsr
      refine ⟨fun id => ?_, fun id h => ?_, fun id h => ?_⟩
      · simp [performFullSync, countDispatch, dispatchIds]
      · exact absurd h (by simp [performFullSync, countDispatch, dispatchIds])
      · simp [performFullSync, countDispatch, dispatchIds]
    · have hmain : performFullSync env sr d0 =
          ((syncPhase1 env sr).1 ++
            (processThreads env d0 (groupThreads (syncPhase1 env sr).2)).1,
          (processThreads env d0 (groupThreads (syncPhase1 env sr).2)).2) := by
        unfold performFullSync
        rw [if_neg hsr]
      refine ⟨fun id => ?_, fun id h => ?_, fun id h => ?_⟩
      · rw [hmain]
        unfold countDispatch
        rw [dispatchIds_append, List.count_append, syncPhase1_no_dispatch]
        have h2 := processThreads_count_le env id (groupThreads (syncPhase1 env sr).2) d0
        unfold countDispatch at h2
        have h3 : (groupIds (groupThreads (syncPhase1 env sr).2)).count id =
            ((syncPhase1 env sr).2.map (·.channelMessageId)).count id := by
          unfold groupThreads
          rw [groupThreads_count]
          simp [groupIds]
        have h4 := sp1_count_le env id sr
        have h5 : (sr.map (·.id)).count id ≤ 1 := nodup_count_le_one hnod _
        simp only [List.count_nil]
        omega
      · rw [hmain] at h ⊢
        unfold countDispatch at h
        rw [dispatchIds_append, List.count_append, syncPhase1_no_dispatch] at h
        simp only [List.count_nil] at h
        exact pts_ok_dispatched env hab hok _ d0 id (by unfold countDispatch; omega)
      · rw [hmain] at h
        have hmain2 : performFullSync env sr (performFullSync env sr d0).2 =
            ((syncPhase1 env sr).1 ++
              (processThreads env (performFullSync env sr d0).2
                (groupThreads (syncPhase1 env sr).2)).1,
            (processThreads env (performFullSync env sr d0).2
              (groupThreads (syncPhase1 env sr).2)).2) := by
          unfold performFullSync
          rw [if_neg hsr]
        rw [hmain2]
        unfold countDispatch
        rw [dispatchIds_append, List.count_append, syncPhase1_no_dispatch]
        have hpres := processThreads_dedup_pres env id
          (groupThreads (syncPhase1 env sr).2) (performFullSync env sr d0).2
          (by rw [hmain]; exact h)
        unfold countDispatch at hpres
        have := hpres.2
        rw [hmain] at this
        simp only [List.count_nil]
        omega
  · intro env d m hfail
    exact processMsg_fail env d m hfail

/-- Witness for `sync_dedup_exactly_once` on a concrete pass and a
concrete failing dispatch. -/
theorem sync_dedup_exactly_once_witness :
    ((∀ id, countDispatch id (performFullSync syncEnv0 [rawGood] []).1 ≤ 1) ∧
      (∀ id, 1 ≤ countDispatch id (performFullSync syncEnv0 [rawGood] []).1 →
        id ∈ (performFullSync syncEnv0 [rawGood] []).2) ∧
      (∀ id, id ∈ (performFullSync syncEnv0 [rawGood] []).2 →
        countDispatch id
          (performFullSync syncEnv0 [rawGood]
            (performFullSync syncEnv0 [rawGood] []).2).1 = 0)) ∧
    ((processMsg syncEnvFail [str "zz"] defaultInboundMsg).1 =
      [.dispatch defaultInboundMsg.channelMessageId
        (dispatchTarget syncEnvFail defaultInboundMsg).channelMessageId
        (dispatchTarget syncEnvFail defaultInboundMsg).sender.id] ∧
      defaultInboundMsg.channelMessageId ∉
        (processMsg syncEnvFail [str "zz"] defaultInboundMsg).2 ∧
      (∀ id ∈ [str "zz"], id ≠ defaultInboundMsg.channelMessageId →
        id ∈ (processMsg syncEnvFail [str "zz"] defaultInboundMsg).2)) :=
  ⟨sync_dedup_exactly_once.1 syncEnv0 [rawGood] [] rfl (fun _ => rfl) (by decide),
    sync_dedup_exactly_once.2 syncEnvFail [str "zz"] defaultInboundMsg rfl⟩

/-- C6 counterexample: with two unread messages of one thread from an
allowed sender (timestamps 1 < 2), the pass emits the thread-level
mark-as-read immediately after the FIRST dispatch — the trace is
dispatch, mark, dispatch, mark — so the thread is not marked read "only
after both dispatches succeed"; it is already marked read between the
two. -/
theorem sync_marks_thread_between_dispatches_cex :
    (performFullSync syncEnv0 [rawA, rawB] []).1 =
      [.dispatch (str "mA") (str "mA") (str "alice@trusted.com"),
        .modifyThreadLabels (str "tT") [] [str "UNREAD"],
        .dispatch (str "mB") (str "mB") (str "alice@trusted.com"),
        .modifyThreadLabels (str "tT") [] [str "UNREAD"]] := by decide

/-- C6 (amended): if one sync pass sees exactly two unread messages of the
same thread from an allowed sender with timestamps T1 ≤ T2 and every
dispatch succeeds, the pass dispatches the T1 message first and the T2
message second, marking the thread read after EACH successful dispatch
(not only once after both), and a subsequent pass presented with the same
search result and the resulting dedup set emits no events at all — in
particular it calls `onMessage` zero times. -/
theorem sync_same_thread_two_messages (env : SyncEnv) (r1 r2 : SearchMsg)
    (p1 p2 : InboundMsg)
    (hab : env.aborted = false)
    (hok : ∀ m, env.onMessageOk m = true)
    (h1 : parseSearchGmail env.dateParse r1 env.accountId (some env.accountEmail)
      = some p1)
    (h2 : parseSearchGmail env.dateParse r2 env.accountId (some env.accountEmail)
      = some p2)
    (ha1 : isAllowed p1.sender.id env.allowFrom = true)
    (ha2 : isAllowed p2.sender.id env.allowFrom = true)
    (htid : p2.threadId = p1.threadId)
    (htne : p1.threadId ≠ [])
    (hts : tsKey p1 ≤ tsKey p2)
    (hid : p1.channelMessageId ≠ p2.channelMessageId) :
    (performFullSync env [r1, r2] []).1 =
      [.dispatch p1.channelMessageId (dispatchTarget env p1).channelMessageId
          (dispatchTarget env p1).sender.id,
        .modifyThreadLabels p1.threadId [] [str "UNREAD"],
        .dispatch p2.channelMessageId (dispatchTarget env p2).channelMessageId
          (dispatchTarget env p2).sender.id,
        .modifyThreadLabels p1.threadId [] [str "UNREAD"]] ∧
    (performFullSync env [r1, r2] (performFullSync env [r1, r2] []).2).1 = [] := by
  have hph : syncPhase1 env [r1, r2] = ([], [p1, p2]) := by
    simp [syncPhase1, hab, h1, h2, ha1, ha2]
  have hg : groupThreads [p1, p2] = [(p1.threadId, [p1, p2])] := by
    unfold groupThreads
    simp only [List.foldl_cons, List.foldl_nil]
    rw [show threadUpsert p1.threadId p1 [] = [(p1.threadId, [p1])] from rfl]
    unfold threadUpsert
    rw [if_pos htid.symm]
    rfl
  have hsort : sortByTs [p1, p2] = [p1, p2] := by
    show insertByTs p1 (insertByTs p2 []) = [p1, p2]
    rw [show insertByTs p2 [] = [p2] from rfl]
    unfold insertByTs
    rw [if_pos hts]
  have hpm1 : processMsg env [] p1 =
      ([.dispatch p1.channelMessageId (dispatchTarget env p1).channelMessageId
          (dispatchTarget env p1).sender.id,
        .modifyThreadLabels p1.threadId [] [str "UNREAD"]],
        [p1.channelMessageId]) := by
    unfold processMsg markAsReadEvs
    simp [hok, htne]
  have hpm2 : processMsg env [p1.channelMessageId] p2 =
      ([.dispatch p2.channelMessageId (dispatchTarget env p2).channelMessageId
          (dispatchTarget env p2).sender.id,
        .modifyThreadLabels p1.threadId [] [str "UNREAD"]],
        [p1.channelMessageId, p2.channelMessageId]) := by
    unfold processMsg markAsReadEvs
    simp [hok, htid, htne, Ne.symm hid]
  have hptm : processThreadMsgs env [] [p1, p2] =
      ([.dispatch p1.channelMessageId (dispatchTarget env p1).channelMessageId
          (dispatchTarget env p1).sender.id,
        .modifyThreadLabels p1.threadId [] [str "UNREAD"],
        .dispatch p2.channelMessageId (dispatchTarget env p2).channelMessageId
          (dispatchTarget env p2).sender.id,
        .modifyThreadLabels p1.threadId [] [str "UNREAD"]],
        [p1.channelMessageId, p2.channelMessageId]) := by
    simp only [processThreadMsgs, hab, Bool.false_eq_true, if_false, hpm1, hpm2]
    rfl
  have hmain : performFullSync env [r1, r2] [] =
      ([.dispatch p1.channelMessageId (dispatchTarget env p1).channelMessageId
          (dispatchTarget env p1).sender.id,
        .modifyThreadLabels p1.threadId [] [str "UNREAD"],
        .dispatch p2.channelMessageId (dispatchTarget env p2).channelMessageId
          (dispatchTarget env p2).sender.id,
        .modifyThreadLabels p1.threadId [] [str "UNREAD"]],
        [p1.channelMessageId, p2.channelMessageId]) := by
    have hg' : groupThreads (syncPhase1 env [r1, r2]).2 = [(p1.threadId, [p1, p2])] := by
      rw [hph]; exact hg
    have hp1' : (syncPhase1 env [r1, r2]).1 = [] := by rw [hph]
    unfold performFullSync
    rw [if_neg (by simp)]
    simp only [hg', hp1', List.nil_append]
    unfold processThreads
    simp only [hab, Bool.false_eq_true, if_false]
    rw [show ([p1, p2].filter (fun m => m.channelMessageId ∉ ([] : List JStr)))
        = [p1, p2] by simp]
    rw [if_neg (by simp), hsort, hptm]
    rfl
  have hg' : groupThreads (syncPhase1 env [r1, r2]).2 = [(p1.threadId, [p1, p2])] := by
    rw [hph]; exact hg
  have hp1' : (syncPhase1 env [r1, r2]).1 = [] := by rw [hph]
  refine ⟨congrArg Prod.fst hmain, ?_⟩
  rw [hmain]
  unfold performFullSync
  rw [if_neg (by simp)]
  simp only [hg', hp1', List.nil_append]
  unfold processThreads
  simp only [hab, Bool.false_eq_true, if_false]
  rw [show ([p1, p2].filter (fun m =>
      m.channelMessageId ∉ [p1.channelMessageId, p2.channelMessageId])) = [] by simp]
  rw [if_pos rfl]
  rfl

/-- Witness for `sync_same_thread_two_messages` on the concrete
two-message thread. -/
theorem sync_same_thread_two_messages_witness :
    (performFullSync syncEnv0 [rawA, rawB] []).1 =
      [.dispatch pA.channelMessageId (dispatchTarget syncEnv0 pA).channelMessageId
          (dispatchTarget syncEnv0 pA).sender.id,
        .modifyThreadLabels pA.threadId [] [str "UNREAD"],
        .dispatch pB.channelMessageId (dispatchTarget syncEnv0 pB).channelMessageId
          (dispatchTarget syncEnv0 pB).sender.id,
        .modifyThreadLabels pA.threadId [] [str "UNREAD"]] ∧
    (performFullSync syncEnv0 [rawA, rawB]
      (performFullSync syncEnv0 [rawA, rawB] []).2).1 = [] :=
  sync_same_thread_two_messages syncEnv0 rawA rawB pA pB rfl (fun _ => rfl)
    rfl rfl (by decide) (by decide) rfl (by decide) (by decide) (by decide)

/-- C7 counterexample: for a `From` header that is a bare `<email>` the
regex matches with an empty name, and the display falls back to the
captured email — a third case the claim omits: the result is neither a
nonempty extracted name nor the raw header value, and the quote header
names the bare email. -/
theorem quoted_display_bare_email_cex :
    buildQuotedThread (fun d => d)
      [⟨str "i", str "t", str "D", str "<tp@z.com>", none, none, str "s",
        str "b", []⟩] (str "me@x.com") =
      str "On D, tp@z.com wrote:\n\nb" ∧
    extractSenderDisplay (str "<tp@z.com>") = str "tp@z.com" ∧
    str "tp@z.com" ≠ str "<tp@z.com>" := by decide

/-- C7 (amended): `buildQuotedThread` removes every message whose
angle-captured (else raw) From email equals `accountEmail`
case-insensitively; if none remain the result is empty; otherwise it
quotes exactly the last remaining message with header
`On <date>, <sender> wrote:`, where the sender display is the trimmed,
quote-stripped name of a `Name <email>` match when nonempty, ELSE the
captured email when the match succeeded with an empty name, else the raw
header value; in the three-message scenario with message 2 from the
account itself, the header names the sender of message 3 only. -/
theorem buildQuotedThread_last_other :
    (∀ (fmt : JStr → JStr) (ms : List ThreadMessage) (a : JStr),
      (∀ m ∈ ms, jsLower (quotedSenderEmail m.«from») = jsLower a) →
      buildQuotedThread fmt ms a = []) ∧
    (∀ (fmt : JStr → JStr) (ms : List ThreadMessage) (a : JStr)
        (lastM : ThreadMessage),
      (ms.filter (fun m => jsLower (quotedSenderEmail m.«from») ≠ jsLower a)).getLast?
        = some lastM →
      buildQuotedThread fmt ms a =
        str "On " ++ fmt lastM.date ++ str ", " ++
          extractSenderDisplay lastM.«from» ++ str " wrote:" ++ str "\n\n" ++
          jsTrim lastM.body) ∧
    (∀ f m1 m2, nemMatch f = some (m1, m2) → jsTrim (stripEdgeQuotes m1) ≠ [] →
      extractSenderDisplay f = jsTrim (stripEdgeQuotes m1)) ∧
    (∀ f m1 m2, nemMatch f = some (m1, m2) → jsTrim (stripEdgeQuotes m1) = [] →
      extractSenderDisplay f = m2) ∧
    (∀ f, nemMatch f = none → extractSenderDisplay f = f) ∧
    (∀ (fmt : JStr → JStr) (a : JStr) (x y z : ThreadMessage),
      jsLower (quotedSenderEmail y.«from») = jsLower a →
      jsLower (quotedSenderEmail z.«from») ≠ jsLower a →
      buildQuotedThread fmt [x, y, z] a =
        str "On " ++ fmt z.date ++ str ", " ++ extractSenderDisplay z.«from» ++
          str " wrote:" ++ str "\n\n" ++ jsTrim z.body) := by
  refine ⟨?_, ?_, ?_, ?_, ?_, ?_⟩
  · intro fmt ms a h
    have hfil : ms.filter
        (fun m => jsLower (quotedSenderEmail m.«from») ≠ jsLower a) = [] := by
      rw [List.filter_eq_nil]
      intro m hm
      simp [h m hm]
    unfold buildQuotedThread
    rw [hfil]
    rfl
  · intro fmt ms a lastM h
    unfold buildQuotedThread
    simp only [h]
  · intro f m1 m2 h hne
    unfold extractSenderDisplay
    rw [h]
    simp [hne]
  · intro f m1 m2 h hemp
    unfold extractSenderDisplay
    rw [h]
    simp [hemp]
  · intro f h
    unfold extractSenderDisplay
    rw [h]
  · intro fmt a x y z hy hz
    unfold buildQuotedThread
    by_cases hx : jsLower (quotedSenderEmail x.«from») = jsLower a
    · have hfil : [x, y, z].filter
          (fun m => jsLower (quotedSenderEmail m.«from») ≠ jsLower a) = [z] := by
        simp [List.filter, hx, hy, hz]
      rw [hfil]
      rfl
    · have hfil : [x, y, z].filter
          (fun m => jsLower (quotedSenderEmail m.«from») ≠ jsLower a) = [x, z] := by
        simp [List.filter, hx, hy, hz]
      rw [hfil]
      rfl

/-- Witness for `buildQuotedThread_last_other` at concrete messages. -/
theorem buildQuotedThread_last_other_witness :
    buildQuotedThread (fun d => d) [tmSelf] (str "me@x.com") = [] ∧
    buildQuotedThread (fun d => d) [tmSelf, tmAnn] (str "me@x.com") =
      str "On " ++ str "D2" ++ str ", " ++ extractSenderDisplay tmAnn.«from» ++
        str " wrote:" ++ str "\n\n" ++ jsTrim tmAnn.body ∧
    extractSenderDisplay (str "\"Ann\" <a@b.c>") = jsTrim (stripEdgeQuotes (str "\"Ann\"")) ∧
    extractSenderDisplay (str "<tp2@z.com>") = str "tp2@z.com" ∧
    extractSenderDisplay (str "plainname") = str "plainname" ∧
    buildQuotedThread (fun d => d) [tmBob, tmSelf, tmAnn] (str "me@x.com") =
      str "On " ++ str "D2" ++ str ", " ++ extractSenderDisplay tmAnn.«from» ++
        str " wrote:" ++ str "\n\n" ++ jsTrim tmAnn.body :=
  ⟨buildQuotedThread_last_other.1 (fun d => d) [tmSelf] (str "me@x.com") (by decide),
    buildQuotedThread_last_other.2.1 (fun d => d) [tmSelf, tmAnn] (str "me@x.com")
      tmAnn (by decide),
    buildQuotedThread_last_other.2.2.1 (str "\"Ann\" <a@b.c>") (str "\"Ann\"")
      (str "a@b.c") (by decide) (by decide),
    buildQuotedThread_last_other.2.2.2.1 (str "<tp2@z.com>") [] (str "tp2@z.com")
      (by decide) (by decide),
    buildQuotedThread_last_other.2.2.2.2.1 (str "plainname") (by decide),
    buildQuotedThread_last_other.2.2.2.2.2 (fun d => d) (str "me@x.com")
      tmBob tmSelf tmAnn (by decide) (by decide)⟩

/-- C8 counterexample: lone `<`/`>` characters in plain text survive the
pipeline (the tag stripper needs a complete `<…>` pair), a plain
`data:` substring survives, and entities are decoded AFTER tag
stripping, so `&lt;tag&gt;` becomes a literal `<tag>` in the output. -/
theorem sanitizeEmailBody_bracket_cex :
    sanitizeEmailBody (str "x > y < z data:q") = str "x > y < z data:q" ∧
    '<' ∈ sanitizeEmailBody (str "x > y < z data:q") ∧
    '>' ∈ sanitizeEmailBody (str "x > y < z data:q") ∧
    hasSub (str "data:") (sanitizeEmailBody (str "x > y < z data:q")) = true ∧
    sanitizeEmailBody (str "a &lt;tag&gt; b") = str "a <tag> b" := by decide

/-- C9 counterexample: the footer patterns are non-global, so with two
`unsubscribe` lines one pass removes only the first — the second pass
removes the survivor, and the pipeline is not idempotent even on plain
non-HTML text. -/
theorem sanitizeEmailBody_not_idem_cex :
    sanitizeEmailBody (str "a unsubscribe\nb unsubscribe") =
      str "b unsubscribe" ∧
    sanitizeEmailBody (sanitizeEmailBody (str "a unsubscribe\nb unsubscribe")) =
      str "" ∧
    sanitizeEmailBody (sanitizeEmailBody (str "a unsubscribe\nb unsubscribe")) ≠
      sanitizeEmailBody (str "a unsubscribe\nb unsubscribe") := by decide

lemma hasPre_self_append (p b : JStr) : hasPre p (p ++ b) = true := by
  induction p with
  | nil => rfl
  | cons c cs ih => simp [hasPre, ih]

lemma hasPre_drop_pat (p q s : JStr) (h : hasPre (p ++ q) s = true) :
    hasPre p s = true := by
  induction p generalizing s with
  | nil => rfl
  | cons c cs ih =>
    cases s with
    | nil => exact absurd h (by simp [hasPre])
    | cons d ds =>
      simp only [List.cons_append, hasPre, Bool.and_eq_true] at h ⊢
      exact ⟨h.1, ih ds h.2⟩

lemma hasSub_of_hasPre (p s : JStr) (h : hasPre p s = true) : hasSub p s = true := by
  cases s with
  | nil => exact h
  | cons c cs => simp [hasSub, h]

lemma hasSub_cons_of (p s : JStr) (c : Char) (h : hasSub p s = true) :
    hasSub p (c :: s) = true := by
  simp [hasSub, h]

lemma hasSub_append_left (p a m : JStr) (h : hasSub p m = true) :
    hasSub p (a ++ m) = true := by
  induction a with
  | nil => exact h
  | cons c cs ih => exact hasSub_cons_of _ _ _ ih

lemma hasPre_append_right (p s b : JStr) (h : hasPre p s = true) :
    hasPre p (s ++ b) = true := by
  induction p generalizing s with
  | nil => rfl
  | cons c cs ih =>
    cases s with
    | nil => exact absurd h (by simp [hasPre])
    | cons d ds =>
      simp only [List.cons_append, hasPre, Bool.and_eq_true] at h ⊢
      exact ⟨h.1, ih ds h.2⟩

lemma hasSub_append_right (p m b : JStr) (h : hasSub p m = true) :
    hasSub p (m ++ b) = true := by
  induction m with
  | nil =>
    cases p with
    | nil =>
      cases b with
      | nil => rfl
      | cons c cs => simp [hasSub, hasPre]
    | cons c cs => exact absurd h (by simp [hasSub, hasPre])
  | cons c cs ih =>
    simp only [hasSub, Bool.or_eq_true, List.cons_append] at h ⊢
    rcases h with h | h
    · exact Or.inl (hasPre_append_right _ _ _ h)
    · exact Or.inr (ih h)

lemma hasSub_seg (p a m b : JStr) (h : hasSub p m = true) :
    hasSub p (a ++ m ++ b) = true := by
  rw [List.append_assoc]
  exact hasSub_append_left _ _ _ (hasSub_append_right _ _ _ h)

lemma jsLower_append (a b : JStr) : jsLower (a ++ b) = jsLower a ++ jsLower b :=
  List.map_append _ _ _

lemma hasSubCI_seg (p a m b : JStr) (h : hasSubCI p m = true) :
    hasSubCI p (a ++ m ++ b) = true := by
  unfold hasSubCI at h ⊢
  rw [jsLower_append, jsLower_append]
  exact hasSub_seg _ _ _ _ h

lemma dropWhile_append_all {p : Char → Bool} (a b : JStr)
    (h : ∀ c ∈ a, p c = true) : (a ++ b).dropWhile p = b.dropWhile p := by
  induction a with
  | nil => rfl
  | cons c cs ih =>
    simp only [List.cons_append, List.dropWhile_cons,
      h c (List.mem_cons_self c cs), if_true]
    exact ih (fun x hx => h x (List.mem_cons_of_mem c hx))

/-- Every string splits as leading whitespace, its trim, and trailing
whitespace. -/
lemma jsTrim_seg (l : JStr) : ∃ a b, l = a ++ jsTrim l ++ b := by
  refine ⟨l.takeWhile isJsSpace,
    ((l.dropWhile isJsSpace).reverse.takeWhile isJsSpace).reverse, ?_⟩
  unfold jsTrim
  conv_lhs => rw [← List.takeWhile_append_dropWhile (p := isJsSpace) (l := l)]
  rw [List.append_assoc]
  congr 1
  conv_lhs => rw [← List.reverse_reverse (l.dropWhile isJsSpace)]
  rw [← List.reverse_append]
  congr 1
  rw [List.takeWhile_append_dropWhile]

lemma mem_jsTrim (l : JStr) (c : Char) (h : c ∈ jsTrim l) : c ∈ l := by
  rcases jsTrim_seg l with ⟨a, b, hl⟩
  rw [hl]
  simp only [List.mem_append]
  exact Or.inl (Or.inr h)

lemma hasSubCI_jsTrim (p l : JStr) (h : hasSubCI p (jsTrim l) = true) :
    hasSubCI p l = true := by
  rcases jsTrim_seg l with ⟨a, b, hl⟩
  rw [hl]
  exact hasSubCI_seg _ _ _ _ h

lemma joinNL_cons₂ (l x : JStr) (xs : List JStr) :
    joinNL (l :: x :: xs) = l ++ '\n' :: joinNL (x :: xs) := rfl

lemma split_ne_nil (sep : Char) (t : JStr) : splitOnChar sep t ≠ [] := by
  cases t with
  | nil => simp [splitOnChar]
  | cons c cs =>
    unfold splitOnChar
    by_cases h : c = sep
    · simp [h]
    · simp only [h, if_false]
      cases splitOnChar sep cs <;> simp

lemma split_cons_sep (sep : Char) (cs : JStr) :
    splitOnChar sep (sep :: cs) = [] :: splitOnChar sep cs := by
  rw [splitOnChar.eq_def]
  simp

lemma split_cons_ne (sep c : Char) (cs : JStr) (h : c ≠ sep) :
    splitOnChar sep (c :: cs) =
      (c :: (splitOnChar sep cs).headD []) :: (splitOnChar sep cs).tail := by
  rw [splitOnChar.eq_def]
  simp only [h, if_false]
  rcases hs : splitOnChar sep cs with _ | ⟨p, ps⟩
  · exact absurd hs (split_ne_nil sep cs)
  · simp

lemma join_split (t : JStr) : joinNL (splitOnChar '\n' t) = t := by
  induction t with
  | nil => rfl
  | cons c cs ih =>
    by_cases h : c = '\n'
    · subst h
      rw [split_cons_sep]
      rcases hs : splitOnChar '\n' cs with _ | ⟨p, ps⟩
      · exact absurd hs (split_ne_nil _ cs)
      · rw [hs] at ih
        rw [joinNL_cons₂, ih]
        rfl
    · rw [split_cons_ne _ _ _ h]
      rcases hs : splitOnChar '\n' cs with _ | ⟨p, ps⟩
      · exact absurd hs (split_ne_nil _ cs)
      · rw [hs] at ih
        cases ps with
        | nil =>
          simp only [List.headD, List.tail]
          have hp : p = cs := ih
          rw [show joinNL [c :: p] = c :: p from rfl, hp]
        | cons q qs =>
          simp only [List.headD, List.tail]
          rw [joinNL_cons₂]
          have h2 : joinNL (p :: q :: qs) = p ++ '\n' :: joinNL (q :: qs) := rfl
          rw [h2] at ih
          show (c :: p) ++ '\n' :: joinNL (q :: qs) = c :: cs
          rw [List.cons_append, ih]

lemma line_no_sep (sep : Char) (t : JStr) :
    ∀ l ∈ splitOnChar sep t, sep ∉ l := by
  induction t with
  | nil =>
    intro l hl
    simp only [splitOnChar] at hl
    rcases List.mem_singleton.mp hl with rfl
    simp
  | cons c cs ih =>
    intro l hl
    by_cases h : c = sep
    · subst h
      rw [split_cons_sep] at hl
      rcases List.mem_cons.mp hl with rfl | hl2
      · simp
      · exact ih l hl2
    · rw [split_cons_ne _ _ _ h] at hl
      rcases List.mem_cons.mp hl with rfl | hl2
      · intro hmem
        rcases List.mem_cons.mp hmem with rfl | hmem2
        · exact h rfl
        · rcases hs : splitOnChar sep cs with _ | ⟨p, ps⟩
          · exact absurd hs (split_ne_nil _ cs)
          · rw [hs] at hmem2
            exact ih p (by rw [hs]; exact List.mem_cons_self p ps) hmem2
      · rcases hs : splitOnChar sep cs with _ | ⟨p, ps⟩
        · exact absurd hs (split_ne_nil _ cs)
        · rw [hs] at hl2
          exact ih l (by rw [hs]; exact List.mem_cons_of_mem p hl2)

lemma split_join (ls : List JStr) (hnl : ∀ l ∈ ls, '\n' ∉ l) (hne : ls ≠ []) :
    splitOnChar '\n' (joinNL ls) = ls := by
  induction ls with
  | nil => exact absurd rfl hne
  | cons l ls ih =>
    cases ls with
    | nil =>
      show splitOnChar '\n' l = [l]
      have hl := hnl l (List.mem_cons_self l [])
      clear ih hne hnl
      induction l with
      | nil => rfl
      | cons c cs ihc =>
        have hc : c ≠ '\n' := fun hc => hl (hc ▸ List.mem_cons_self c cs)
        rw [split_cons_ne _ _ _ hc,
          ihc (fun hm => hl (List.mem_cons_of_mem c hm))]
        rfl
    | cons x xs =>
      rw [joinNL_cons₂]
      have hx := ih (fun a ha => hnl a (List.mem_cons_of_mem l ha))
        (by simp)
      have hl := hnl l (List.mem_cons_self l _)
      clear ih hne hnl
      induction l with
      | nil =>
        show splitOnChar '\n' ('\n' :: joinNL (x :: xs)) = [] :: x :: xs
        rw [split_cons_sep, hx]
      | cons c cs ihc =>
        have hc : c ≠ '\n' := fun hc => hl (hc ▸ List.mem_cons_self c cs)
        rw [List.cons_append, split_cons_ne _ _ _ hc,
          ihc (fun hm => hl (List.mem_cons_of_mem c hm))]
        rfl

lemma mem_of_mem_line (sep : Char) (t : JStr) :
    ∀ l ∈ splitOnChar sep t, ∀ c ∈ l, c ∈ t := by
  induction t with
  | nil =>
    intro l hl c hc
    simp only [splitOnChar] at hl
    rcases List.mem_singleton.mp hl with rfl
    exact absurd hc (List.not_mem_nil c)
  | cons d ds ih =>
    intro l hl c hc
    by_cases h : d = sep
    · subst h
      rw [split_cons_sep] at hl
      rcases List.mem_cons.mp hl with rfl | hl2
      · exact absurd hc (List.not_mem_nil c)
      · exact List.mem_cons_of_mem _ (ih l hl2 c hc)
    · rw [split_cons_ne _ _ _ h] at hl
      rcases hs : splitOnChar sep ds with _ | ⟨p, ps⟩
      · exact absurd hs (split_ne_nil _ ds)
      · rw [hs] at hl
        simp only [List.headD, List.tail] at hl
        rcases List.mem_cons.mp hl with rfl | hl2
        · rcases List.mem_cons.mp hc with rfl | hc2
          · exact List.mem_cons_self c ds
          · exact List.mem_cons_of_mem _
              (ih p (by rw [hs]; exact List.mem_cons_self p ps) c hc2)
        · exact List.mem_cons_of_mem _
            (ih l (by rw [hs]; exact List.mem_cons_of_mem p hl2) c hc)

lemma line_of_mem (t : JStr) (c : Char) (hne : c ≠ '\n') :
    c ∈ t → ∃ l ∈ splitOnChar '\n' t, c ∈ l := by
  induction t with
  | nil => intro hc; exact absurd hc (List.not_mem_nil c)
  | cons d ds ih =>
    intro hc
    by_cases h : d = '\n'
    · subst h
      rcases List.mem_cons.mp hc with rfl | hc2
      · exact absurd rfl hne
      · rcases ih hc2 with ⟨l, hl, hcl⟩
        exact ⟨l, by rw [split_cons_sep]; exact List.mem_cons_of_mem _ hl, hcl⟩
    · rw [split_cons_ne _ _ _ h]
      rcases hs : splitOnChar '\n' ds with _ | ⟨p, ps⟩
      · exact absurd hs (split_ne_nil _ ds)
      · simp only [List.headD, List.tail]
        rcases List.mem_cons.mp hc with rfl | hc2
        · exact ⟨c :: p, List.mem_cons_self _ _, List.mem_cons_self c p⟩
        · rcases ih hc2 with ⟨l, hl, hcl⟩
          rw [hs] at hl
          rcases List.mem_cons.mp hl with rfl | hl2
          · exact ⟨d :: l, List.mem_cons_self _ _, List.mem_cons_of_mem d hcl⟩
          · exact ⟨l, List.mem_cons_of_mem _ hl2, hcl⟩

lemma hasPre_firstLine (pat : JStr) (hnl : '\n' ∉ pat) :
    ∀ s, hasPre pat s = true →
      hasPre pat ((splitOnChar '\n' s).headD []) = true := by
  induction pat with
  | nil => intro s h; rfl
  | cons q qs ih =>
    intro s h
    cases s with
    | nil => exact absurd h (by simp [hasPre])
    | cons c cs =>
      simp only [hasPre, Bool.and_eq_true] at h
      have hq : q = c := by simpa using h.1
      have hcne : c ≠ '\n' := by
        intro hcn
        exact hnl (by rw [hq, hcn]; exact List.mem_cons_self _ _)
      rw [split_cons_ne _ _ _ hcne]
      simp only [List.headD, hasPre, Bool.and_eq_true]
      refine ⟨by simpa using hq, ?_⟩
      exact ih (fun hm => hnl (List.mem_cons_of_mem _ hm)) cs h.2

lemma hasSub_line (pat : JStr) (hne : pat ≠ []) (hnl : '\n' ∉ pat) :
    ∀ t, hasSub pat t = true → ∃ l ∈ splitOnChar '\n' t, hasSub pat l = true := by
  intro t
  induction t with
  | nil =>
    intro h
    cases pat with
    | nil => exact absurd rfl hne
    | cons q qs => exact absurd h (by simp [hasSub, hasPre])
  | cons c cs ih =>
    intro h
    simp only [hasSub, Bool.or_eq_true] at h
    rcases h with h | h
    · have h1 := hasPre_firstLine pat hnl (c :: cs) h
      refine ⟨(splitOnChar '\n' (c :: cs)).headD [], ?_, hasSub_of_hasPre _ _ h1⟩
      rcases hs : splitOnChar '\n' (c :: cs) with _ | ⟨p, ps⟩
      · exact absurd hs (split_ne_nil _ _)
      · simp [List.headD]
    · rcases ih h with ⟨l, hl, hsub⟩
      by_cases hc : c = '\n'
      · subst hc
        exact ⟨l, by rw [split_cons_sep]; exact List.mem_cons_of_mem _ hl, hsub⟩
      · rw [split_cons_ne _ _ _ hc]
        rcases hs : splitOnChar '\n' cs with _ | ⟨p, ps⟩
        · exact absurd hs (split_ne_nil _ cs)
        · rw [hs] at hl
          simp only [List.headD, List.tail]
          rcases List.mem_cons.mp hl with rfl | hl2
          · exact ⟨c :: l, List.mem_cons_self _ _, hasSub_cons_of _ _ _ hsub⟩
          · exact ⟨l, List.mem_cons_of_mem _ hl2, hsub⟩

lemma scanGo_id_trig (keyP : JStr → Option (JStr × JStr)) (trig : Char → Bool)
    (hk : ∀ c cs, trig c = false → keyP (c :: cs) = none) :
    ∀ n (s : JStr), (∀ c ∈ s, trig c = false) → scanGo keyP n s = s := by
  intro n
  induction n with
  | zero => intro s h; cases s <;> rfl
  | succ n ih =>
    intro s h
    cases s with
    | nil => rfl
    | cons c cs =>
      simp only [scanGo, hk c cs (h c (List.mem_cons_self c cs))]
      exact congrArg (c :: ·) (ih cs (fun x hx => h x (List.mem_cons_of_mem c hx)))

lemma scanAll_id_trig (keyP : JStr → Option (JStr × JStr)) (trig : Char → Bool)
    (hk : ∀ c cs, trig c = false → keyP (c :: cs) = none)
    (s : JStr) (h : ∀ c ∈ s, trig c = false) : scanAll keyP s = s :=
  scanGo_id_trig keyP trig hk s.length s h

lemma blockRemMatcher_none (tag : JStr) (c : Char) (cs : JStr) (h : c ≠ '<') :
    blockRemMatcher tag (c :: cs) = none := by
  unfold blockRemMatcher
  split
  · rename_i heq
    rw [List.cons.injEq] at heq
    exact absurd heq.1 h
  · rfl

lemma commentMatcher_none (c : Char) (cs : JStr) (h : c ≠ '<') :
    commentMatcher (c :: cs) = none := by
  unfold commentMatcher
  split
  · rename_i heq
    rw [List.cons.injEq] at heq
    exact absurd heq.1 h
  · rfl

lemma imgPixelMatcher_none (c : Char) (cs : JStr) (h : c ≠ '<') :
    imgPixelMatcher (c :: cs) = none := by
  unfold imgPixelMatcher
  split
  · rename_i heq
    rw [List.cons.injEq] at heq
    exact absurd heq.1 h
  · rfl

lemma imgDispMatcher_none (c : Char) (cs : JStr) (h : c ≠ '<') :
    imgDispMatcher (c :: cs) = none := by
  unfold imgDispMatcher
  split
  · rename_i heq
    rw [List.cons.injEq] at heq
    exact absurd heq.1 h
  · rfl

lemma imgDataMatcher_none (c : Char) (cs : JStr) (h : c ≠ '<') :
    imgDataMatcher (c :: cs) = none := by
  unfold imgDataMatcher
  split
  · rename_i heq
    rw [List.cons.injEq] at heq
    exact absurd heq.1 h
  · rfl

lemma brMatcher_none (c : Char) (cs : JStr) (h : c ≠ '<') :
    brMatcher (c :: cs) = none := by
  unfold brMatcher
  split
  · rename_i heq
    rw [List.cons.injEq] at heq
    exact absurd heq.1 h
  · rfl

lemma blockTagMatcher_none (c : Char) (cs : JStr) (h : c ≠ '<') :
    blockTagMatcher (c :: cs) = none := by
  unfold blockTagMatcher
  split
  · rename_i heq
    rw [List.cons.injEq] at heq
    exact absurd heq.1 h
  · rfl

lemma tagStarMatcher_none (c : Char) (cs : JStr) (h : c ≠ '<') :
    tagStarMatcher (c :: cs) = none := by
  unfold tagStarMatcher
  split
  · rename_i heq
    rw [List.cons.injEq] at heq
    exact absurd heq.1 h
  · rfl

lemma tagPlusMatcher_none (c : Char) (cs : JStr) (h : c ≠ '<') :
    tagPlusMatcher (c :: cs) = none := by
  unfold tagPlusMatcher
  split
  · rename_i heq
    rw [List.cons.injEq] at heq
    exact absurd heq.1 h
  · rfl

lemma anchorMatcher_none (c : Char) (cs : JStr) (h : c ≠ '<') :
    anchorMatcher (c :: cs) = none := by
  unfold anchorMatcher
  split
  · rename_i heq
    rw [List.cons.injEq] at heq
    exact absurd heq.1 h
  · rfl

lemma hexEntMatcher_none (c : Char) (cs : JStr) (h : c ≠ '&') :
    hexEntMatcher (c :: cs) = none := by
  unfold hexEntMatcher
  split
  · rename_i heq
    rw [List.cons.injEq] at heq
    exact absurd heq.1 h
  · rfl

lemma decEntMatcher_none (c : Char) (cs : JStr) (h : c ≠ '&') :
    decEntMatcher (c :: cs) = none := by
  unfold decEntMatcher
  split
  · rename_i heq
    rw [List.cons.injEq] at heq
    exact absurd heq.1 h
  · rfl

lemma namedEntMatcher_none (c : Char) (cs : JStr) (h : c ≠ '&') :
    namedEntMatcher (c :: cs) = none := by
  unfold namedEntMatcher
  split
  · rename_i heq
    rw [List.cons.injEq] at heq
    exact absurd heq.1 h
  · rfl

lemma htmlToText_id (t : JStr) (h1 : '<' ∉ t) (h2 : '&' ∉ t) : htmlToText t = t := by
  have hpass : ∀ keyP : JStr → Option (JStr × JStr),
      (∀ c cs, c ≠ '<' → keyP (c :: cs) = none) → scanAll keyP t = t := by
    intro keyP hk
    exact scanAll_id_trig keyP (fun c => decide (c = '<'))
      (fun c cs hc => hk c cs (of_decide_eq_false hc)) t
      (fun c hc => decide_eq_false (fun he => h1 (he ▸ hc)))
  have hamp : ∀ keyP : JStr → Option (JStr × JStr),
      (∀ c cs, c ≠ '&' → keyP (c :: cs) = none) → scanAll keyP t = t := by
    intro keyP hk
    exact scanAll_id_trig keyP (fun c => decide (c = '&'))
      (fun c cs hc => hk c cs (of_decide_eq_false hc)) t
      (fun c hc => decide_eq_false (fun he => h2 (he ▸ hc)))
  simp only [htmlToText]
  rw [hpass _ (blockRemMatcher_none (str "style")),
    hpass _ (blockRemMatcher_none (str "script")),
    hpass _ (blockRemMatcher_none (str "head")),
    hpass _ commentMatcher_none,
    hpass _ imgPixelMatcher_none,
    hpass _ imgDispMatcher_none,
    hpass _ imgDataMatcher_none,
    hpass _ brMatcher_none,
    hpass _ blockTagMatcher_none,
    hpass _ anchorMatcher_none,
    hpass _ tagPlusMatcher_none]
  simp only [decodeEntities]
  rw [hamp _ hexEntMatcher_none, hamp _ decEntMatcher_none,
    hamp _ namedEntMatcher_none]

lemma findIdxQ_none {α : Type} (p : α → Bool) :
    ∀ ls : List α, (∀ x ∈ ls, p x = false) → ls.findIdx? p = none := by
  intro ls
  induction ls with
  | nil => intro h; rfl
  | cons x xs ih =>
    intro h
    rw [List.findIdx?_cons, h x (List.mem_cons_self x xs)]
    simp [ih (fun y hy => h y (List.mem_cons_of_mem x hy))]

lemma sigSlice_id (t : JStr)
    (h : ∀ l ∈ splitOnChar '\n' t, sigContent l = false) : sigSlice t = t := by
  unfold sigSlice
  simp only [findIdxQ_none _ _ h]

lemma blankLineApply_id (pred : JStr → Bool) (t : JStr)
    (h : ∀ l ∈ splitOnChar '\n' t, pred l = false) : blankLineApply pred t = t := by
  unfold blankLineApply
  simp only [findIdxQ_none _ _ h]

lemma p4Apply_id (t : JStr)
    (h : ∀ l ∈ splitOnChar '\n' t, p4Line l = false) : p4Apply t = t := by
  unfold p4Apply
  simp only [findIdxQ_none _ _ h]

lemma p5Apply_id (t : JStr)
    (h : ∀ l ∈ splitOnChar '\n' t, sigContent l = false) : p5Apply t = t := by
  unfold p5Apply
  simp only [findIdxQ_none _ _ h]

lemma p6Occs_none (following : List JStr) (l : JStr) (h : '©' ∉ l) :
    p6Occs following l = none := by
  induction l with
  | nil => rfl
  | cons c cs ih =>
    unfold p6Occs
    rw [ih (fun hm => h (List.mem_cons_of_mem c hm))]
    have hc : (c = '©') = False :=
      eq_false (fun he => h (he ▸ List.mem_cons_self c cs))
    simp [hc]

lemma p6FindAux_none : ∀ (i : Nat) (ls : List JStr),
    (∀ l ∈ ls, '©' ∉ l) → p6FindAux i ls = none := by
  intro i ls
  induction ls generalizing i with
  | nil => intro h; rfl
  | cons l rest ih =>
    intro h
    unfold p6FindAux
    rw [p6Occs_none rest l (h l (List.mem_cons_self l rest))]
    exact ih (i + 1) (fun x hx => h x (List.mem_cons_of_mem l hx))

lemma p6Apply_id (t : JStr)
    (h : ∀ l ∈ splitOnChar '\n' t, '©' ∉ l) : p6Apply t = t := by
  unfold p6Apply
  simp only [p6FindAux_none 0 _ h]

lemma hasPreCI_to_sub (pat ext l : JStr) (h : hasPreCI (pat ++ ext) l = true) :
    hasSubCI pat l = true := by
  unfold hasPreCI at h
  unfold hasSubCI
  rw [jsLower_append] at h
  exact hasSub_of_hasPre _ _ (hasPre_drop_pat _ _ _ h)

lemma hasWordSubAux_to_sub (pat : JStr) :
    ∀ (prev : Option Char) (l : JStr), hasWordSubAux pat prev l = true →
      hasSubCI pat l = true := by
  intro prev l
  induction l generalizing prev with
  | nil => intro h; exact absurd h (by simp [hasWordSubAux])
  | cons c cs ih =>
    intro h
    unfold hasWordSubAux at h
    rw [Bool.or_eq_true] at h
    rcases h with h | h
    · have h1 : hasPreCI pat (c :: cs) = true := by
        rw [Bool.and_eq_true, Bool.and_eq_true] at h
        exact h.1.1
      unfold hasSubCI
      exact hasSub_of_hasPre _ _ h1
    · have h4 := ih (some c) h
      unfold hasSubCI at h4 ⊢
      rw [show jsLower (c :: cs) = c.toLower :: jsLower cs from rfl]
      exact hasSub_cons_of _ _ _ h4

lemma sigContent_of_clean (l : JStr) (hc : lineClean l) : sigContent l = false := by
  cases hb : sigContent l
  · rfl
  · exfalso
    unfold sigContent at hb
    rw [Bool.and_eq_true] at hb
    obtain ⟨hpre, hall⟩ := hb
    rcases l with _ | ⟨c0, l1⟩
    · exact absurd hpre (by simp [hasPre, str])
    rcases l1 with _ | ⟨c1, rest⟩
    · exact absurd hpre (by simp [hasPre, str])
    rw [show str "--" = ['-', '-'] from rfl] at hpre
    simp only [hasPre, Bool.and_eq_true] at hpre
    obtain ⟨hc0, hc1, -⟩ := hpre
    have hc0' : c0 = '-' := (of_decide_eq_true hc0).symm
    have hc1' : c1 = '-' := (of_decide_eq_true hc1).symm
    subst hc0'; subst hc1'
    have hrest : ∀ x ∈ rest, isJsSpace x = true := by
      intro x hx
      have := hall
      simp only [List.drop] at this
      exact List.all_eq_true.mp this x hx
    have htrim : jsTrim ('-' :: '-' :: rest) = str "--" := by
      unfold jsTrim
      have hd : ('-' :: '-' :: rest).dropWhile isJsSpace = '-' :: '-' :: rest := by
        rw [List.dropWhile_cons]
        simp [show isJsSpace '-' = false from rfl]
      rw [hd]
      rw [show ('-' :: '-' :: rest).reverse = rest.reverse ++ ['-', '-'] by simp]
      rw [dropWhile_append_all _ _
        (fun x hx => hrest x (List.mem_reverse.mp hx))]
      rfl
    have hlast : hasPre (str "--") (jsTrim ('-' :: '-' :: rest)) = false :=
      hc.2.2.2.2.2.2.2.2.2.2.2.2
    rw [htrim] at hlast
    exact absurd hlast (by decide)

lemma footer_preds_of_clean (l : JStr) (hc : lineClean l) :
    p1Line l = false ∧ p2Line l = false ∧ p3Line l = false ∧
    p4Line l = false ∧ p7Line l = false := by
  refine ⟨?_, ?_, ?_, ?_, ?_⟩
  · cases hb : p1Line l
    · rfl
    · exfalso
      unfold p1Line at hb
      rw [Bool.and_eq_true] at hb
      have h1 := hb.1
      rw [show str "sent from my " = str "sent from my" ++ str " " by decide] at h1
      exact absurd (hasPreCI_to_sub _ _ _ h1) (by rw [hc.1]; exact Bool.false_ne_true)
  · cases hb : p2Line l
    · rfl
    · exfalso
      unfold p2Line at hb
      rw [Bool.and_eq_true] at hb
      have h1 := hb.1
      rw [show str "get outlook for " = str "get outlook for" ++ str " " by decide] at h1
      exact absurd (hasPreCI_to_sub _ _ _ h1)
        (by rw [hc.2.1]; exact Bool.false_ne_true)
  · cases hb : p3Line l
    · rfl
    · exfalso
      unfold p3Line at hb
      exact absurd (hasWordSubAux_to_sub _ _ _ hb)
        (by rw [hc.2.2.1]; exact Bool.false_ne_true)
  · cases hb : p4Line l
    · rfl
    · exfalso
      unfold p4Line at hb
      rcases hc with ⟨_, _, _, h4, h5, h6, h7, _⟩
      simp [h4, h5, h6, h7] at hb
  · cases hb : p7Line l
    · rfl
    · exfalso
      unfold p7Line at hb
      rcases hc with ⟨_, _, _, _, _, _, _, _, h9, h10, h11, h12, _⟩
      simp [h9, h10, h11, h12] at hb

lemma stripFooterJunk_id (t : JStr)
    (h : ∀ l ∈ splitOnChar '\n' t, lineClean l) : stripFooterJunk t = t := by
  unfold stripFooterJunk
  show blankLineApply p7Line (p6Apply (p5Apply (p4Apply (blankLineApply p3Line
    (blankLineApply p2Line (blankLineApply p1Line (sigSlice t))))))) = t
  rw [sigSlice_id t (fun l hl => sigContent_of_clean l (h l hl)),
    blankLineApply_id p1Line t (fun l hl => (footer_preds_of_clean l (h l hl)).1),
    blankLineApply_id p2Line t (fun l hl => (footer_preds_of_clean l (h l hl)).2.1),
    blankLineApply_id p3Line t (fun l hl => (footer_preds_of_clean l (h l hl)).2.2.1),
    p4Apply_id t (fun l hl => (footer_preds_of_clean l (h l hl)).2.2.2.1),
    p5Apply_id t (fun l hl => sigContent_of_clean l (h l hl)),
    p6Apply_id t (fun l hl => (h l hl).2.2.2.2.2.2.2.1),
    blankLineApply_id p7Line t (fun l hl => (footer_preds_of_clean l (h l hl)).2.2.2.2)]

lemma map_id_of {α : Type} (f : α → α) :
    ∀ l : List α, (∀ x ∈ l, f x = x) → l.map f = l := by
  intro l
  induction l with
  | nil => intro h; rfl
  | cons x xs ih =>
    intro h
    rw [List.map_cons, h x (List.mem_cons_self x xs),
      ih (fun y hy => h y (List.mem_cons_of_mem x hy))]

lemma collapseNLMatcher_none_of (c : Char) (cs : JStr)
    (h : hasPre (str "\n\n\n") (c :: cs) = false) :
    collapseNLMatcher (c :: cs) = none := by
  unfold collapseNLMatcher
  split
  · rename_i heq
    rw [List.cons.injEq] at heq
    obtain ⟨h1, h2⟩ := heq
    subst h1
    rw [h2] at h
    exact absurd h (by simp [str, hasPre])
  · rfl

lemma collapse_id_of_noTriple :
    ∀ (n : Nat) (s : JStr), hasSub (str "\n\n\n") s = false →
      scanGo collapseNLMatcher n s = s := by
  intro n
  induction n with
  | zero => intro s h; cases s <;> rfl
  | succ n ih =>
    intro s h
    cases s with
    | nil => rfl
    | cons c cs =>
      have hsp : hasSub (str "\n\n\n") (c :: cs) = false := h
      rw [show hasSub (str "\n\n\n") (c :: cs) =
        (hasPre (str "\n\n\n") (c :: cs) || hasSub (str "\n\n\n") cs) from rfl,
        Bool.or_eq_false_iff] at hsp
      simp only [scanGo, collapseNLMatcher_none_of c cs hsp.1]
      exact congrArg (c :: ·) (ih cs hsp.2)

lemma cleanWhitespace_id_norm (t : JStr)
    (ha : ∀ l ∈ splitOnChar '\n' t, jsTrim l = l)
    (hb : hasSub (str "\n\n\n") t = false)
    (hc : jsTrim t = t) : cleanWhitespace t = t := by
  unfold cleanWhitespace
  rw [map_id_of jsTrim _ ha, join_split, scanAll,
    collapse_id_of_noTriple _ t hb, hc]

/-- C9 (amended): on markup-free text (`<` and `&` absent) whose lines
carry no footer markers, one sanitizer pass is exactly the whitespace
normalization; and on text that is moreover already normalized (lines
trimmed, no triple newline, no leading/trailing whitespace) the sanitizer
is the identity and hence idempotent.  General plain text is NOT a
fixed-point class: the non-global footer patterns break idempotence
(see the counterexample). -/
theorem sanitize_plain_idem :
    (∀ t : JStr, '<' ∉ t → '&' ∉ t →
      (∀ l ∈ splitOnChar '\n' t, lineClean l) →
      sanitizeEmailBody t = cleanWhitespace t) ∧
    (∀ t : JStr, '<' ∉ t → '&' ∉ t →
      (∀ l ∈ splitOnChar '\n' t, lineClean l) →
      (∀ l ∈ splitOnChar '\n' t, jsTrim l = l) →
      hasSub (str "\n\n\n") t = false → jsTrim t = t →
      sanitizeEmailBody t = t ∧
      sanitizeEmailBody (sanitizeEmailBody t) = sanitizeEmailBody t) := by
  constructor
  · intro t h1 h2 h3
    unfold sanitizeEmailBody
    rw [htmlToText_id t h1 h2, stripFooterJunk_id t h3]
  · intro t h1 h2 h3 h4 h5 h6
    have hid : sanitizeEmailBody t = t := by
      unfold sanitizeEmailBody
      rw [htmlToText_id t h1 h2, stripFooterJunk_id t h3,
        cleanWhitespace_id_norm t h4 h5 h6]
    exact ⟨hid, by rw [hid, hid]⟩

/-- Witness for `sanitize_plain_idem` on a concrete normalized text. -/
theorem sanitize_plain_idem_witness :
    sanitizeEmailBody (str "hello world\n\nsecond part") =
      cleanWhitespace (str "hello world\n\nsecond part") ∧
    sanitizeEmailBody (str "hello world\n\nsecond part") =
      str "hello world\n\nsecond part" ∧
    sanitizeEmailBody (sanitizeEmailBody (str "hello world\n\nsecond part")) =
      sanitizeEmailBody (str "hello world\n\nsecond part") :=
  ⟨sanitize_plain_idem.1 (str "hello world\n\nsecond part")
      (by decide) (by decide) (by decide),
    sanitize_plain_idem.2 (str "hello world\n\nsecond part")
      (by decide) (by decide) (by decide) (by decide) (by decide) (by decide)⟩

lemma joinNL_seg : ∀ (ls : List JStr) (l : JStr), l ∈ ls →
    ∃ A B, joinNL ls = A ++ (l ++ B) := by
  intro ls
  induction ls with
  | nil => intro l hl; exact absurd hl (List.not_mem_nil l)
  | cons x xs ih =>
    intro l hl
    rcases List.mem_cons.mp hl with rfl | hl2
    · cases xs with
      | nil => exact ⟨[], [], by simp [joinNL]⟩
      | cons y ys =>
        exact ⟨[], '\n' :: joinNL (y :: ys), by rw [joinNL_cons₂]; simp⟩
    · rcases ih l hl2 with ⟨A, B, hAB⟩
      cases xs with
      | nil => exact absurd hl2 (List.not_mem_nil l)
      | cons y ys =>
        exact ⟨x ++ '\n' :: A, B, by rw [joinNL_cons₂, hAB]; simp⟩

lemma hasSub_of_line (pat t l : JStr) (hl : l ∈ splitOnChar '\n' t)
    (h : hasSub pat l = true) : hasSub pat t = true := by
  rcases joinNL_seg _ l hl with ⟨A, B, hAB⟩
  rw [join_split] at hAB
  rw [hAB, ← List.append_assoc]
  exact hasSub_seg _ _ _ _ h

lemma mem_joinNL : ∀ (ls : List JStr) (c : Char), c ∈ joinNL ls →
    c = '\n' ∨ ∃ l ∈ ls, c ∈ l := by
  intro ls
  induction ls with
  | nil => intro c hc; exact absurd hc (List.not_mem_nil c)
  | cons x xs ih =>
    intro c hc
    cases xs with
    | nil =>
      exact Or.inr ⟨x, List.mem_cons_self x [], hc⟩
    | cons y ys =>
      rw [joinNL_cons₂] at hc
      rcases List.mem_append.mp hc with hc1 | hc2
      · exact Or.inr ⟨x, List.mem_cons_self x _, hc1⟩
      · rcases List.mem_cons.mp hc2 with rfl | hc3
        · exact Or.inl rfl
        · rcases ih c hc3 with h | ⟨l, hl, hcl⟩
          · exact Or.inl h
          · exact Or.inr ⟨l, List.mem_cons_of_mem x hl, hcl⟩

lemma take_ne_nil {α : Type} (ls : List α) (i : Nat) (h1 : ls ≠ []) (h2 : i ≠ 0) :
    ls.take i ≠ [] := by
  cases ls with
  | nil => exact absurd rfl h1
  | cons x xs =>
    cases i with
    | zero => exact absurd rfl h2
    | succ n => simp

lemma lines_no_nl (t : JStr) : ∀ l ∈ splitOnChar '\n' t, '\n' ∉ l :=
  line_no_sep '\n' t

/-- The lines of a footer-stage output are lines of its input, or empty.
Shared shape: the output is a `joinNL` of taken/dropped input lines plus
inserted empty lines. -/
lemma lines_of_join_pieces (t : JStr) (out : List JStr)
    (hsub : ∀ l ∈ out, l ∈ splitOnChar '\n' t ∨ l = [])
    (hne : out ≠ []) :
    ∀ l ∈ splitOnChar '\n' (joinNL out), l ∈ splitOnChar '\n' t ∨ l = [] := by
  have hnl : ∀ l ∈ out, '\n' ∉ l := by
    intro l hl
    rcases hsub l hl with h | rfl
    · exact lines_no_nl t l h
    · exact List.not_mem_nil '\n'
  rw [split_join out hnl hne]
  exact hsub

lemma sigSlice_lines (t : JStr) :
    ∀ l ∈ splitOnChar '\n' (sigSlice t),
      l ∈ splitOnChar '\n' t ∨ l = [] := by
  unfold sigSlice
  rcases hf : (splitOnChar '\n' t).findIdx? sigContent with _ | i
  · simp only [hf]
    intro l hl
    exact Or.inl hl
  · simp only [hf]
    apply lines_of_join_pieces
    · intro l hl
      rcases List.mem_append.mp hl with h | h
      · exact Or.inl (List.take_subset _ _ h)
      · rcases List.mem_singleton.mp h with rfl
        exact Or.inr rfl
    · simp

lemma blankLineApply_lines (pred : JStr → Bool) (t : JStr) :
    ∀ l ∈ splitOnChar '\n' (blankLineApply pred t),
      l ∈ splitOnChar '\n' t ∨ l = [] := by
  unfold blankLineApply
  rcases hf : (splitOnChar '\n' t).findIdx? pred with _ | i
  · simp only [hf]
    intro l hl
    exact Or.inl hl
  · simp only [hf]
    apply lines_of_join_pieces
    · intro l hl
      rcases List.mem_append.mp hl with h | h
      · rcases List.mem_append.mp h with h2 | h2
        · exact Or.inl (List.take_subset _ _ h2)
        · rcases List.mem_singleton.mp h2 with rfl
          exact Or.inr rfl
      · exact Or.inl (List.drop_subset _ _ h)
    · intro hemp
      rw [List.append_assoc] at hemp
      rcases List.append_eq_nil.mp hemp with ⟨_, h3⟩
      simp at h3

lemma p4Apply_lines (t : JStr) :
    ∀ l ∈ splitOnChar '\n' (p4Apply t),
      l ∈ splitOnChar '\n' t ∨ l = [] := by
  unfold p4Apply
  rcases hf : (splitOnChar '\n' t).findIdx? p4Line with _ | i
  · simp only [hf]
    intro l hl
    exact Or.inl hl
  · simp only [hf]
    by_cases hi : i = 0
    · simp only [hi, if_pos rfl]
      apply lines_of_join_pieces
      · intro l hl
        rcases List.mem_cons.mp hl with rfl | h
        · exact Or.inr rfl
        · exact Or.inl (List.drop_subset _ _ h)
      · simp
    · rw [if_neg hi]
      apply lines_of_join_pieces
      · intro l hl
        rcases List.mem_append.mp hl with h | h
        · exact Or.inl (List.take_subset _ _ h)
        · exact Or.inl (List.drop_subset _ _ h)
      · intro hemp
        rcases List.append_eq_nil.mp hemp with ⟨h3, _⟩
        exact take_ne_nil _ _ (split_ne_nil _ t) hi h3

lemma p5Apply_lines (t : JStr) :
    ∀ l ∈ splitOnChar '\n' (p5Apply t),
      l ∈ splitOnChar '\n' t ∨ l = [] := by
  unfold p5Apply
  rcases hf : (splitOnChar '\n' t).findIdx? sigContent with _ | i
  · simp only [hf]
    intro l hl
    exact Or.inl hl
  · simp only [hf]
    split
    · apply lines_of_join_pieces
      · intro l hl
        rcases List.mem_append.mp hl with h | h
        · exact Or.inl (List.take_subset _ _ h)
        · rcases List.mem_singleton.mp h with rfl
          exact Or.inr rfl
      · simp
    · apply lines_of_join_pieces
      · intro l hl
        rcases List.mem_append.mp hl with h | h
        · rcases List.mem_append.mp h with h2 | h2
          · exact Or.inl (List.take_subset _ _ h2)
          · rcases List.mem_singleton.mp h2 with rfl
            exact Or.inr rfl
        · exact Or.inl (List.drop_subset _ _ h)
      · intro hemp
        rw [List.append_assoc] at hemp
        rcases List.append_eq_nil.mp hemp with ⟨_, h3⟩
        simp at h3

lemma p6Apply_lines (t : JStr) :
    ∀ l ∈ splitOnChar '\n' (p6Apply t),
      l ∈ splitOnChar '\n' t ∨ l = [] := by
  unfold p6Apply
  rcases hf : p6FindAux 0 (splitOnChar '\n' t) with _ | ⟨i, e⟩
  · simp only [hf]
    intro l hl
    exact Or.inl hl
  · simp only [hf]
    apply lines_of_join_pieces
    · intro l hl
      rcases List.mem_append.mp hl with h | h
      · rcases List.mem_append.mp h with h2 | h2
        · exact Or.inl (List.take_subset _ _ h2)
        · rcases List.mem_singleton.mp h2 with rfl
          exact Or.inr rfl
      · exact Or.inl (List.drop_subset _ _ h)
    · intro hemp
      rw [List.append_assoc] at hemp
      rcases List.append_eq_nil.mp hemp with ⟨_, h3⟩
      simp at h3

lemma stripFooterJunk_lines (t : JStr) :
    ∀ l ∈ splitOnChar '\n' (stripFooterJunk t),
      l ∈ splitOnChar '\n' t ∨ l = [] := by
  unfold stripFooterJunk
  show ∀ l ∈ splitOnChar '\n' (blankLineApply p7Line (p6Apply (p5Apply (p4Apply
    (blankLineApply p3Line (blankLineApply p2Line
      (blankLineApply p1Line (sigSlice t)))))))), _
  intro l hl
  have e7 := blankLineApply_lines p7Line _ l hl
  rcases e7 with h | rfl
  swap
  · exact Or.inr rfl
  have e6 := p6Apply_lines _ l h
  rcases e6 with h | rfl
  swap
  · exact Or.inr rfl
  have e5 := p5Apply_lines _ l h
  rcases e5 with h | rfl
  swap
  · exact Or.inr rfl
  have e4 := p4Apply_lines _ l h
  rcases e4 with h | rfl
  swap
  · exact Or.inr rfl
  have e3 := blankLineApply_lines p3Line _ l h
  rcases e3 with h | rfl
  swap
  · exact Or.inr rfl
  have e2 := blankLineApply_lines p2Line _ l h
  rcases e2 with h | rfl
  swap
  · exact Or.inr rfl
  have e1 := blankLineApply_lines p1Line _ l h
  rcases e1 with h | rfl
  swap
  · exact Or.inr rfl
  exact sigSlice_lines t l h

lemma headD_mem_split (u : JStr) :
    (splitOnChar '\n' u).headD [] ∈ splitOnChar '\n' u := by
  rcases hs : splitOnChar '\n' u with _ | ⟨p, ps⟩
  · exact absurd hs (split_ne_nil _ _)
  · simp [List.headD]

lemma split_dropNL_rep : ∀ r : JStr, ∃ k, splitOnChar '\n' r =
    List.replicate k [] ++ splitOnChar '\n' (r.dropWhile (· = '\n')) := by
  intro r
  induction r with
  | nil => exact ⟨0, rfl⟩
  | cons c cs ih =>
    by_cases hc : c = '\n'
    · subst hc
      rcases ih with ⟨k, hk⟩
      refine ⟨k + 1, ?_⟩
      rw [split_cons_sep, hk,
        show List.dropWhile (· = '\n') ('\n' :: cs) =
          List.dropWhile (· = '\n') cs by simp [List.dropWhile_cons]]
      rfl
    · exact ⟨0, by simp [List.dropWhile_cons, hc]⟩

lemma mem_split_dropNL (r : JStr) (x : JStr)
    (hx : x ∈ splitOnChar '\n' (r.dropWhile (· = '\n'))) :
    x ∈ splitOnChar '\n' r := by
  rcases split_dropNL_rep r with ⟨k, hk⟩
  rw [hk]
  exact List.mem_append_right _ hx

lemma collapse_clp : ∀ (n : Nat) (w : JStr),
    (splitOnChar '\n' (scanGo collapseNLMatcher n w)).headD []
      = (splitOnChar '\n' w).headD [] ∧
    ∀ l ∈ (splitOnChar '\n' (scanGo collapseNLMatcher n w)).tail,
      l ∈ (splitOnChar '\n' w).tail ∨ l = [] := by
  intro n
  induction n with
  | zero =>
    intro w
    have h0 : scanGo collapseNLMatcher 0 w = w := by cases w <;> rfl
    rw [h0]
    exact ⟨rfl, fun l hl => Or.inl hl⟩
  | succ n ih =>
    intro w
    cases w with
    | nil => exact ⟨rfl, fun l hl => Or.inl hl⟩
    | cons c cs =>
      cases hm : collapseNLMatcher (c :: cs) with
      | none =>
        simp only [scanGo, hm]
        by_cases hc : c = '\n'
        · subst hc
          rw [split_cons_sep, split_cons_sep]
          constructor
          · rfl
          · intro l hl
            simp only [List.tail] at hl ⊢
            rcases hsX : splitOnChar '\n' (scanGo collapseNLMatcher n cs)
              with _ | ⟨p, ps⟩
            · exact absurd hsX (split_ne_nil _ _)
            · rw [hsX] at hl
              rcases List.mem_cons.mp hl with rfl | hl2
              · have hh := (ih cs).1
                rw [hsX] at hh
                simp only [List.headD] at hh
                rw [hh]
                exact Or.inl (headD_mem_split cs)
              · rcases (ih cs).2 l (by rw [hsX]; exact hl2) with h3 | h3
                · exact Or.inl (List.tail_subset _ h3)
                · exact Or.inr h3
        · rw [split_cons_ne _ _ _ hc, split_cons_ne _ _ _ hc]
          constructor
          · simp only [List.headD]
            exact congrArg (c :: ·) (ih cs).1
          · simp only [List.tail]
            exact (ih cs).2
      | some pr =>
        unfold collapseNLMatcher at hm
        split at hm
        · rename_i r heq
          rw [List.cons.injEq] at heq
          obtain ⟨hc, hcs⟩ := heq
          subst hc
          subst hcs
          injection hm with hm2
          subst hm2
          have hout : scanGo collapseNLMatcher (n + 1) ('\n' :: '\n' :: '\n' :: r) =
              str "\n\n" ++ scanGo collapseNLMatcher n (r.dropWhile (· = '\n')) := by
            rfl
          rw [hout]
          have hsp : splitOnChar '\n'
              (str "\n\n" ++ scanGo collapseNLMatcher n (r.dropWhile (· = '\n'))) =
              [] :: [] :: splitOnChar '\n'
                (scanGo collapseNLMatcher n (r.dropWhile (· = '\n'))) := by
            rw [show str "\n\n" ++ scanGo collapseNLMatcher n (r.dropWhile (· = '\n')) =
              '\n' :: '\n' :: scanGo collapseNLMatcher n (r.dropWhile (· = '\n'))
              from rfl, split_cons_sep, split_cons_sep]
          rw [hsp, split_cons_sep, split_cons_sep, split_cons_sep]
          constructor
          · rfl
          · intro l hl
            simp only [List.tail] at hl ⊢
            rcases List.mem_cons.mp hl with rfl | hl2
            · exact Or.inr rfl
            · rcases hsX : splitOnChar '\n'
                  (scanGo collapseNLMatcher n (r.dropWhile (· = '\n')))
                with _ | ⟨p, ps⟩
              · exact absurd hsX (split_ne_nil _ _)
              · rw [hsX] at hl2
                rcases List.mem_cons.mp hl2 with rfl | hl3
                · have hh := (ih (r.dropWhile (· = '\n'))).1
                  rw [hsX] at hh
                  simp only [List.headD] at hh
                  rw [hh]
                  exact Or.inl (List.mem_cons_of_mem _ (List.mem_cons_of_mem _
                    (mem_split_dropNL r _ (headD_mem_split _))))
                · rcases (ih (r.dropWhile (· = '\n'))).2 l
                      (by rw [hsX]; exact hl3) with h3 | h3
                  · exact Or.inl (List.mem_cons_of_mem _ (List.mem_cons_of_mem _
                      (mem_split_dropNL r _ (List.tail_subset _ h3))))
                  · exact Or.inr h3
        · exact absurd hm (by simp)

lemma collapse_lines (w : JStr) :
    ∀ l ∈ splitOnChar '\n' (scanAll collapseNLMatcher w),
      l ∈ splitOnChar '\n' w ∨ l = [] := by
  intro l hl
  rcases hsX : splitOnChar '\n' (scanAll collapseNLMatcher w) with _ | ⟨p, ps⟩
  · exact absurd hsX (split_ne_nil _ _)
  · rw [hsX] at hl
    rcases List.mem_cons.mp hl with rfl | hl2
    · have hh := (collapse_clp w.length w).1
      unfold scanAll at hsX
      rw [hsX] at hh
      simp only [List.headD] at hh
      rw [hh]
      exact Or.inl (headD_mem_split w)
    · rcases (collapse_clp w.length w).2 l
          (by unfold scanAll at hsX; rw [hsX]; exact hl2) with h3 | h3
      · exact Or.inl (List.tail_subset _ h3)
      · exact Or.inr h3

lemma hasSub_jsTrim (pat l : JStr) (h : hasSub pat (jsTrim l) = true) :
    hasSub pat l = true := by
  rcases jsTrim_seg l with ⟨a, b, hl⟩
  rw [hl]
  exact hasSub_seg _ _ _ _ h

lemma hasSub_nil_false (pat : JStr) (hne : pat ≠ []) :
    hasSub pat [] = false := by
  cases pat with
  | nil => exact absurd rfl hne
  | cons a as => simp [hasSub, hasPre]

/-- C8 (amended): the sanitizer never invents markup on markup-free
input: when the input has no `<` and no `&`, the output has no `<`; it
has no `>` unless the input did; and it contains `data:` only if the
input did.  On general input the guarantee fails (see the
counterexample). -/
theorem sanitize_markup_free (t : JStr) (h1 : '<' ∉ t) (h2 : '&' ∉ t) :
    ('<' ∉ sanitizeEmailBody t) ∧
    ('>' ∉ t → '>' ∉ sanitizeEmailBody t) ∧
    (hasSub (str "data:") t = false →
      hasSub (str "data:") (sanitizeEmailBody t) = false) := by
  have hmapnl : ∀ x ∈ (splitOnChar '\n' (stripFooterJunk t)).map jsTrim,
      '\n' ∉ x := by
    intro x hx
    rcases List.mem_map.mp hx with ⟨l0, hl0, rfl⟩
    intro hnl
    exact lines_no_nl _ l0 hl0 (mem_jsTrim _ _ hnl)
  have hmapne : (splitOnChar '\n' (stripFooterJunk t)).map jsTrim ≠ [] := by
    intro hmape
    rcases hs : splitOnChar '\n' (stripFooterJunk t) with _ | ⟨p, ps⟩
    · exact split_ne_nil _ _ hs
    · rw [hs] at hmape
      simp at hmape
  have hchar : ∀ c : Char, c ≠ '\n' → c ∈ sanitizeEmailBody t → c ∈ t := by
    intro c hcnl hc
    unfold sanitizeEmailBody at hc
    rw [htmlToText_id t h1 h2] at hc
    unfold cleanWhitespace at hc
    have hc2 := mem_jsTrim _ _ hc
    rcases line_of_mem _ c hcnl hc2 with ⟨l, hl, hcl⟩
    rcases collapse_lines _ l hl with hl2 | rfl
    swap
    · exact absurd hcl (List.not_mem_nil c)
    rw [split_join _ hmapnl hmapne] at hl2
    rcases List.mem_map.mp hl2 with ⟨l0, hl0, rfl⟩
    have hcl0 : c ∈ l0 := mem_jsTrim _ _ hcl
    rcases stripFooterJunk_lines t l0 hl0 with h | rfl
    · exact mem_of_mem_line '\n' t l0 h c hcl0
    · exact absurd hcl0 (List.not_mem_nil c)
  have hsub : ∀ pat : JStr, pat ≠ [] → '\n' ∉ pat →
      hasSub pat (sanitizeEmailBody t) = true → hasSub pat t = true := by
    intro pat hpne hpnl hs
    unfold sanitizeEmailBody at hs
    rw [htmlToText_id t h1 h2] at hs
    unfold cleanWhitespace at hs
    have hs2 := hasSub_jsTrim _ _ hs
    rcases hasSub_line pat hpne hpnl _ hs2 with ⟨l, hl, hsl⟩
    rcases collapse_lines _ l hl with hl2 | rfl
    swap
    · rw [hasSub_nil_false pat hpne] at hsl
      exact absurd hsl Bool.false_ne_true
    rw [split_join _ hmapnl hmapne] at hl2
    rcases List.mem_map.mp hl2 with ⟨l0, hl0, rfl⟩
    have hsl0 : hasSub pat l0 = true := hasSub_jsTrim _ _ hsl
    rcases stripFooterJunk_lines t l0 hl0 with h | rfl
    · exact hasSub_of_line pat t l0 h hsl0
    · rw [hasSub_nil_false pat hpne] at hsl0
      exact absurd hsl0 Bool.false_ne_true
  refine ⟨?_, ?_, ?_⟩
  · intro hmem
    exact h1 (hchar '<' (by decide) hmem)
  · intro hgt hmem
    exact hgt (hchar '>' (by decide) hmem)
  · intro hd
    cases hb : hasSub (str "data:") (sanitizeEmailBody t)
    · rfl
    · exact absurd (hsub (str "data:") (by decide) (by decide) hb)
        (by rw [hd]; exact Bool.false_ne_true)

/-- Witness for `sanitize_markup_free` on a concrete markup-free body. -/
theorem sanitize_markup_free_witness :
    ('<' ∉ sanitizeEmailBody (str "plain text\nno markup at all")) ∧
    ('>' ∉ sanitizeEmailBody (str "plain text\nno markup at all")) ∧
    hasSub (str "data:")
      (sanitizeEmailBody (str "plain text\nno markup at all")) = false :=
  ⟨(sanitize_markup_free (str "plain text\nno markup at all")
      (by decide) (by decide)).1,
    (sanitize_markup_free (str "plain text\nno markup at all")
      (by decide) (by decide)).2.1 (by decide),
    (sanitize_markup_free (str "plain text\nno markup at all")
      (by decide) (by decide)).2.2 (by decide)⟩
